import Mathlib

/-!
Shallow embedding of the adaptive contour-plot engine (`src/plot.ts` together
with the helpers of `src/rect.ts`) of the contour_plot repository.

Conventions of the embedding:

* JavaScript numbers are modelled as exact rationals (`ℚ`).  All arithmetic
  the engine performs on the inputs appearing in this development is exact
  dyadic arithmetic, on which IEEE doubles agree with the rationals.
  Because the rational field operations of the ambient library are marked
  irreducible (which blocks kernel evaluation), the namespace `Q` below
  provides definitionally transparent clones `Q.add`, `Q.sub`, `Q.mul`,
  `Q.div`, each proved equal to the standard operation; the engine
  definitions use the clones so that concrete runs can be evaluated by
  `decide`, and every theorem may rewrite them away with `Q.add_eq` etc.
* The JavaScript expression `e | 0` (`ToInt32`) is modelled by `toInt32`:
  truncation towards zero followed by wrapping into `[-2^31, 2^31)`.
* A JavaScript `Map` is modelled as an insertion-ordered association list:
  `set` overwrites in place when the key is present and appends otherwise,
  which is exactly the iteration-order contract of `Map`.
* Node objects are mutable and shared (between the store, the traversal queue
  and the store of the previous state), so they live in an explicit heap
  (`List (Node V)`) addressed by allocation index; the store and the queue
  hold heap indices.
* The recursive procedures (`subdivideLeaf`, `traverse`, `collectSquares`,
  `leafAt`, the run walker) are given explicit fuel and return `Option`/
  `Except` values; `none` means the fuel ran out (never reached with enough
  fuel) or that a non-null assertion of the source would have failed.
* `performance.now` / `elapsedMs` is not modelled (no claim mentions it).
-/

namespace ContourPlot

namespace Q

/-- Kernel-transparent clone of rational addition. -/
def add (a b : ℚ) : ℚ := mkRat (a.num * b.den + b.num * a.den) (a.den * b.den)

/-- Kernel-transparent clone of rational subtraction. -/
def sub (a b : ℚ) : ℚ := mkRat (a.num * b.den - b.num * a.den) (a.den * b.den)

/-- Kernel-transparent clone of rational multiplication. -/
def mul (a b : ℚ) : ℚ := mkRat (a.num * b.num) (a.den * b.den)

/-- Kernel-transparent clone of rational inversion. -/
def inv (a : ℚ) : ℚ := mkRat (Int.sign a.num * a.den) a.num.natAbs

/-- Kernel-transparent clone of rational division. -/
def div (a b : ℚ) : ℚ := mul a (inv b)

end Q

/-- Rectangle record from `src/rect.ts`. -/
structure Rect where
  x : ℚ
  y : ℚ
  width : ℚ
  height : ℚ
deriving DecidableEq, Repr

/-- `alignToGrid` from `src/rect.ts`: the smallest enclosing rectangle whose
boundaries are multiples of `gridSpacing`. -/
def alignToGrid (rect : Rect) (gridSpacing : ℚ) : Rect :=
  let x : ℚ := Q.mul ⌊Q.div rect.x gridSpacing⌋ gridSpacing
  let y : ℚ := Q.mul ⌊Q.div rect.y gridSpacing⌋ gridSpacing
  { x := x
    y := y
    width := Q.sub (Q.mul ⌈Q.div (Q.add rect.x rect.width) gridSpacing⌉ gridSpacing) x
    height := Q.sub (Q.mul ⌈Q.div (Q.add rect.y rect.height) gridSpacing⌉ gridSpacing) y }

/-- `overlappingArea` from `src/rect.ts`. -/
def overlappingArea (rect1 rect2 : Rect) : ℚ :=
  let width := Q.sub (min (Q.add rect1.x rect1.width) (Q.add rect2.x rect2.width))
      (max rect1.x rect2.x)
  let height := Q.sub (min (Q.add rect1.y rect1.height) (Q.add rect2.y rect2.height))
      (max rect1.y rect2.y)
  if 0 < width ∧ 0 < height then Q.mul width height else 0

/-- Truncation towards zero, the behaviour of JavaScript `Math.trunc` and the
first step of `ToInt32`.  (`Int.tdiv` rounds towards zero and `q.den > 0`.) -/
def ratTrunc (q : ℚ) : ℤ := Int.tdiv q.num q.den

/-- JavaScript `e | 0`: `ToInt32` of an exactly represented number.  The
result is an integer in `[-2^31, 2^31)`, returned as a rational because the
engine mixes such keys with further rational arithmetic. -/
def toInt32 (q : ℚ) : ℚ :=
  let m : ℤ := (ratTrunc q) % (2 ^ 32 : ℤ)
  ((if 2 ^ 31 ≤ m then m - 2 ^ 32 else m : ℤ) : ℚ)

/-- Quadtree node (`Node<T>` of `src/plot.ts`): a square of edge `size`
centered at `(x, y)`; `leaf` tells whether it is subdivided. -/
structure Node (V : Type) where
  x : ℚ
  y : ℚ
  size : ℚ
  value : V
  leaf : Bool
deriving DecidableEq, Repr

/-- Heap of node objects; a node reference is an index into this list. -/
abbrev Heap (V : Type) := List (Node V)

def heapGet (h : Heap V) (i : ℕ) : Option (Node V) := h[i]?

def heapSet (h : Heap V) (i : ℕ) (n : Node V) : Heap V := h.set i n

def heapAlloc (h : Heap V) (n : Node V) : Heap V × ℕ := (h ++ [n], h.length)

/-- Insertion-ordered map from keys to node references (`Map<number, Node>`:
the `NodeMap` of `src/plot.ts`). -/
abbrev Store := List (ℚ × ℕ)

def storeGet (s : Store) (k : ℚ) : Option ℕ :=
  match s.find? (fun e => e.1 = k) with
  | some e => some e.2
  | none => none

/-- JavaScript `Map.set`: overwrite in place if present, append otherwise. -/
def storeSet (s : Store) (k : ℚ) (i : ℕ) : Store :=
  match s with
  | [] => [(k, i)]
  | e :: rest => if e.1 = k then (k, i) :: rest else e :: storeSet rest k i

/-- Plot state (`State<T>` of `src/plot.ts`). -/
structure State where
  nodes : Store
  domain : Rect
  sampleSpacing : ℚ
  pixelSize : ℚ
  c0 : ℚ
  cx : ℚ
  cy : ℚ
deriving DecidableEq, Repr

/-- Error taxonomy of the engine (section 7 of the design): invalid-argument
for the four argument assertions of `createState`, range for the keying
coefficient overflow assertion.  `noFuel` is an artefact of the embedding:
the fuel of a recursive procedure ran out. -/
inductive Err where
  | invalidArg
  | rangeErr
  | noFuel
deriving DecidableEq, Repr

deriving instance DecidableEq for Except

/-- `Number.MAX_SAFE_INTEGER`. -/
def MAX_SAFE_INTEGER : ℚ := ((2 ^ 53 - 1 : ℤ) : ℚ)

/-- Fuel-driven structural test for a natural number being a power of two
(the fuel keeps the recursion kernel-computable). -/
def isPow2NatAux : ℕ → ℕ → Bool
  | _, 0 => false
  | 0, _ => false
  | _ + 1, 1 => true
  | fuel + 1, n + 2 => decide ((n + 2) % 2 = 0) && isPow2NatAux fuel ((n + 2) / 2)

/-- Boolean test for a natural number being a power of two. -/
def isPow2Nat (n : ℕ) : Bool := isPow2NatAux (n + 1) n

/-- `Number.isInteger(Math.log2(q))`: `q` is an exact power of two (with an
integer, possibly negative, exponent). -/
def isPow2 (q : ℚ) : Bool :=
  (q.num = 1 && isPow2Nat q.den) || (q.den = 1 && isPow2Nat q.num.toNat)

/-- `createState` from `src/plot.ts`. -/
def createState (domain : Rect) (sampleSpacing pixelSize : ℚ) :
    Except Err State :=
  if ¬ isPow2 sampleSpacing then .error .invalidArg else
  if ¬ isPow2 pixelSize then .error .invalidArg else
  if domain.width < 0 then .error .invalidArg else
  if domain.height < 0 then .error .invalidArg else
  let sampleSpacing := max pixelSize sampleSpacing
  let domain := alignToGrid domain sampleSpacing
  let cx : ℚ := Q.div 2 pixelSize
  let cy : ℚ := Q.mul (Q.div domain.width pixelSize) cx
  let c0 : ℚ := Q.sub (-(Q.mul cx domain.x)) (Q.mul cy domain.y)
  if |c0| ≤ Q.div MAX_SAFE_INTEGER 2 then
    .ok { nodes := [], domain := domain, sampleSpacing := sampleSpacing
          pixelSize := pixelSize, c0 := c0, cx := cx, cy := cy }
  else .error .rangeErr

/-- The module-level `EMPTY_STATE` constant
(`createState({x:0,y:0,width:0,height:0}, 1, 1)`). -/
def EMPTY_STATE : State :=
  { nodes := [], domain := ⟨0, 0, 0, 0⟩, sampleSpacing := 1, pixelSize := 1
    c0 := 0, cx := 2, cy := 0 }

/-- `haveSameBoundaries` from `src/plot.ts`. -/
def haveSameBoundaries (state1 state2 : State) : Bool :=
  state1.domain.x = state2.domain.x ∧ state1.domain.y = state2.domain.y ∧
  state1.domain.width = state2.domain.width ∧
  state1.domain.height = state2.domain.height ∧
  state1.pixelSize = state2.pixelSize ∧
  state1.sampleSpacing = state2.sampleSpacing

/-- The mutable engine pieces threaded through a computation: the node heap,
the node store of the state being built (`state.nodes`), the traversal queue
(`this.queue`, most recent first) and the function-call counter
(`this.stats.newCalls`). -/
structure Env (V : Type) where
  heap : Heap V
  store : Store
  queue : List ℕ
  newCalls : ℕ
deriving DecidableEq, Repr

variable {V : Type} [DecidableEq V]

/-- The key `(c0 + cy * y + cx * x) | 0` used throughout `src/plot.ts`. -/
def nodeKey (st : State) (x y : ℚ) : ℚ :=
  toInt32 (Q.add (Q.add st.c0 (Q.mul st.cy y)) (Q.mul st.cx x))

/-- One grid cell of `computeGrid`: reuse the node of the previous state at
the same center when present, otherwise evaluate the function, create a leaf
and enqueue it. -/
def gridCell (f : ℚ → ℚ → V) (st prevState : State) (usePrev : Bool)
    (x y : ℚ) (e : Env V) : Env V :=
  let key := nodeKey st x y
  let prevId := if usePrev then storeGet prevState.nodes (nodeKey prevState x y)
    else none
  match prevId with
  | some id => { e with store := storeSet e.store key id }
  | none =>
    let a := heapAlloc e.heap ⟨x, y, st.sampleSpacing, f x y, true⟩
    { heap := a.1, store := storeSet e.store key a.2
      queue := a.2 :: e.queue, newCalls := e.newCalls + 1 }

/-- The inner (x) loop of `computeGrid`, iterating `n` cells starting at `x`
and stepping by `sampleSpacing`. -/
def gridCells (f : ℚ → ℚ → V) (st prevState : State) (usePrev : Bool)
    (y : ℚ) : ℕ → ℚ → Env V → Env V
  | 0, _, e => e
  | n + 1, x, e =>
    gridCells f st prevState usePrev y n (Q.add x st.sampleSpacing)
      (gridCell f st prevState usePrev x y e)

/-- The outer (y) loop of `computeGrid`. -/
def gridRows (f : ℚ → ℚ → V) (st prevState : State) (usePrev : Bool)
    (nx : ℕ) : ℕ → ℚ → Env V → Env V
  | 0, _, e => e
  | n + 1, y, e =>
    gridRows f st prevState usePrev nx n (Q.add y st.sampleSpacing)
      (gridCells f st prevState usePrev y nx
        (Q.add st.domain.x (Q.div st.sampleSpacing 2)) e)

/-- Number of iterations of a JavaScript loop
`for (v = start; v < start + len; v += step)` with `step > 0`:
`⌈len / step⌉` (taken as `0` when negative). -/
def stepCount (len step : ℚ) : ℕ := (Int.toNat ⌈Q.div len step⌉)

/-- `computeGrid` from `src/plot.ts`: evaluate the function at the grid
points `sampleSpacing` apart (row-major, y outer), reusing nodes of the
previous state found under its keying. -/
def computeGrid (f : ℚ → ℚ → V) (st prevState : State) (e : Env V) : Env V :=
  let usePrev := decide (prevState.nodes ≠ [])
  gridRows f st prevState usePrev
    (stepCount st.domain.width st.sampleSpacing)
    (stepCount st.domain.height st.sampleSpacing)
    (Q.add st.domain.y (Q.div st.sampleSpacing 2)) e

/-- `addChildren` from `src/plot.ts`: allocate the four quadrant children of
the square centered at `(x, y)` with edge `size`, register them in the store
with incrementally maintained keys, enqueue them, and count 4 new calls. -/
def addChildren (f : ℚ → ℚ → V) (st : State) (x y size : ℚ) (e : Env V) :
    Env V :=
  let x1 := Q.sub x (Q.div size 4)
  let y1 := Q.sub y (Q.div size 4)
  let half := Q.div size 2
  let key1 := nodeKey st x1 y1
  let a1 := heapAlloc e.heap ⟨x1, y1, half, f x1 y1, true⟩
  let store := storeSet e.store key1 a1.2
  let x2 := Q.add x1 half
  let key2 := Q.add key1 (Q.mul half st.cx)
  let a2 := heapAlloc a1.1 ⟨x2, y1, half, f x2 y1, true⟩
  let store := storeSet store key2 a2.2
  let y2 := Q.add y1 half
  let key3 := Q.add key2 (Q.mul half st.cy)
  let a3 := heapAlloc a2.1 ⟨x2, y2, half, f x2 y2, true⟩
  let store := storeSet store key3 a3.2
  let x3 := Q.sub x2 half
  let key4 := Q.sub key3 (Q.mul half st.cx)
  let a4 := heapAlloc a3.1 ⟨x3, y2, half, f x3 y2, true⟩
  let store := storeSet store key4 a4.2
  { heap := a4.1, store := store
    queue := a4.2 :: a3.2 :: a2.2 :: a1.2 :: e.queue
    newCalls := e.newCalls + 4 }

/-- `(Math.floor(c / parentSize) + 0.5) * parentSize`: the matching parent
coordinate used by `subdivideLeaf`, `traverse` and the run walker. -/
def parentCoord (c parentSize : ℚ) : ℚ :=
  Q.mul (Q.add ((⌊Q.div c parentSize⌋ : ℤ) : ℚ) (mkRat 1 2)) parentSize

/-- `subdivideLeaf` from `src/plot.ts`: mark the node as interior, first
recursively subdivide the larger (parent-sized) axis neighbors that would
otherwise become unbalanced, then create the four children.  The fuel bounds
the recursion depth; `none` reports exhausted fuel (or a dangling node
reference, which the source cannot observe). -/
def subdivideLeaf (f : ℚ → ℚ → V) (st : State) :
    ℕ → ℕ → Env V → Option (Env V)
  | 0, _, _ => none
  | fuel + 1, id, e =>
    match heapGet e.heap id with
    | none => none
    | some node =>
      let x := node.x
      let y := node.y
      let size := node.size
      let e1 : Env V := { e with heap := heapSet e.heap id { node with leaf := false } }
      let parentSize := Q.mul size 2
      let parentX := parentCoord x parentSize
      let parentY := parentCoord y parentSize
      let parentKey := Q.add (Q.add st.c0 (Q.mul st.cy parentY)) (Q.mul st.cx parentX)
      let xnId := storeGet e1.store
        (toInt32 (Q.add parentKey (Q.mul (Q.mul 4 (Q.sub x parentX)) st.cx)))
      let ynId := storeGet e1.store
        (toInt32 (Q.add parentKey (Q.mul (Q.mul 4 (Q.sub y parentY)) st.cy)))
      let afterX : Option (Env V) :=
        match xnId with
        | none => some e1
        | some nid =>
          match heapGet e1.heap nid with
          | none => none
          | some n => if n.leaf then subdivideLeaf f st fuel nid e1 else some e1
      match afterX with
      | none => none
      | some e2 =>
        let afterY : Option (Env V) :=
          match ynId with
          | none => some e2
          | some nid =>
            match heapGet e2.heap nid with
            | none => none
            | some n => if n.leaf then subdivideLeaf f st fuel nid e2 else some e2
        match afterY with
        | none => none
        | some e3 => some (addChildren f st x y size e3)

/-- Subdivide the neighbor found under `nid?` when it exists, is (still) a
leaf and its value differs from `value` (one `if` block of `traverse`).
The first returned boolean is the contribution to `subdivideThis`. -/
def traverseNeighbor (f : ℚ → ℚ → V) (st : State) (fuel : ℕ) (value : V)
    (nid? : Option ℕ) (e : Env V) : Option (Env V × Bool) :=
  match nid? with
  | none => some (e, false)
  | some nid =>
    match heapGet e.heap nid with
    | none => none
    | some n =>
      if value ≠ n.value then
        if n.leaf then
          match subdivideLeaf f st fuel nid e with
          | none => none
          | some e2 => some (e2, true)
        else some (e, true)
      else some (e, false)

/-- `traverse` from `src/plot.ts`: drain the LIFO queue; for a finest-level
node only the parent-sized axis neighbors are examined (and subdivided when
they disagree and are leaves); otherwise every existing axis neighbor that
disagrees is subdivided (when still a leaf) and then the node itself. -/
def traverse (f : ℚ → ℚ → V) (st : State) : ℕ → Env V → Option (Env V)
  | 0, _ => none
  | fuel + 1, e =>
    match e.queue with
    | [] => some e
    | id :: rest =>
      let e := { e with queue := rest }
      match heapGet e.heap id with
      | none => none
      | some node =>
        if ¬ node.leaf then traverse f st fuel e else
        let x := node.x
        let y := node.y
        let size := node.size
        let value := node.value
        let parentSize := Q.mul size 2
        let parentX := parentCoord x parentSize
        let parentY := parentCoord y parentSize
        let key := nodeKey st x y
        let parentKey := nodeKey st parentX parentY
        if size = st.pixelSize then
          let nxId := storeGet e.store
            (toInt32 (Q.add parentKey (Q.mul (Q.mul (Q.sub x parentX) 4) st.cx)))
          let nyId := storeGet e.store
            (toInt32 (Q.add parentKey (Q.mul (Q.mul (Q.sub y parentY) 4) st.cy)))
          let stepX : Option (Env V) :=
            match nxId with
            | none => some e
            | some nid =>
              match heapGet e.heap nid with
              | none => none
              | some n =>
                if n.leaf ∧ value ≠ n.value then subdivideLeaf f st fuel nid e
                else some e
          match stepX with
          | none => none
          | some e2 =>
            let stepY : Option (Env V) :=
              match nyId with
              | none => some e2
              | some nid =>
                match heapGet e2.heap nid with
                | none => none
                | some n =>
                  if n.leaf ∧ value ≠ n.value then subdivideLeaf f st fuel nid e2
                  else some e2
            match stepY with
            | none => none
            | some e3 => traverse f st fuel e3
        else
          let nId := (storeGet e.store (toInt32 (Q.sub key (Q.mul size st.cy)))).orElse
            (fun _ => storeGet e.store (toInt32 (Q.sub parentKey (Q.mul parentSize st.cy))))
          let eId := (storeGet e.store (toInt32 (Q.add key (Q.mul size st.cx)))).orElse
            (fun _ => storeGet e.store (toInt32 (Q.add parentKey (Q.mul parentSize st.cx))))
          let sId := (storeGet e.store (toInt32 (Q.add key (Q.mul size st.cy)))).orElse
            (fun _ => storeGet e.store (toInt32 (Q.add parentKey (Q.mul parentSize st.cy))))
          let wId := (storeGet e.store (toInt32 (Q.sub key (Q.mul size st.cx)))).orElse
            (fun _ => storeGet e.store (toInt32 (Q.sub parentKey (Q.mul parentSize st.cx))))
          match traverseNeighbor f st fuel value nId e with
          | none => none
          | some (e2, d1) =>
            match traverseNeighbor f st fuel value eId e2 with
            | none => none
            | some (e3, d2) =>
              match traverseNeighbor f st fuel value sId e3 with
              | none => none
              | some (e4, d3) =>
                match traverseNeighbor f st fuel value wId e4 with
                | none => none
                | some (e5, d4) =>
                  if d1 || d2 || d3 || d4 then
                    match subdivideLeaf f st fuel id e5 with
                    | none => none
                    | some e6 => traverse f st fuel e6
                  else traverse f st fuel e5

/-- One low-boundary block of `copyNodesFiltered` (the `x0`/`y0` branches):
`none` means the node is dropped (`continue`); otherwise the booleans are
(enqueue this node, coerce it to a leaf). -/
def filterLow (coord lo loS ss size : ℚ) : Option (Bool × Bool) :=
  if lo ≥ loS then
    if coord < lo then none else some (false, false)
  else
    if coord < Q.sub (Q.add loS ss) (Q.mul 2 size) then none
    else some (decide (coord < Q.add loS ss),
      decide (coord < Q.sub (Q.add loS ss) (Q.div size 2)))

/-- One high-boundary block of `copyNodesFiltered` (the `x1`/`y1` branches). -/
def filterHigh (coord hi hiS ss size : ℚ) : Option (Bool × Bool) :=
  if hi ≤ hiS then
    if coord > hi then none else some (false, false)
  else
    if coord > Q.add (Q.sub hiS ss) (Q.mul 2 size) then none
    else some (decide (coord > Q.sub hiS ss),
      decide (coord > Q.add (Q.sub hiS ss) (Q.div size 2)))

/-- Process one node of the source store in `copyNodesFiltered`.  The four
boundary blocks run in order (x-low, y-low, x-high, y-high); a block may
coerce the node to a leaf before a later block drops it, and that mutation
persists, exactly as in the source. -/
def copyFilterNode (source target : State) (e : Env V) (id : ℕ) : Env V :=
  match heapGet e.heap id with
  | none => e
  | some node =>
    let x := node.x
    let y := node.y
    let size := node.size
    if size ≥ target.sampleSpacing then e else
    let ss := target.sampleSpacing
    let x0 := target.domain.x
    let y0 := target.domain.y
    let x1 := Q.add x0 target.domain.width
    let y1 := Q.add y0 target.domain.height
    let sx0 := source.domain.x
    let sy0 := source.domain.y
    let sx1 := Q.add sx0 source.domain.width
    let sy1 := Q.add sy0 source.domain.height
    let coerce := fun (ev : Env V) (b : Bool) =>
      if b then { ev with heap := heapSet ev.heap id { node with leaf := true } }
      else ev
    match filterLow x x0 sx0 ss size with
    | none => e
    | some (q1, c1) =>
      let e := coerce e c1
      match filterLow y y0 sy0 ss size with
      | none => e
      | some (q2, c2) =>
        let e := coerce e c2
        match filterHigh x x1 sx1 ss size with
        | none => e
        | some (q3, c3) =>
          let e := coerce e c3
          match filterHigh y y1 sy1 ss size with
          | none => e
          | some (q4, c4) =>
            let e := coerce e c4
            { e with
              store := storeSet e.store (nodeKey target x y) id,
              queue := if q1 || q2 || q3 || q4 then id :: e.queue else e.queue }

/-- `copyNodesFiltered` from `src/plot.ts`: copy the nodes of the source
state that satisfy the constraints of the target state into the target store
(in source iteration order), enqueueing nodes at the target boundary. -/
def copyNodesFiltered (source target : State) (e : Env V) : Env V :=
  source.nodes.foldl (fun ev entry => copyFilterNode source target ev entry.2) e

/-- The `Plot<T>` object of `src/plot.ts`: the heap of node objects, the
current state, the traversal queue and the statistics of the last
computation (`elapsedMs` is not modelled). -/
structure Plot (V : Type) where
  heap : Heap V
  state : State
  queue : List ℕ
  statsSize : ℕ
  statsNewCalls : ℕ
  statsNewArea : ℚ
deriving DecidableEq, Repr

/-- A freshly constructed plot (`new Plot(f)`). -/
def Plot.fresh : Plot V :=
  { heap := [], state := EMPTY_STATE, queue := [], statsSize := 0
    statsNewCalls := 0, statsNewArea := 0 }

/-- The final assembly of `Plot.compute`: record the new state and the
statistics of the source (`this.state = state; this.stats.size = ...`),
given the outcome of the traversal phase. -/
def computeFinish (state : State) (pIn reusedArea : ℚ) (o : Option (Env V)) :
    Except Err (Plot V) :=
  match o with
  | none => .error .noFuel
  | some e2 =>
    .ok { heap := e2.heap
          state := { state with nodes := e2.store }
          queue := e2.queue
          statsSize := e2.store.length
          statsNewCalls := e2.newCalls
          statsNewArea := Q.div
            (Q.sub (Q.mul state.domain.width state.domain.height) reusedArea)
            (Q.mul pIn pIn) }

/-- `Plot.compute` from `src/plot.ts`.  The fuel bounds the traversal work;
with enough fuel the result is independent of it. -/
def compute (f : ℚ → ℚ → V) (fuel : ℕ) (P : Plot V) (domainIn : Rect)
    (ssIn pIn : ℚ) : Except Err (Plot V) :=
  let prevState := P.state
  match createState domainIn ssIn pIn with
  | .error err => .error err
  | .ok state =>
    let sampleSpacing := state.sampleSpacing
    let overlap := overlappingArea state.domain prevState.domain
    let reuse := sampleSpacing = prevState.sampleSpacing ∧
      pIn = prevState.pixelSize ∧ 0 < overlap
    let e0 : Env V := ⟨P.heap, [], P.queue, 0⟩
    let step1 : Env V × ℚ :=
      if reuse then
        let e :=
          if haveSameBoundaries state prevState then
            { e0 with store := prevState.nodes }
          else
            copyNodesFiltered prevState state (computeGrid f state prevState e0)
        (e, if pIn = prevState.pixelSize then overlap else 0)
      else (computeGrid f state EMPTY_STATE e0, 0)
    computeFinish state pIn step1.2
      (if pIn < sampleSpacing then traverse f state fuel step1.1
       else some { step1.1 with queue := [] })

/-- `plot.domain()`. -/
def Plot.domain (P : Plot V) : Rect := P.state.domain

/-- `plot.pixelSize()`. -/
def Plot.pixelSize (P : Plot V) : ℚ := P.state.pixelSize

/-- The output record of `plot.squares()` and of the leaves listing (the
`Square<T>` type: center, edge length, value). -/
structure SquareRec (V : Type) where
  x : ℚ
  y : ℚ
  size : ℚ
  value : V
deriving DecidableEq, Repr

def Node.toSquare (n : Node V) : SquareRec V := ⟨n.x, n.y, n.size, n.value⟩

/-- `plot.squares({all: true})`: every leaf of the store, in store iteration
order. -/
def squaresAll (P : Plot V) : List (SquareRec V) :=
  P.state.nodes.filterMap fun entry =>
    match heapGet P.heap entry.2 with
    | some n => if n.leaf then some n.toSquare else none
    | none => none

/-- Snapshot pushed by `squares.push(child)` when `b` holds: the current
fields of the node object (the source pushes the object reference; its
fields are no longer mutated after the push inside one extraction). -/
def pushChild (heap : Heap V) (b : Bool) (cid : ℕ) : List (SquareRec V) :=
  if b then
    match heapGet heap cid with
    | some n => [n.toSquare]
    | none => []
  else []

/-- `collectSquares` from `src/plot.ts`: return the unanimous value of the
subtree under `id` (`some v`) or the `NON_UNIFORM` sentinel (`none`),
appending the maximal uniform squares below a non-uniform node to the
output and caching a unanimous value by mutating the node.  The result is
`(mutated heap, squares pushed in order, unanimous value?)`; the outer
`none` is exhausted fuel or a failed non-null assertion. -/
def collectSquares (st : State) (store : Store) :
    ℕ → Heap V → ℕ → Option (Heap V × List (SquareRec V) × Option V)
  | 0, _, _ => none
  | fuel + 1, heap, id =>
    match heapGet heap id with
    | none => none
    | some node =>
      if node.leaf then some (heap, [], some node.value) else
      let childRadius := Q.div node.size 4
      let key := Q.add (Q.add st.c0 (Q.mul st.cy node.y)) (Q.mul st.cx node.x)
      let get := fun (k : ℚ) => storeGet store k
      match get (toInt32 (Q.add key (Q.mul childRadius (Q.add st.cx st.cy)))),
          get (toInt32 (Q.add key (Q.mul childRadius (Q.sub st.cx st.cy)))),
          get (toInt32 (Q.sub key (Q.mul childRadius (Q.add st.cx st.cy)))),
          get (toInt32 (Q.sub key (Q.mul childRadius (Q.sub st.cx st.cy)))) with
      | some id1, some id2, some id3, some id4 =>
        match collectSquares st store fuel heap id1 with
        | none => none
        | some (heap1, out1, v1) =>
          match collectSquares st store fuel heap1 id2 with
          | none => none
          | some (heap2, out2, v2) =>
            match collectSquares st store fuel heap2 id3 with
            | none => none
            | some (heap3, out3, v3) =>
              match collectSquares st store fuel heap3 id4 with
              | none => none
              | some (heap4, out4, v4) =>
                if v1 = none ∨ v1 ≠ v2 ∨ v1 ≠ v3 ∨ v1 ≠ v4 then
                  some (heap4,
                    out1 ++ out2 ++ out3 ++ out4 ++
                      pushChild heap4 v1.isSome id1 ++ pushChild heap4 v2.isSome id2 ++
                      pushChild heap4 v3.isSome id3 ++ pushChild heap4 v4.isSome id4,
                    none)
                else
                  match v1 with
                  | some v =>
                    some (heapSet heap4 id { node with value := v },
                      out1 ++ out2 ++ out3 ++ out4, some v)
                  | none => none
      | _, _, _, _ => none

/-- The loop of `squares()` with `all = false`: visit the store entries in
order, stopping at the first node whose size is below `sampleSpacing`, and
push each root whose subtree turned out uniform. -/
def squaresCLoop (st : State) (store : Store) (fuel : ℕ) :
    List (ℚ × ℕ) → Heap V → Option (Heap V × List (SquareRec V))
  | [], heap => some (heap, [])
  | entry :: rest, heap =>
    match heapGet heap entry.2 with
    | none => none
    | some node =>
      if node.size < st.sampleSpacing then some (heap, []) else
      match collectSquares st store fuel heap entry.2 with
      | none => none
      | some (heap1, out, v) =>
        match squaresCLoop st store fuel rest heap1 with
        | none => none
        | some (heap2, outRest) =>
          some (heap2, out ++ pushChild heap1 v.isSome entry.2 ++ outRest)

/-- `plot.squares()` (with the default `all = false`): the compressed tile
list, together with the plot whose heap carries the caching mutations. -/
def squaresCompressed (fuel : ℕ) (P : Plot V) :
    Option (List (SquareRec V) × Plot V) :=
  match squaresCLoop P.state P.state.nodes fuel P.state.nodes P.heap with
  | none => none
  | some (heap, out) => some (out, { P with heap := heap })

/-- The record of `plot.runs()` (the `Run<T>` type). -/
structure RunRec (V : Type) where
  x0 : ℚ
  x1 : ℚ
  y : ℚ
  value : V
deriving DecidableEq, Repr

/-- `leafAt` from `src/plot.ts`: look up the node containing `(x, y)`,
snapping to ever larger cell centers while nothing is found. -/
def leafAt (st : State) (store : Store) :
    ℕ → ℚ → ℚ → ℚ → Option ℕ
  | 0, _, _, _ => none
  | fuel + 1, x, y, size =>
    match storeGet store (nodeKey st x y) with
    | some id => some id
    | none =>
      if size < st.sampleSpacing then
        let size2 := Q.mul size 2
        leafAt st store fuel (parentCoord x size2) (parentCoord y size2) size2
      else none

/-- The inner (west-to-east) walk of one row of `runs()`. -/
def runRow (st : State) (store : Store) (heap : Heap V) (xMax y : ℚ) :
    ℕ → ℕ → ℚ → ℚ → Option (List (RunRec V))
  | 0, _, _, _ => none
  | fuel + 1, lastId, x0, x1 =>
    match heapGet heap lastId with
    | none => none
    | some lastNode =>
      if ¬ (x1 < xMax) then some [⟨x0, x1, y, lastNode.value⟩] else
      let rightX := Q.add lastNode.x lastNode.size
      let rightY := lastNode.y
      let firstId := storeGet store (nodeKey st rightX rightY)
      let nodeId : Option ℕ :=
        match firstId with
        | none =>
          let parentSize := Q.mul lastNode.size 2
          let parentX := Q.add rightX (Q.div parentSize 4)
          let parentY := parentCoord rightY parentSize
          storeGet store (nodeKey st parentX parentY)
        | some id =>
          match heapGet heap id with
          | none => none
          | some n =>
            if ¬ n.leaf then
              let offset := Q.div lastNode.size 4
              let childX := Q.sub rightX offset
              let childY := if y > rightY then Q.add rightY offset
                else Q.sub rightY offset
              storeGet store (nodeKey st childX childY)
            else some id
      match nodeId with
      | none => none
      | some nid =>
        match heapGet heap nid with
        | none => none
        | some n =>
          if n.value = lastNode.value then
            runRow st store heap xMax y fuel nid x0 (Q.add x1 n.size)
          else
            match runRow st store heap xMax y fuel nid x1 (Q.add x1 n.size) with
            | none => none
            | some rest => some (⟨x0, x1, y, lastNode.value⟩ :: rest)

/-- The outer (row) loop of `runs()`. -/
def runRows (st : State) (store : Store) (heap : Heap V) (fuel : ℕ)
    (xMin xMax : ℚ) : ℕ → ℚ → Option (List (RunRec V))
  | 0, _ => some []
  | n + 1, y =>
    match leafAt st store fuel (Q.add xMin (Q.div st.pixelSize 2)) y
        st.pixelSize with
    | none => none
    | some id =>
      match heapGet heap id with
      | none => none
      | some node =>
        match runRow st store heap xMax y fuel id xMin (Q.add xMin node.size) with
        | none => none
        | some row =>
          match runRows st store heap fuel xMin xMax n (Q.add y st.pixelSize) with
          | none => none
          | some rest => some (row ++ rest)

/-- `plot.runs()` from `src/plot.ts`: the lexicographically ordered constant
runs, one pixel row at a time.  `none` is exhausted fuel or a failed
non-null assertion of the walker. -/
def runs (fuel : ℕ) (P : Plot V) : Option (List (RunRec V)) :=
  let st := P.state
  let xMin := st.domain.x
  let yMin := st.domain.y
  let xMax := Q.add xMin st.domain.width
  if xMin = xMax then some [] else
  runRows st st.nodes P.heap fuel xMin xMax
    (stepCount (Q.sub st.domain.height (Q.div st.pixelSize 2)) st.pixelSize)
    (Q.add yMin (Q.div st.pixelSize 2))

/-!  Formalization of the geometric language of the coverage properties:
a point lies in a (closed) square of the output, or in a rectangle. -/

/-- The point `(px, py)` lies in the closed square `s`. -/
def ptInSquare (s : SquareRec V) (px py : ℚ) : Prop :=
  |Q.sub px s.x| ≤ Q.div s.size 2 ∧ |Q.sub py s.y| ≤ Q.div s.size 2

instance (s : SquareRec V) (px py : ℚ) : Decidable (ptInSquare s px py) := by
  unfold ptInSquare; infer_instance

/-- The point `(px, py)` lies in the closed rectangle `r`. -/
def ptInRect (r : Rect) (px py : ℚ) : Prop :=
  r.x ≤ px ∧ px ≤ Q.add r.x r.width ∧ r.y ≤ py ∧ py ≤ Q.add r.y r.height

instance (r : Rect) (px py : ℚ) : Decidable (ptInRect r px py) := by
  unfold ptInRect; infer_instance

/-- Extract the plot from a `compute` result (used to name concrete runs). -/
def okOr (dflt : Plot V) : Except Err (Plot V) → Plot V
  | .ok P => P
  | .error _ => dflt

/-- Extract the mutated plot from a `squaresCompressed` result. -/
def okOrC (dflt : Plot V) : Option (List (SquareRec V) × Plot V) → Plot V
  | some r => r.2
  | none => dflt

/-- The state `createState` builds when its assertions pass. -/
def mkState (d : Rect) (s p : ℚ) : State :=
  let ss := max p s
  let dom := alignToGrid d ss
  { nodes := [], domain := dom, sampleSpacing := ss, pixelSize := p
    c0 := Q.sub (-(Q.mul (Q.div 2 p) dom.x))
      (Q.mul (Q.mul (Q.div dom.width p) (Q.div 2 p)) dom.y)
    cx := Q.div 2 p, cy := Q.mul (Q.div dom.width p) (Q.div 2 p) }

/-- Rectangle containment (`r1 ⊆ r2`). -/
def rectInRect (r1 r2 : Rect) : Prop :=
  r2.x ≤ r1.x ∧ Q.add r1.x r1.width ≤ Q.add r2.x r2.width ∧
  r2.y ≤ r1.y ∧ Q.add r1.y r1.height ≤ Q.add r2.y r2.height

instance (r1 r2 : Rect) : Decidable (rectInRect r1 r2) := by
  unfold rectInRect; infer_instance

/-! ### Invariants for the store-order development: well-formed states,
node levels, key certificates and the coarse-before-fine order -/

/-- `ToInt32` on integers. -/
def toInt32Z (K : ℤ) : ℤ :=
  if 2 ^ 31 ≤ K % 2 ^ 32 then K % 2 ^ 32 - 2 ^ 32 else K % 2 ^ 32

/-- The key polynomial `c0 + cy * y + cx * x` before 32-bit truncation. -/
def keyRaw (st : State) (x y : ℚ) : ℚ := st.c0 + st.cy * y + st.cx * x

/-- Shape of a state produced by `createState`: the sample spacing is `2 ^ e`
pixels, the domain boundaries are multiples of the sample spacing and the
keying coefficients have their defining values. -/
structure GoodState (st : State) (e : ℕ) : Prop where
  ppos : 0 < st.pixelSize
  sse : st.sampleSpacing = 2 ^ e * st.pixelSize
  dxm : ∃ m : ℤ, st.domain.x = m * st.sampleSpacing
  dym : ∃ m : ℤ, st.domain.y = m * st.sampleSpacing
  dwm : ∃ m : ℕ, st.domain.width = m * st.sampleSpacing
  cxe : st.cx = 2 / st.pixelSize
  cye : st.cy = st.domain.width / st.pixelSize * st.cx
  c0e : st.c0 = -(st.cx * st.domain.x) - st.cy * st.domain.y

/-- The node is a well-placed level-`j` square: edge `2 ^ j` pixels, at most
the sample spacing, centered at odd multiples of its half edge. -/
def classAt (st : State) (n : Node V) (j : ℕ) : Prop :=
  n.size = 2 ^ j * st.pixelSize ∧ n.size ≤ st.sampleSpacing ∧
  (∃ a : ℤ, Odd a ∧ n.x = a * (n.size / 2)) ∧
  (∃ b : ℤ, Odd b ∧ n.y = b * (n.size / 2))

/-- Certificate of one store entry: it references a live node of some level
`j`, its key is an integer congruent to `2 ^ j` times an odd number modulo
`2 ^ 32` (whenever subdivision is possible at all, `1 ≤ e`), and the keys of
root-level entries are canonical 32-bit values. -/
def entryCert (st : State) (e : ℕ) (heap : Heap V) (ent : ℚ × ℕ) : Prop :=
  ∃ n j K, heapGet heap ent.2 = some n ∧ classAt st n j ∧ ent.1 = ((K : ℤ) : ℚ) ∧
    (1 ≤ e → ∃ u : ℤ, Odd u ∧ K ≡ 2 ^ j * u [ZMOD (2 ^ 32 : ℤ)]) ∧
    (j = e → -2 ^ 31 ≤ K ∧ K < 2 ^ 31)

/-- Every entry of the store is certified and the keys are pairwise
distinct (JavaScript `Map` keys are unique). -/
def StoreOK (st : State) (e : ℕ) (heap : Heap V) (store : Store) : Prop :=
  (∀ ent ∈ store, entryCert st e heap ent) ∧ (store.map Prod.fst).Nodup

/-- The entry references a root-level (coarse) node. -/
def coarseEnt (st : State) (heap : Heap V) (ent : ℚ × ℕ) : Prop :=
  ∃ n, heapGet heap ent.2 = some n ∧ n.size = st.sampleSpacing

/-- The C10 iteration-order invariant: whenever a later entry is coarse,
every earlier entry is coarse as well. -/
def OrderedStore (st : State) (heap : Heap V) (store : Store) : Prop :=
  store.Pairwise fun e1 e2 => coarseEnt st heap e2 → coarseEnt st heap e1

/-- Every queued node reference is live and well placed. -/
def QueueOK (st : State) (heap : Heap V) (q : List ℕ) : Prop :=
  ∀ id ∈ q, ∃ n j, classAt st n j ∧ heapGet heap id = some n

/-- The full invariant carried through the traversal phase. -/
def EnvOK (st : State) (e : ℕ) (env : Env V) : Prop :=
  StoreOK st e env.heap env.store ∧ OrderedStore st env.heap env.store ∧
  QueueOK st env.heap env.queue

/-- Heap evolution that keeps every live node's geometry. -/
def GeomLe (h h' : Heap V) : Prop :=
  ∀ i n, heapGet h i = some n → ∃ n', heapGet h' i = some n' ∧
    n'.x = n.x ∧ n'.y = n.y ∧ n'.size = n.size

/-- Certificates of the previous state's store against the evolving heap. -/
def PrevOK (st : State) (e : ℕ) (heap : Heap V) (prev : Store) : Prop :=
  ∀ ent ∈ prev, entryCert st e heap ent

/-- The plot-level invariant: empty queue, well-formed state and a
certified, C10-ordered store. -/
def PlotOK (P : Plot V) : Prop :=
  P.queue = [] ∧ ∃ e, GoodState P.state e ∧
    StoreOK P.state e P.heap P.state.nodes ∧
    OrderedStore P.state P.heap P.state.nodes

/-- Invariant of the grid phase: certified store whose entries are root
nodes (or, past the wrap, carry the literal key `0`), a certified queue and
the previous state's certificates against the evolving heap. -/
def GridOK (st : State) (e : ℕ) (prevSt : State) (env : Env V) : Prop :=
  StoreOK st e env.heap env.store ∧
  (∀ ent ∈ env.store, coarseEnt st env.heap ent ∨ (32 ≤ e ∧ ent.1 = 0)) ∧
  QueueOK st env.heap env.queue ∧
  PrevOK prevSt e env.heap prevSt.nodes

/-- Plots reachable through the public mutating API: a fresh plot, a
successful `compute`, or a compressed `squares()` extraction (which caches
values by mutating nodes). -/
inductive Reachable : Plot V → Prop where
  | fresh : Reachable Plot.fresh
  | step {P P' : Plot V} (f : ℚ → ℚ → V) (fuel : ℕ) (d : Rect) (s p : ℚ)
      (hR : Reachable P) (h : compute f fuel P d s p = Except.ok P') :
      Reachable P'
  | compress {P P' : Plot V} (fuel : ℕ) (out : List (SquareRec V))
      (hR : Reachable P) (h : squaresCompressed fuel P = some (out, P')) :
      Reachable P'

set_option maxRecDepth 40000

/-! ### Concrete runs used by the claim theorems and witnesses -/

/-! C1: on the domain `{0, 0, 2^16, 2^16}` with `sample_spacing = 2^15` and
`pixel_size = 1` the four coarse grid keys are `2x + 2^17 y` for
`x, y` ranging over `{2^14, 3*2^14}`; the two keys of each column differ by
`2^32` and collide after the `| 0` wrap, so `Map.set` keeps only the last
written row and the lower half of the domain is covered by no leaf. -/

def c1F : ℚ → ℚ → ℚ := fun _ _ => 0

def c1Result : Except Err (Plot ℚ) :=
  compute c1F 20 Plot.fresh ⟨0, 0, 65536, 65536⟩ 32768 1

def c1Plot : Plot ℚ := okOr Plot.fresh c1Result

/-! C3: `collectSquares` caches a unanimous subtree value by mutating the
interior node, and `copyNodesFiltered` coerces interior nodes near the
previous boundary back to leaves when the domain grows.  The function below
is `100` at the sample point `(7, 1)` while the four children of that node
all evaluate to `50`. -/

def c3F : ℚ → ℚ → ℚ := fun x y =>
  if x = 7 ∧ y = 1 then 100 else if x < 4 then 0 else 50

def c3Plot1 : Plot ℚ := okOr Plot.fresh (compute c3F 200 Plot.fresh ⟨0, 0, 8, 4⟩ 4 1)

def c3Plot1c : Plot ℚ := okOrC Plot.fresh (squaresCompressed 200 c3Plot1)

def c3Plot2 : Plot ℚ := okOr Plot.fresh (compute c3F 200 c3Plot1c ⟨0, 0, 12, 4⟩ 4 1)

/-! C6 and C7 witnesses: small concrete plots. -/

def c6F : ℚ → ℚ → ℚ := fun _ _ => 0

def c6P1 : Plot ℚ := okOr Plot.fresh (compute c6F 99 Plot.fresh ⟨0, 0, 2, 2⟩ 2 1)

def c6P2 : Plot ℚ := okOr Plot.fresh (compute c6F 99 c6P1 ⟨0, 0, 2, 2⟩ 2 1)

def c7P1 : Plot ℚ := okOr Plot.fresh (compute c6F 99 Plot.fresh ⟨0, 0, 4, 4⟩ 2 1)

def c7P2 : Plot ℚ := okOr Plot.fresh (compute c6F 99 c7P1 ⟨0, 0, 2, 2⟩ 2 1)

/-! C9: `createState` executes
`sampleSpacing = Math.max(pixelSize, sampleSpacing)`, so with
`pixel_size > sample_spacing` the plot is the one computed with both
parameters equal to `pixel_size`, not to `sample_spacing`. -/

def c9F : ℚ → ℚ → ℚ := fun x _ => x

def c9Coarse : Plot ℚ := okOr Plot.fresh (compute c9F 9 Plot.fresh ⟨0, 0, 2, 2⟩ 1 2)

def c9Fine : Plot ℚ := okOr Plot.fresh (compute c9F 9 Plot.fresh ⟨0, 0, 2, 2⟩ 1 1)

/-! C10: concrete run for the store-order witness. -/

def c10F : ℚ → ℚ → ℚ := fun x _ => x

def c10Result : Except Err (Plot ℚ) :=
  compute c10F 99 Plot.fresh ⟨0, 0, 4, 2⟩ 2 1

def c10P : Plot ℚ := okOr Plot.fresh c10Result

/-! ### Bridge lemmas for the transparent arithmetic -/

theorem Q.add_eq (a b : ℚ) : Q.add a b = a + b := (Rat.add_def' a b).symm

theorem Q.sub_eq (a b : ℚ) : Q.sub a b = a - b := (Rat.sub_def' a b).symm

theorem Q.mul_eq (a b : ℚ) : Q.mul a b = a * b := by
  rw [Rat.mul_def, Rat.normalize_eq_mkRat]; rfl

theorem Q.inv_eq (a : ℚ) : Q.inv a = a⁻¹ := by
  show Q.inv a = a.inv
  rw [Rat.inv_def, Q.inv]
  rcases lt_trichotomy a.num 0 with h | h | h
  · rw [Int.sign_eq_neg_one_of_neg h]
    rw [Rat.mkRat_eq_divInt, ← Int.natAbs_neg,
      Int.natAbs_of_nonneg (by omega : (0:ℤ) ≤ -a.num)]
    rw [show ((-1 : ℤ) * a.den : ℤ) = -(a.den : ℤ) by ring, Rat.neg_divInt_neg]
  · rw [h]; simp
  · rw [Int.sign_eq_one_of_pos h, Rat.mkRat_eq_divInt,
      Int.natAbs_of_nonneg (le_of_lt h), one_mul]

theorem Q.div_eq (a b : ℚ) : Q.div a b = a / b := by
  rw [Q.div, Q.mul_eq, Q.inv_eq, div_eq_mul_inv]

theorem Q.div_zero_left (q : ℚ) : Q.div 0 q = 0 := by
  rw [Q.div_eq, zero_div]

/-! ### Basic facts about the engine helpers -/

theorem createState_empty : createState ⟨0, 0, 0, 0⟩ 1 1 = .ok EMPTY_STATE := by
  decide

theorem createState_ok_inv {d : Rect} {s p : ℚ} {st : State}
    (h : createState d s p = .ok st) : st = mkState d s p := by
  unfold createState at h
  split_ifs at h <;> try simp_all [mkState]
  split at h
  · injection h with h2
    subst h2
    simp [mkState]
  · exact absurd h (by simp)

theorem createState_ok_cond {d : Rect} {s p : ℚ} {st : State}
    (h : createState d s p = .ok st) :
    isPow2 s ∧ isPow2 p ∧ 0 ≤ d.width ∧ 0 ≤ d.height := by
  unfold createState at h
  split_ifs at h with h1 h2 h3 h4 <;> simp_all

theorem createState_invalidArg_iff (d : Rect) (s p : ℚ) :
    createState d s p = .error .invalidArg ↔
      (¬ isPow2 s ∨ ¬ isPow2 p ∨ d.width < 0 ∨ d.height < 0) := by
  unfold createState
  split_ifs with h1 h2 h3 h4 <;> try simp_all
  split <;> simp_all

theorem computeFinish_ok_inv {state : State} {pIn reusedArea : ℚ}
    {o : Option (Env V)} {P2 : Plot V}
    (h : computeFinish state pIn reusedArea o = .ok P2) :
    ∃ e2, o = some e2 ∧
      P2 = { heap := e2.heap, state := { state with nodes := e2.store }
             queue := e2.queue, statsSize := e2.store.length
             statsNewCalls := e2.newCalls
             statsNewArea := Q.div
               (Q.sub (Q.mul state.domain.width state.domain.height) reusedArea)
               (Q.mul pIn pIn) } := by
  cases o with
  | none => exact absurd h (by simp [computeFinish])
  | some e2 =>
    refine ⟨e2, rfl, ?_⟩
    injection h with h2
    exact h2.symm

theorem compute_ok_state {f : ℚ → ℚ → V} {fuel : ℕ} {P : Plot V} {d : Rect}
    {s p : ℚ} {P2 : Plot V} (h : compute f fuel P d s p = .ok P2) :
    ∃ ns, P2.state = { mkState d s p with nodes := ns } := by
  unfold compute at h
  cases hcs : createState d s p with
  | error e => simp [hcs] at h
  | ok st =>
    simp only [hcs] at h
    obtain ⟨e2, _, hP⟩ := computeFinish_ok_inv h
    exact ⟨e2.store, by rw [hP, createState_ok_inv hcs]⟩

theorem isPow2Nat_ne_zero {n : ℕ} (h : isPow2Nat n) : n ≠ 0 := by
  cases n with
  | zero => simp [isPow2Nat, isPow2NatAux] at h
  | succ m => simp

theorem isPow2_pos {q : ℚ} (h : isPow2 q) : 0 < q := by
  unfold isPow2 at h
  rcases Bool.or_eq_true_iff.1 h with h1 | h1 <;>
    rcases Bool.and_eq_true_iff.1 h1 with ⟨ha, hb⟩
  · rw [← Rat.num_pos]
    simp_all
  · rw [← Rat.num_pos]
    have := isPow2Nat_ne_zero hb
    omega

theorem alignToGrid_width_nonneg (d : Rect) (g : ℚ) (hg : 0 < g)
    (hw : 0 ≤ d.width) : 0 ≤ (alignToGrid d g).width := by
  unfold alignToGrid
  simp only [Q.sub_eq, Q.mul_eq, Q.add_eq, Q.div_eq]
  have h1 : (⌊d.x / g⌋ : ℚ) ≤ d.x / g := Int.floor_le _
  have h2 : (d.x + d.width) / g ≤ ⌈(d.x + d.width) / g⌉ := Int.le_ceil _
  have h3 : d.x / g ≤ (d.x + d.width) / g := by
    rw [div_eq_mul_inv, div_eq_mul_inv]
    exact mul_le_mul_of_nonneg_right (by linarith) (inv_nonneg.2 hg.le)
  have h4 : (⌊d.x / g⌋ : ℚ) ≤ (⌈(d.x + d.width) / g⌉ : ℚ) :=
    le_trans h1 (le_trans h3 h2)
  nlinarith

theorem alignToGrid_height_nonneg (d : Rect) (g : ℚ) (hg : 0 < g)
    (hh : 0 ≤ d.height) : 0 ≤ (alignToGrid d g).height := by
  unfold alignToGrid
  simp only [Q.sub_eq, Q.mul_eq, Q.add_eq, Q.div_eq]
  have h1 : (⌊d.y / g⌋ : ℚ) ≤ d.y / g := Int.floor_le _
  have h2 : (d.y + d.height) / g ≤ ⌈(d.y + d.height) / g⌉ := Int.le_ceil _
  have h3 : d.y / g ≤ (d.y + d.height) / g := by
    rw [div_eq_mul_inv, div_eq_mul_inv]
    exact mul_le_mul_of_nonneg_right (by linarith) (inv_nonneg.2 hg.le)
  have h4 : (⌊d.y / g⌋ : ℚ) ≤ (⌈(d.y + d.height) / g⌉ : ℚ) :=
    le_trans h1 (le_trans h3 h2)
  nlinarith

theorem overlappingArea_of_inner (r1 r2 : Rect) (h : rectInRect r1 r2)
    (hw : 0 < r1.width) (hh : 0 < r1.height) :
    overlappingArea r1 r2 = Q.mul r1.width r1.height := by
  obtain ⟨h1, h2, h3, h4⟩ := h
  unfold overlappingArea
  simp only [Q.add_eq, Q.sub_eq, Q.mul_eq] at *
  rw [min_eq_left h2, min_eq_left h4, max_eq_left h1, max_eq_left h3]
  have hw2 : r1.x + r1.width - r1.x = r1.width := by ring
  have hh2 : r1.y + r1.height - r1.y = r1.height := by ring
  rw [hw2, hh2, if_pos ⟨hw, hh⟩]

theorem overlappingArea_self_pos (r : Rect) (hw : 0 < r.width)
    (hh : 0 < r.height) : overlappingArea r r = Q.mul r.width r.height := by
  unfold overlappingArea
  simp only [Q.add_eq, Q.sub_eq, min_self, max_self]
  have e1 : r.x + r.width - r.x = r.width := by ring
  have e2 : r.y + r.height - r.y = r.height := by ring
  rw [e1, e2, if_pos ⟨hw, hh⟩]

theorem overlappingArea_degenerate (r1 r2 : Rect)
    (h : r1.width = 0 ∨ r1.height = 0) : overlappingArea r1 r2 = 0 := by
  unfold overlappingArea
  simp only [Q.add_eq, Q.sub_eq]
  rcases h with h | h
  · rw [if_neg]
    rintro ⟨ha, hb⟩
    have : min (r1.x + r1.width) (r2.x + r2.width) ≤ r1.x + r1.width :=
      min_le_left _ _
    have : r1.x ≤ max r1.x r2.x := le_max_left _ _
    linarith
  · rw [if_neg]
    rintro ⟨ha, hb⟩
    have : min (r1.y + r1.height) (r2.y + r2.height) ≤ r1.y + r1.height :=
      min_le_left _ _
    have : r1.y ≤ max r1.y r2.y := le_max_left _ _
    linarith

theorem stepCount_zero (step : ℚ) : stepCount 0 step = 0 := by
  unfold stepCount
  rw [Q.div_zero_left]
  simp

theorem gridCells_zero_rows (f : ℚ → ℚ → V) (st prev : State) (u : Bool)
    (nx n : ℕ) (y0 : ℚ) (e : Env V) (hx : nx = 0) :
    gridRows f st prev u nx n y0 e = e := by
  subst hx
  induction n generalizing y0 e with
  | zero => rw [gridRows]
  | succ m ih =>
    rw [gridRows, gridCells]
    exact ih _ _

theorem computeGrid_empty (f : ℚ → ℚ → V) (st prev : State) (e : Env V)
    (h : stepCount st.domain.width st.sampleSpacing = 0 ∨
      stepCount st.domain.height st.sampleSpacing = 0) :
    computeGrid f st prev e = e := by
  unfold computeGrid
  rcases h with h | h
  · exact gridCells_zero_rows _ _ _ _ _ _ _ _ h
  · rw [h, gridRows]

/-! ### Behaviour of the traversal loop -/

theorem traverse_ok_queue {f : ℚ → ℚ → V} {st : State} {fuel : ℕ}
    {e e2 : Env V} (h : traverse f st fuel e = some e2) : e2.queue = [] := by
  induction fuel generalizing e with
  | zero => simp [traverse] at h
  | succ n ih =>
    obtain ⟨hp, hs, hq, hc⟩ := e
    cases hq with
    | nil =>
      rw [traverse] at h
      injection h with h2
      rw [← h2]
    | cons id rest =>
      rw [traverse] at h
      dsimp only at h
      repeat' split at h
      all_goals first
      | exact ih h
      | simp_all

theorem traverse_nil {f : ℚ → ℚ → V} {st : State} {fuel : ℕ} {e : Env V}
    (hf : 0 < fuel) (hq : e.queue = []) : traverse f st fuel e = some e := by
  cases fuel with
  | zero => exact absurd hf (by simp)
  | succ n => rw [traverse, hq]

theorem traverse_empty_store {f : ℚ → ℚ → V} {st : State} {fuel : ℕ}
    {e e2 : Env V} (h : traverse f st fuel e = some e2) (hst : e.store = []) :
    e2 = { e with queue := [] } := by
  induction fuel generalizing e with
  | zero => simp [traverse] at h
  | succ n ih =>
    obtain ⟨hp, hs, hq, hc⟩ := e
    cases hst
    cases hq with
    | nil =>
      rw [traverse] at h
      injection h with h2
      rw [← h2]
    | cons id rest =>
      rw [traverse] at h
      simp only [storeGet, List.find?, Option.orElse, traverseNeighbor] at h
      repeat' split at h
      any_goals simp_all
      all_goals exact ih h rfl

theorem compute_ok_queue {f : ℚ → ℚ → V} {fuel : ℕ} {P : Plot V} {d : Rect}
    {s p : ℚ} {P2 : Plot V} (h : compute f fuel P d s p = .ok P2) :
    P2.queue = [] := by
  unfold compute at h
  cases hcs : createState d s p with
  | error e => simp [hcs] at h
  | ok st =>
    simp only [hcs] at h
    obtain ⟨e2, ho, hP⟩ := computeFinish_ok_inv h
    rw [hP]
    split at ho
    · exact traverse_ok_queue ho
    · injection ho with ho2
      rw [← ho2]

/-! ### Idempotence core -/

theorem compute_idem_core (f : ℚ → ℚ → V) (fuel1 fuel2 : ℕ)
    (P0 P1 P2 : Plot V) (d : Rect) (s p : ℚ)
    (h1 : compute f fuel1 P0 d s p = .ok P1)
    (h2 : compute f fuel2 P1 d s p = .ok P2) :
    P2.statsNewCalls = 0 ∧ P2.heap = P1.heap ∧ P2.state = P1.state ∧
      P2.queue = P1.queue := by
  have hq1 : P1.queue = [] := compute_ok_queue h1
  unfold compute at h1 h2
  cases hcs : createState d s p with
  | error e => simp [hcs] at h1
  | ok st =>
    simp only [hcs] at h1 h2
    obtain ⟨e2, ho1, hP1⟩ := computeFinish_ok_inv h1
    obtain ⟨e2b, ho2, hP2⟩ := computeFinish_ok_inv h2
    have hP1state : P1.state = { st with nodes := e2.store } := by rw [hP1]
    have hP1heap : P1.heap = e2.heap := by rw [hP1]
    have hstp : p = st.pixelSize := by simp [createState_ok_inv hcs, mkState]
    by_cases hov : 0 < overlappingArea st.domain P1.state.domain
    · have hreuse : st.sampleSpacing = P1.state.sampleSpacing ∧
          p = P1.state.pixelSize ∧
          0 < overlappingArea st.domain P1.state.domain := by
        refine ⟨?_, ?_, hov⟩ <;> simp [hP1state, ← hstp]
      rw [if_pos hreuse] at ho2
      have hsb : haveSameBoundaries st P1.state = true := by
        rw [hP1state]; simp [haveSameBoundaries]
      rw [if_pos hsb] at ho2
      have he2b : e2b = (⟨P1.heap, P1.state.nodes, [], 0⟩ : Env V) := by
        split at ho2
        · cases fuel2 with
          | zero => rw [traverse] at ho2; exact absurd ho2 (by simp)
          | succ m =>
            rw [traverse_nil (Nat.succ_pos m) hq1] at ho2
            injection ho2 with ho2b
            rw [← ho2b, hq1]
        · injection ho2 with ho2b
          rw [← ho2b]
      subst he2b
      rw [hP2]
      have hnodes : P1.state.nodes = e2.store := by rw [hP1state]
      refine ⟨rfl, rfl, ?_, hq1.symm⟩
      rw [hnodes, hP1state]
    · have hrfalse : ¬ (st.sampleSpacing = P1.state.sampleSpacing ∧
          p = P1.state.pixelSize ∧
          0 < overlappingArea st.domain P1.state.domain) := by
        rintro ⟨-, -, hc⟩; exact hov hc
      rw [if_neg hrfalse] at ho2
      have hcond := createState_ok_cond hcs
      have hstmk := createState_ok_inv hcs
      have hgpos : 0 < max p s := lt_max_of_lt_left (isPow2_pos hcond.2.1)
      have hw0 : 0 ≤ st.domain.width := by
        rw [hstmk]
        exact alignToGrid_width_nonneg _ _ hgpos hcond.2.2.1
      have hh0 : 0 ≤ st.domain.height := by
        rw [hstmk]
        exact alignToGrid_height_nonneg _ _ hgpos hcond.2.2.2
      have hdeg : st.domain.width = 0 ∨ st.domain.height = 0 := by
        by_contra hcon
        push_neg at hcon
        have hwp : 0 < st.domain.width := lt_of_le_of_ne hw0 (Ne.symm hcon.1)
        have hhp : 0 < st.domain.height := lt_of_le_of_ne hh0 (Ne.symm hcon.2)
        apply hov
        rw [hP1state]
        show 0 < overlappingArea st.domain st.domain
        rw [overlappingArea_self_pos st.domain hwp hhp, Q.mul_eq]
        exact mul_pos hwp hhp
      have hsc : stepCount st.domain.width st.sampleSpacing = 0 ∨
          stepCount st.domain.height st.sampleSpacing = 0 := by
        rcases hdeg with h | h
        · exact Or.inl (by rw [h]; exact stepCount_zero _)
        · exact Or.inr (by rw [h]; exact stepCount_zero _)
      have hzero1 : overlappingArea st.domain P0.state.domain = 0 :=
        overlappingArea_degenerate _ _ hdeg
      have hrfalse1 : ¬ (st.sampleSpacing = P0.state.sampleSpacing ∧
          p = P0.state.pixelSize ∧
          0 < overlappingArea st.domain P0.state.domain) := by
        rintro ⟨-, -, hc⟩
        rw [hzero1] at hc
        exact lt_irrefl 0 hc
      rw [if_neg hrfalse1, computeGrid_empty f st EMPTY_STATE _ hsc] at ho1
      rw [computeGrid_empty f st EMPTY_STATE _ hsc] at ho2
      have he2 : e2 = (⟨P0.heap, [], [], 0⟩ : Env V) := by
        split at ho1
        · have := traverse_empty_store ho1 rfl
          rw [this]
        · injection ho1 with ho1b
          rw [← ho1b]
      have he2b : e2b = (⟨P1.heap, [], [], 0⟩ : Env V) := by
        split at ho2
        · have := traverse_empty_store ho2 rfl
          rw [this]
        · injection ho2 with ho2b
          rw [← ho2b]
      subst he2
      subst he2b
      rw [hP2]
      refine ⟨rfl, rfl, ?_, hq1.symm⟩
      rw [hP1state]

/-! ### Claim theorems -/

/-- Claim C1 fails on the code: after a successful
`compute({0,0,65536,65536}, 32768, 1)` of the constant zero function the
point `(16384, 16384)` of the aligned domain lies in none of the squares
returned by `squares({all:true})` — the leaves do not tile the domain.
(The tiling is the documented contract of `squares`; the four coarse grid
keys wrap past `2^31` under `| 0` and collide pairwise, which the guard
`|c0| ≤ MAX_SAFE_INTEGER / 2` of `createState` fails to prevent, so two of
the four grid nodes are silently overwritten.) -/
theorem C1_coverage_fails_on_key_wrap :
    c1Result = .ok c1Plot ∧
    ptInRect c1Plot.state.domain 16384 16384 ∧
    ∀ s ∈ squaresAll c1Plot, ¬ ptInSquare s 16384 16384 :=
  ⟨by decide, by decide, by decide⟩

/-- Claim C3 fails on the code: after `compute({0,0,8,4}, 4, 1)`, a
compressing `squares()` call and a second `compute({0,0,12,4}, 4, 1)`, the
store contains the leaf `(7, 1, 2)` with value `50` even though
`c3F 7 1 = 100` — the leaf-value correspondence `value = f(center)` is
violated for a previously-interior node whose value was mutated by the
compression cache and which the incremental recompute coerced back to a
leaf without re-evaluating `f`. -/
theorem C3_leaf_value_fails_after_compress_and_grow :
    compute c3F 200 Plot.fresh ⟨0, 0, 8, 4⟩ 4 1 = .ok c3Plot1 ∧
    (squaresCompressed 200 c3Plot1).isSome ∧
    compute c3F 200 c3Plot1c ⟨0, 0, 12, 4⟩ 4 1 = .ok c3Plot2 ∧
    (⟨7, 1, 2, 50⟩ : SquareRec ℚ) ∈ squaresAll c3Plot2 ∧
    c3F 7 1 = 100 :=
  ⟨by decide, by decide, by decide, by decide, by decide⟩

/-- Claim C6 (idempotence): if `compute(D, s, p)` succeeds twice in a row
then after the second call `computeStats().newCalls` is `0` and the outputs
of `squares({all:true})`, of the compressing `squares()` and of `runs()`
are identical to those after the first call (the second call reuses the
whole node store because the boundaries coincide, or recreates an empty
store when the aligned domain is degenerate). -/
theorem C6_idempotence (f : ℚ → ℚ → V) (fuel1 fuel2 : ℕ)
    (P0 P1 P2 : Plot V) (d : Rect) (s p : ℚ)
    (h1 : compute f fuel1 P0 d s p = .ok P1)
    (h2 : compute f fuel2 P1 d s p = .ok P2) :
    P2.statsNewCalls = 0 ∧ squaresAll P2 = squaresAll P1 ∧
    (∀ fl, (squaresCompressed fl P2).map Prod.fst =
      (squaresCompressed fl P1).map Prod.fst) ∧
    (∀ fl, runs fl P2 = runs fl P1) := by
  obtain ⟨hcalls, hheap, hstate, hqueue⟩ :=
    compute_idem_core f fuel1 fuel2 P0 P1 P2 d s p h1 h2
  refine ⟨hcalls, ?_, ?_, ?_⟩
  · unfold squaresAll
    rw [hheap, hstate]
  · intro fl
    unfold squaresCompressed
    rw [hheap, hstate]
    cases squaresCLoop P1.state P1.state.nodes fl P1.state.nodes P1.heap with
    | none => rfl
    | some r => rfl
  · intro fl
    unfold runs
    rw [hheap, hstate]

/-- Witness for C6 at a concrete input: the constant plot on
`{0,0,2,2}` with spacing 2 and pixel size 1, computed twice. -/
theorem C6_idempotence_witness :
    compute c6F 99 Plot.fresh ⟨0, 0, 2, 2⟩ 2 1 = .ok c6P1 ∧
    compute c6F 99 c6P1 ⟨0, 0, 2, 2⟩ 2 1 = .ok c6P2 ∧
    c6P2.statsNewCalls = 0 ∧ squaresAll c6P2 = squaresAll c6P1 ∧
    (∀ fl, (squaresCompressed fl c6P2).map Prod.fst =
      (squaresCompressed fl c6P1).map Prod.fst) ∧
    (∀ fl, runs fl c6P2 = runs fl c6P1) := by
  have h1 : compute c6F 99 Plot.fresh ⟨0, 0, 2, 2⟩ 2 1 = .ok c6P1 := by decide
  have h2 : compute c6F 99 c6P1 ⟨0, 0, 2, 2⟩ 2 1 = .ok c6P2 := by decide
  exact ⟨h1, h2, C6_idempotence c6F 99 99 Plot.fresh c6P1 c6P2 _ _ _ h1 h2⟩

/-- Claim C7 (reuse bound): when a second `compute` uses the same spacing
and pixel size and its aligned domain is contained in the aligned domain of
the first (and is non-empty), the reported `newArea` statistic is `0`. -/
theorem C7_reuse_bound (f : ℚ → ℚ → V) (fuel1 fuel2 : ℕ)
    (P0 P1 P2 : Plot V) (d1 d2 : Rect) (s p : ℚ)
    (h1 : compute f fuel1 P0 d1 s p = .ok P1)
    (h2 : compute f fuel2 P1 d2 s p = .ok P2)
    (hsub : rectInRect (alignToGrid d2 (max p s)) (alignToGrid d1 (max p s)))
    (hw : 0 < (alignToGrid d2 (max p s)).width)
    (hh : 0 < (alignToGrid d2 (max p s)).height) :
    P2.statsNewArea = 0 := by
  obtain ⟨ns1, hP1⟩ := compute_ok_state h1
  unfold compute at h2
  cases hcs : createState d2 s p with
  | error e => simp [hcs] at h2
  | ok st2 =>
    have hst2 : st2 = mkState d2 s p := createState_ok_inv hcs
    subst hst2
    simp only [hcs] at h2
    have hdom1 : P1.state.domain = alignToGrid d1 (max p s) := by
      simp [hP1, mkState]
    have hdom2 : (mkState d2 s p).domain = alignToGrid d2 (max p s) := rfl
    have hov : overlappingArea (mkState d2 s p).domain P1.state.domain =
        Q.mul (alignToGrid d2 (max p s)).width
          (alignToGrid d2 (max p s)).height := by
      rw [hdom1, hdom2]
      exact overlappingArea_of_inner _ _ hsub hw hh
    have hpos : 0 < overlappingArea (mkState d2 s p).domain P1.state.domain := by
      rw [hov, Q.mul_eq]
      exact mul_pos hw hh
    have hss : (mkState d2 s p).sampleSpacing = P1.state.sampleSpacing := by
      simp [hP1, mkState]
    have hpp : p = P1.state.pixelSize := by simp [hP1, mkState]
    rw [if_pos ⟨hss, hpp, hpos⟩, if_pos hpp] at h2
    obtain ⟨e2, _, hP2⟩ := computeFinish_ok_inv h2
    rw [hP2]
    show Q.div (Q.sub (Q.mul _ _) _) _ = 0
    rw [hov, hdom2, Q.sub_eq, sub_self, Q.div_eq, zero_div]

/-- Witness for C7 at a concrete input: `{0,0,2,2}` is contained in
`{0,0,4,4}` and the second compute reports `newArea = 0`. -/
theorem C7_reuse_bound_witness :
    compute c6F 99 Plot.fresh ⟨0, 0, 4, 4⟩ 2 1 = .ok c7P1 ∧
    compute c6F 99 c7P1 ⟨0, 0, 2, 2⟩ 2 1 = .ok c7P2 ∧
    c7P2.statsNewArea = 0 := by
  have h1 : compute c6F 99 Plot.fresh ⟨0, 0, 4, 4⟩ 2 1 = .ok c7P1 := by decide
  have h2 : compute c6F 99 c7P1 ⟨0, 0, 2, 2⟩ 2 1 = .ok c7P2 := by decide
  refine ⟨h1, h2, ?_⟩
  exact C7_reuse_bound c6F 99 99 Plot.fresh c7P1 c7P2 ⟨0, 0, 4, 4⟩ ⟨0, 0, 2, 2⟩
    2 1 h1 h2 (by decide) (by decide) (by decide)

/-- Claim C8: `compute` fails with the invalid-argument error exactly when
`sample_spacing` or `pixel_size` is not an exact power of two (the
`Number.isInteger(Math.log2 ...)` assertions) or a domain dimension is
negative.  In the embedding a failing `compute` returns no plot, so the
caller keeps the previous plot value unchanged, mirroring the source where
`createState` throws before any field of the plot object is assigned. -/
theorem C8_invalid_argument_iff (f : ℚ → ℚ → V) (fuel : ℕ) (P : Plot V)
    (d : Rect) (s p : ℚ) :
    compute f fuel P d s p = .error .invalidArg ↔
      (¬ isPow2 s ∨ ¬ isPow2 p ∨ d.width < 0 ∨ d.height < 0) := by
  rw [← createState_invalidArg_iff d s p]
  unfold compute
  cases h : createState d s p with
  | error e => simp [h]
  | ok st =>
    simp only [h]
    constructor
    · intro hc
      unfold computeFinish at hc
      split at hc <;> simp_all
    · intro hc
      exact absurd hc (by simp)

/-- Witness for C8 at concrete inputs: a non-power-of-two spacing is
rejected with the invalid-argument error, a valid call is not. -/
theorem C8_invalid_argument_witness :
    compute c6F 9 Plot.fresh ⟨0, 0, 3, 3⟩ 3 1 = .error .invalidArg ∧
    ¬ compute c6F 9 Plot.fresh ⟨0, 0, 2, 2⟩ 2 1 = .error .invalidArg := by
  constructor
  · exact (C8_invalid_argument_iff c6F 9 Plot.fresh ⟨0, 0, 3, 3⟩ 3 1).mpr
      (by decide)
  · intro hc
    have := (C8_invalid_argument_iff c6F 9 Plot.fresh ⟨0, 0, 2, 2⟩ 2 1).mp hc
    revert this
    decide

/-- Claim C9 as stated is false: with `sample_spacing = 1` and
`pixel_size = 2` (both valid powers of two) the engine indeed does not
fail, but the resulting plot is not the one obtained with both parameters
equal to `sample_spacing = 1` — the squares differ (one size-2 square
versus four size-1 squares). -/
theorem C9_clamp_is_not_towards_sample_spacing :
    compute c9F 9 Plot.fresh ⟨0, 0, 2, 2⟩ 1 2 = .ok c9Coarse ∧
    compute c9F 9 Plot.fresh ⟨0, 0, 2, 2⟩ 1 1 = .ok c9Fine ∧
    squaresAll c9Coarse ≠ squaresAll c9Fine :=
  ⟨by decide, by decide, by decide⟩

/-- Claim C9, amended: `createState` clamps `sample_spacing` up to
`pixel_size` (`sampleSpacing = Math.max(pixelSize, sampleSpacing)`), so
when `sample_spacing ≤ pixel_size` (both valid powers of two — validity of
the sample spacing is all that is needed) the computation coincides with
the one whose parameters are both `pixel_size`. -/
theorem C9_amended_clamp_to_pixel_size (f : ℚ → ℚ → V) (fuel : ℕ)
    (P : Plot V) (d : Rect) (s p : ℚ) (hs : isPow2 s) (hsp : s ≤ p) :
    compute f fuel P d s p = compute f fuel P d p p := by
  have hcs : createState d s p = createState d p p := by
    unfold createState
    by_cases hp : isPow2 p
    · simp only [hs, hp, not_true_eq_false, if_false]
      rw [max_eq_left hsp, max_self]
    · simp [hs, hp]
  unfold compute
  rw [hcs]

/-- Witness for the amended C9 at a concrete input. -/
theorem C9_amended_witness :
    isPow2 1 ∧ (1 : ℚ) ≤ 2 ∧
    compute c9F 9 Plot.fresh ⟨0, 0, 2, 2⟩ 1 2 =
      compute c9F 9 Plot.fresh ⟨0, 0, 2, 2⟩ 2 2 :=
  ⟨by decide, by decide,
    C9_amended_clamp_to_pixel_size c9F 9 Plot.fresh ⟨0, 0, 2, 2⟩ 1 2
      (by decide) (by decide)⟩

theorem ratTrunc_intCast (K : ℤ) : ratTrunc (K : ℚ) = K := by
  unfold ratTrunc
  rw [Rat.num_intCast, Rat.den_intCast]
  exact Int.tdiv_one K

theorem toInt32_intCast (K : ℤ) : toInt32 (K : ℚ) = (toInt32Z K : ℚ) := by
  simp only [toInt32, toInt32Z, ratTrunc_intCast]

theorem toInt32Z_emod (K : ℤ) : toInt32Z K % 2 ^ 32 = K % 2 ^ 32 := by
  unfold toInt32Z
  split <;> omega

theorem toInt32Z_modeq (K : ℤ) : toInt32Z K ≡ K [ZMOD (2 ^ 32 : ℤ)] :=
  toInt32Z_emod K

theorem toInt32Z_range (K : ℤ) : -2 ^ 31 ≤ toInt32Z K ∧ toInt32Z K < 2 ^ 31 := by
  unfold toInt32Z
  split <;> omega

theorem toInt32Z_eq_of_modeq {K K' : ℤ} (h : K ≡ K' [ZMOD (2 ^ 32 : ℤ)]) :
    toInt32Z K = toInt32Z K' := by
  unfold Int.ModEq at h
  unfold toInt32Z
  rw [h]

theorem toInt32Z_canonical {K : ℤ} (h1 : -2 ^ 31 ≤ K) (h2 : K < 2 ^ 31) :
    toInt32Z K = K := by
  unfold toInt32Z
  split <;> omega

/-- Two residues `2^i * u` and `2^j * v` with `u, v` odd and `i < j`,
`i < 32`, cannot agree modulo `2^32`. -/
theorem pow2_odd_modeq_ne {i j : ℕ} {u v : ℤ} (hij : i < j) (hi : i < 32)
    (hu : Odd u) (hv : Odd v) :
    ¬ ((2 ^ i * u : ℤ) ≡ 2 ^ j * v [ZMOD (2 ^ 32 : ℤ)]) := by
  intro h
  have hd : (2 ^ 32 : ℤ) ∣ 2 ^ j * v - 2 ^ i * u := Int.ModEq.dvd h
  have hsplit : (2 ^ j * v - 2 ^ i * u : ℤ) = 2 ^ i * (2 ^ (j - i) * v - u) := by
    rw [mul_sub, ← mul_assoc, ← pow_add]
    congr 3
    omega
  have h32 : (2 ^ 32 : ℤ) = 2 ^ i * 2 ^ (32 - i) := by
    rw [← pow_add]
    congr 1
    omega
  rw [hsplit, h32] at hd
  have hd2 : (2 ^ (32 - i) : ℤ) ∣ 2 ^ (j - i) * v - u :=
    (mul_dvd_mul_iff_left (a := (2 : ℤ) ^ i) (by positivity)).1 hd
  have hodd : Odd (2 ^ (j - i) * v - u) := by
    refine Even.sub_odd ?_ hu
    have h2 : (2 : ℤ) ∣ 2 ^ (j - i) * v :=
      Dvd.dvd.mul_right (dvd_pow_self 2 (by omega)) v
    obtain ⟨c, hc⟩ := h2
    exact ⟨c, by omega⟩
  have heven : (2 : ℤ) ∣ 2 ^ (j - i) * v - u :=
    dvd_trans (dvd_pow_self 2 (by omega)) hd2
  rcases hodd with ⟨c, hc⟩
  omega

theorem pow2_modeq_zero {i : ℕ} (h : 32 ≤ i) (u : ℤ) :
    (2 ^ i * u : ℤ) ≡ 0 [ZMOD (2 ^ 32 : ℤ)] := by
  have : (2 ^ 32 : ℤ) ∣ 2 ^ i * u :=
    Dvd.dvd.mul_right (pow_dvd_pow 2 h) u
  exact Int.modEq_zero_iff_dvd.2 this

theorem geomLe_refl (h : Heap V) : GeomLe h h :=
  fun _ n hn => ⟨n, hn, rfl, rfl, rfl⟩

theorem geomLe_trans {h1 h2 h3 : Heap V} (a : GeomLe h1 h2) (b : GeomLe h2 h3) :
    GeomLe h1 h3 := by
  intro i n hn
  obtain ⟨m, hm, hx, hy, hs⟩ := a i n hn
  obtain ⟨m', hm', hx', hy', hs'⟩ := b i m hm
  exact ⟨m', hm', by rw [hx', hx], by rw [hy', hy], by rw [hs', hs]⟩

theorem heapGet_lt_length {h : Heap V} {i : ℕ} {n : Node V}
    (hn : heapGet h i = some n) : i < h.length := by
  unfold heapGet at hn
  exact (List.getElem?_eq_some.1 hn).1

theorem heapGet_append {h : Heap V} {i : ℕ} {n : Node V} (m : Node V)
    (hn : heapGet h i = some n) : heapGet (h ++ [m]) i = some n := by
  have hl : i < h.length := heapGet_lt_length hn
  unfold heapGet at hn ⊢
  rw [List.getElem?_append, if_pos hl]
  exact hn

theorem geomLe_alloc (h : Heap V) (m : Node V) : GeomLe h (h ++ [m]) :=
  fun _ n hn => ⟨n, heapGet_append m hn, rfl, rfl, rfl⟩

theorem heapGet_alloc (h : Heap V) (m : Node V) :
    heapGet (h ++ [m]) h.length = some m := by
  unfold heapGet
  rw [List.getElem?_append]
  simp

theorem heapGet_set_self {h : Heap V} {i : ℕ} {n : Node V} (m : Node V)
    (hn : heapGet h i = some n) : heapGet (heapSet h i m) i = some m := by
  have hl : i < h.length := heapGet_lt_length hn
  unfold heapGet heapSet
  rw [List.getElem?_set_eq hl]

theorem heapGet_set_ne {h : Heap V} {i j : ℕ} (m : Node V) (hij : i ≠ j) :
    heapGet (heapSet h i m) j = heapGet h j := by
  unfold heapGet heapSet
  exact List.getElem?_set_ne hij

theorem geomLe_set {h : Heap V} {i : ℕ} {m n : Node V}
    (hm : heapGet h i = some m) (hx : n.x = m.x) (hy : n.y = m.y)
    (hs : n.size = m.size) : GeomLe h (heapSet h i n) := by
  intro i' n' hn'
  by_cases hii : i = i'
  · subst hii
    rw [hm] at hn'
    injection hn' with hn'
    subst hn'
    exact ⟨n, heapGet_set_self n hm, hx, hy, hs⟩
  · exact ⟨n', by rw [heapGet_set_ne n hii]; exact hn', rfl, rfl, rfl⟩

theorem classAt_geom {st : State} {n n' : Node V} {j : ℕ}
    (hx : n'.x = n.x) (hy : n'.y = n.y) (hs : n'.size = n.size)
    (hc : classAt st n j) : classAt st n' j := by
  obtain ⟨h1, h2, h3, h4⟩ := hc
  exact ⟨by rw [hs]; exact h1, by rw [hs]; exact h2,
    by rw [hx, hs]; exact h3, by rw [hy, hs]; exact h4⟩

theorem entryCert_geom {st : State} {e : ℕ} {h h' : Heap V} {ent : ℚ × ℕ}
    (hg : GeomLe h h') (hc : entryCert st e h ent) : entryCert st e h' ent := by
  obtain ⟨n, j, K, hn, hcl, hk, hu, hcan⟩ := hc
  obtain ⟨n', hn', hx, hy, hs⟩ := hg ent.2 n hn
  exact ⟨n', j, K, hn', classAt_geom hx hy hs hcl, hk, hu, hcan⟩

theorem coarseEnt_geom {st : State} {h h' : Heap V} {ent : ℚ × ℕ}
    (hg : GeomLe h h') (hc : coarseEnt st h ent) : coarseEnt st h' ent := by
  obtain ⟨n, hn, hs⟩ := hc
  obtain ⟨n', hn', _, _, hs'⟩ := hg ent.2 n hn
  exact ⟨n', hn', by rw [hs']; exact hs⟩

theorem coarseEnt_geom_rev {st : State} {e : ℕ} {h h' : Heap V} {ent : ℚ × ℕ}
    (hg : GeomLe h h') (hcert : entryCert st e h ent)
    (hc : coarseEnt st h' ent) : coarseEnt st h ent := by
  obtain ⟨n, j, K, hn, hcl, -⟩ := hcert
  obtain ⟨n', hn', _, _, hs⟩ := hg ent.2 n hn
  obtain ⟨m, hm, hms⟩ := hc
  rw [hn'] at hm
  injection hm with hm
  subst hm
  exact ⟨n, hn, by rw [← hs]; exact hms⟩

theorem orderedStore_geom {st : State} {e : ℕ} {h h' : Heap V} {store : Store}
    (hg : GeomLe h h') (hcert : ∀ ent ∈ store, entryCert st e h ent)
    (ho : OrderedStore st h store) : OrderedStore st h' store := by
  unfold OrderedStore at ho ⊢
  refine List.Pairwise.imp_of_mem ?_ ho
  intro a b ha hb hab hcb
  exact coarseEnt_geom hg (hab (coarseEnt_geom_rev hg (hcert b hb) hcb))

theorem queueOK_geom {st : State} {h h' : Heap V} {q : List ℕ}
    (hg : GeomLe h h') (hq : QueueOK st h q) : QueueOK st h' q := by
  intro id hid
  obtain ⟨n, j, hcl, hn⟩ := hq id hid
  obtain ⟨n', hn', hx, hy, hs⟩ := hg id n hn
  exact ⟨n', j, classAt_geom hx hy hs hcl, hn'⟩

theorem storeOK_geom {st : State} {e : ℕ} {h h' : Heap V} {store : Store}
    (hg : GeomLe h h') (hS : StoreOK st e h store) : StoreOK st e h' store :=
  ⟨fun ent hent => entryCert_geom hg (hS.1 ent hent), hS.2⟩

theorem prevOK_geom {st : State} {e : ℕ} {h h' : Heap V} {prev : Store}
    (hg : GeomLe h h') (hS : PrevOK st e h prev) : PrevOK st e h' prev :=
  fun ent hent => entryCert_geom hg (hS ent hent)

theorem storeGet_mem {s : Store} {k : ℚ} {id : ℕ}
    (h : storeGet s k = some id) : (k, id) ∈ s := by
  unfold storeGet at h
  rcases hf : s.find? (fun e => e.1 = k) with - | ent
  · rw [hf] at h
    exact absurd h (by simp)
  · rw [hf] at h
    injection h with h
    have hmem := List.mem_of_find?_eq_some hf
    have hkey := List.find?_some hf
    have : ent.1 = k := by simpa using hkey
    have : ent = (k, id) := by
      rw [Prod.ext_iff]
      exact ⟨this, h⟩
    rw [← this]
    exact hmem

theorem storeSet_mem {s : Store} {k : ℚ} {id : ℕ} {ent : ℚ × ℕ}
    (h : ent ∈ storeSet s k id) : ent = (k, id) ∨ ent ∈ s := by
  induction s with
  | nil =>
    unfold storeSet at h
    simp at h
    exact Or.inl h
  | cons a t ih =>
    unfold storeSet at h
    by_cases hk : a.1 = k
    · rw [if_pos hk] at h
      rcases List.mem_cons.1 h with h | h
      · exact Or.inl h
      · exact Or.inr (List.mem_cons_of_mem a h)
    · rw [if_neg hk] at h
      rcases List.mem_cons.1 h with h | h
      · exact Or.inr (h ▸ List.mem_cons_self a t)
      · rcases ih h with h | h
        · exact Or.inl h
        · exact Or.inr (List.mem_cons_of_mem a h)

theorem storeSet_keys_mem {s : Store} {k x : ℚ} {id : ℕ}
    (h : x ∈ (storeSet s k id).map Prod.fst) :
    x = k ∨ x ∈ s.map Prod.fst := by
  obtain ⟨ent, hent, hx⟩ := List.mem_map.1 h
  rcases storeSet_mem hent with h' | h'
  · left
    rw [← hx, h']
  · right
    exact List.mem_map.2 ⟨ent, h', hx⟩

theorem storeSet_nodup {s : Store} {k : ℚ} {id : ℕ}
    (h : (s.map Prod.fst).Nodup) : ((storeSet s k id).map Prod.fst).Nodup := by
  induction s with
  | nil => simp [storeSet]
  | cons a t ih =>
    rw [List.map_cons, List.nodup_cons] at h
    unfold storeSet
    by_cases hk : a.1 = k
    · rw [if_pos hk]
      rw [List.map_cons, List.nodup_cons]
      exact ⟨by rw [← hk]; exact h.1, h.2⟩
    · rw [if_neg hk]
      rw [List.map_cons, List.nodup_cons]
      refine ⟨fun hmem => ?_, ih h.2⟩
      rcases storeSet_keys_mem hmem with h' | h'
      · exact hk h'
      · exact h.1 h'

theorem storeSet_mem_strict {s : Store} {k : ℚ} {id : ℕ} {ent : ℚ × ℕ}
    (hnd : (s.map Prod.fst).Nodup) (h : ent ∈ storeSet s k id) :
    ent = (k, id) ∨ (ent ∈ s ∧ ent.1 ≠ k) := by
  induction s with
  | nil =>
    unfold storeSet at h
    simp at h
    exact Or.inl h
  | cons a t ih =>
    rw [List.map_cons, List.nodup_cons] at hnd
    unfold storeSet at h
    by_cases hk : a.1 = k
    · rw [if_pos hk] at h
      rcases List.mem_cons.1 h with h | h
      · exact Or.inl h
      · refine Or.inr ⟨List.mem_cons_of_mem a h, fun hek => ?_⟩
        have hmm : ent.1 ∈ t.map Prod.fst := List.mem_map.2 ⟨ent, h, rfl⟩
        rw [hek, ← hk] at hmm
        exact hnd.1 hmm
    · rw [if_neg hk] at h
      rcases List.mem_cons.1 h with h | h
      · exact Or.inr ⟨h ▸ List.mem_cons_self a t, by rw [h]; exact hk⟩
      · rcases ih hnd.2 h with h' | h'
        · exact Or.inl h'
        · exact Or.inr ⟨List.mem_cons_of_mem a h'.1, h'.2⟩

theorem storeOK_insert {st : State} {e : ℕ} {heap : Heap V} {s : Store}
    {k : ℚ} {id : ℕ} (hS : StoreOK st e heap s)
    (hcert : entryCert st e heap (k, id)) :
    StoreOK st e heap (storeSet s k id) := by
  refine ⟨fun ent hent => ?_, storeSet_nodup hS.2⟩
  rcases storeSet_mem hent with h | h
  · rw [h]
    exact hcert
  · exact hS.1 ent h

theorem ordered_storeSet_notCoarse {st : State} {heap : Heap V} {s : Store}
    {k : ℚ} {id : ℕ} (hO : OrderedStore st heap s)
    (hnew : ¬ coarseEnt st heap (k, id))
    (hold : ∀ ent ∈ s, ent.1 = k → ¬ coarseEnt st heap ent) :
    OrderedStore st heap (storeSet s k id) := by
  induction s with
  | nil =>
    unfold storeSet
    exact List.pairwise_singleton _ _
  | cons a t ih =>
    unfold OrderedStore at hO
    rw [List.pairwise_cons] at hO
    unfold storeSet
    by_cases hk : a.1 = k
    · rw [if_pos hk]
      unfold OrderedStore
      rw [List.pairwise_cons]
      refine ⟨fun b hb hcb => ?_, hO.2⟩
      exact absurd (hO.1 b hb hcb)
        (hold a (List.mem_cons_self a t) hk)
    · rw [if_neg hk]
      unfold OrderedStore
      rw [List.pairwise_cons]
      refine ⟨fun b hb hcb => ?_, ih hO.2
        (fun ent hent => hold ent (List.mem_cons_of_mem a hent))⟩
      rcases storeSet_mem hb with h | h
      · exact absurd (h ▸ hcb) hnew
      · exact hO.1 b h hcb

theorem ordered_of_no_coarse {st : State} {heap : Heap V} {s : Store}
    (h : ∀ ent ∈ s, ¬ coarseEnt st heap ent) : OrderedStore st heap s := by
  unfold OrderedStore
  induction s with
  | nil => exact List.Pairwise.nil
  | cons a t ih =>
    rw [List.pairwise_cons]
    exact ⟨fun b hb hcb => absurd hcb (h b (List.mem_cons_of_mem a hb)),
      ih fun ent hent => h ent (List.mem_cons_of_mem a hent)⟩

theorem qpow_two_inj {a b : ℕ} (h : (2 : ℚ) ^ a = 2 ^ b) : a = b := by
  have : ((2 ^ a : ℕ) : ℚ) = ((2 ^ b : ℕ) : ℚ) := by push_cast; exact h
  exact Nat.pow_right_injective (le_refl 2) (Nat.cast_injective this)

theorem qpow_two_le {a b : ℕ} (h : (2 : ℚ) ^ a ≤ 2 ^ b) : a ≤ b := by
  have : ((2 ^ a : ℕ) : ℚ) ≤ ((2 ^ b : ℕ) : ℚ) := by push_cast; exact h
  have h2 := Nat.cast_le.1 this
  exact Nat.pow_le_pow_iff_right (le_refl 2) |>.1 h2

theorem classAt_le {st : State} {e : ℕ} {n : Node V} {j : ℕ}
    (hst : GoodState st e) (hc : classAt st n j) : j ≤ e := by
  obtain ⟨h1, h2, -⟩ := hc
  rw [h1, hst.sse] at h2
  exact qpow_two_le (le_of_mul_le_mul_right h2 hst.ppos)

theorem classAt_coarse_iff {st : State} {e : ℕ} {n : Node V} {j : ℕ}
    (hst : GoodState st e) (hc : classAt st n j) :
    n.size = st.sampleSpacing ↔ j = e := by
  obtain ⟨h1, -, -⟩ := hc
  rw [h1, hst.sse]
  constructor
  · intro h
    exact qpow_two_inj (mul_right_cancel₀ hst.ppos.ne' h)
  · intro h
    rw [h]

theorem cert_coarse_class {st : State} {e : ℕ} {heap : Heap V} {ent : ℚ × ℕ}
    (hst : GoodState st e) (hcert : entryCert st e heap ent)
    (hc : coarseEnt st heap ent) :
    ∃ K : ℤ, ent.1 = ((K : ℤ) : ℚ) ∧
      (1 ≤ e → ∃ u : ℤ, Odd u ∧ K ≡ 2 ^ e * u [ZMOD (2 ^ 32 : ℤ)]) ∧
      -2 ^ 31 ≤ K ∧ K < 2 ^ 31 := by
  obtain ⟨n, j, K, hn, hcl, hk, hu, hcan⟩ := hcert
  obtain ⟨m, hm, hms⟩ := hc
  rw [hn] at hm
  injection hm with hm
  subst hm
  have hje : j = e := (classAt_coarse_iff hst hcl).1 hms
  subst hje
  exact ⟨K, hk, hu, hcan rfl⟩

theorem cert_coarse_key_zero {st : State} {e : ℕ} {heap : Heap V}
    {ent : ℚ × ℕ} (hst : GoodState st e) (he32 : 32 ≤ e)
    (hcert : entryCert st e heap ent) (hc : coarseEnt st heap ent) :
    ent.1 = 0 := by
  obtain ⟨K, hk, hu, hlo, hhi⟩ := cert_coarse_class hst hcert hc
  obtain ⟨u, -, huc⟩ := hu (by omega)
  have h0 : K ≡ 0 [ZMOD (2 ^ 32 : ℤ)] := huc.trans (pow2_modeq_zero he32 u)
  unfold Int.ModEq at h0
  have : K = 0 := by omega
  rw [hk, this]
  norm_num

theorem pairwise_keys_ne {s : Store} (h : (s.map Prod.fst).Nodup) :
    s.Pairwise fun a b => a.1 ≠ b.1 := by
  rw [List.Nodup, List.pairwise_map] at h
  exact h

theorem grid_side_ordered {st : State} {e : ℕ} {heap : Heap V} {s : Store}
    (hst : GoodState st e) (hS : StoreOK st e heap s)
    (hside : ∀ ent ∈ s, coarseEnt st heap ent ∨ (32 ≤ e ∧ ent.1 = 0)) :
    OrderedStore st heap s := by
  unfold OrderedStore
  refine List.Pairwise.imp_of_mem ?_ (pairwise_keys_ne hS.2)
  intro a b ha hb hab hcb
  rcases hside a ha with h | ⟨he32, ha0⟩
  · exact h
  · have hb0 : b.1 = 0 := cert_coarse_key_zero hst he32 (hS.1 b hb) hcb
    exact absurd (ha0.trans hb0.symm) hab

theorem insert_fine_ok {st : State} {e : ℕ} {heap : Heap V} {s : Store}
    {k : ℚ} {id : ℕ} {n : Node V} {j : ℕ} {K : ℤ}
    (hst : GoodState st e) (hS : StoreOK st e heap s)
    (hO : OrderedStore st heap s) (hn : heapGet heap id = some n)
    (hcl : classAt st n j) (hj : j < e) (hk : k = ((K : ℤ) : ℚ))
    (hu : ∃ u : ℤ, Odd u ∧ K ≡ 2 ^ j * u [ZMOD (2 ^ 32 : ℤ)]) :
    StoreOK st e heap (storeSet s k id) ∧
      OrderedStore st heap (storeSet s k id) := by
  have hcert : entryCert st e heap (k, id) :=
    ⟨n, j, K, hn, hcl, hk, fun _ => hu, fun hje => absurd hje (by omega)⟩
  have hnotc : ¬ coarseEnt st heap (k, id) := by
    intro hc
    obtain ⟨m, hm, hms⟩ := hc
    rw [hn] at hm
    injection hm with hm
    subst hm
    have := (classAt_coarse_iff hst hcl).1 hms
    omega
  refine ⟨storeOK_insert hS hcert, ?_⟩
  by_cases hcase : ∃ ent ∈ s, ent.1 = k ∧ coarseEnt st heap ent
  · obtain ⟨ent0, hent0, hkey0, hc0⟩ := hcase
    obtain ⟨K0, hk0, hu0, hlo0, hhi0⟩ :=
      cert_coarse_class hst (hS.1 ent0 hent0) hc0
    have he1 : 1 ≤ e := by omega
    obtain ⟨u0, hu0odd, hu0c⟩ := hu0 he1
    obtain ⟨u, huodd, huc⟩ := hu
    have hKK0 : K0 = K := by
      have : ((K0 : ℤ) : ℚ) = ((K : ℤ) : ℚ) := by rw [← hk0, hkey0, hk]
      exact_mod_cast this
    have hcoll : (2 ^ j * u : ℤ) ≡ 2 ^ e * u0 [ZMOD (2 ^ 32 : ℤ)] :=
      (huc.symm.trans (hKK0 ▸ hu0c : K ≡ 2 ^ e * u0 [ZMOD (2 ^ 32 : ℤ)]))
    have hj32 : 32 ≤ j := by
      by_contra hlt
      exact pow2_odd_modeq_ne hj (by omega) huodd hu0odd hcoll
    have he33 : 32 ≤ e := by omega
    have hK0zero : ent0.1 = 0 :=
      cert_coarse_key_zero hst he33 (hS.1 ent0 hent0) hc0
    have hkzero : k = 0 := by rw [← hkey0, hK0zero]
    refine ordered_of_no_coarse fun ent hent => ?_
    rcases storeSet_mem_strict hS.2 hent with h | ⟨hmem, hne⟩
    · rw [h]
      exact hnotc
    · intro hc
      have : ent.1 = 0 :=
        cert_coarse_key_zero hst he33 (hS.1 ent hmem) hc
      exact hne (this.trans hkzero.symm)
  · push_neg at hcase
    exact ordered_storeSet_notCoarse hO hnotc
      fun ent hent hkey => hcase ent hent hkey

theorem even_mul_pow {k : ℕ} (hk : 1 ≤ k) (c : ℤ) : Even (c * 2 ^ k) := by
  refine ⟨c * 2 ^ (k - 1), ?_⟩
  have h2 : (2 : ℤ) ^ k = 2 ^ (k - 1) * 2 := by
    rw [← pow_succ, Nat.sub_add_cancel hk]
  rw [h2]
  ring

theorem nodeKey_raw (st : State) (x y : ℚ) :
    nodeKey st x y = toInt32 (keyRaw st x y) := by
  unfold nodeKey keyRaw
  rw [Q.add_eq, Q.add_eq, Q.mul_eq, Q.mul_eq]

theorem keyRaw_shift (st : State) (x y dx dy : ℚ) :
    keyRaw st (x + dx) (y + dy) = keyRaw st x y + st.cx * dx + st.cy * dy := by
  unfold keyRaw
  ring

/-- The key of a well-placed level-`j` center is an integer, and (whenever
the sample step spans at least two pixels, `1 ≤ e`) that integer is `2 ^ j`
times an odd number. -/
theorem keyRaw_form {st : State} {e : ℕ} (hst : GoodState st e)
    {j : ℕ} (hj : j ≤ e) {x y : ℚ} {a b : ℤ} (ha : Odd a) (hb : Odd b)
    (hx : x = a * (2 ^ j * st.pixelSize / 2))
    (hy : y = b * (2 ^ j * st.pixelSize / 2)) :
    ∃ KR : ℤ, keyRaw st x y = ((KR : ℤ) : ℚ) ∧
      (1 ≤ e → ∃ u : ℤ, Odd u ∧ KR = 2 ^ j * u) := by
  obtain ⟨mx, hmx⟩ := hst.dxm
  obtain ⟨my, hmy⟩ := hst.dym
  obtain ⟨mw, hmw⟩ := hst.dwm
  obtain ⟨d, rfl⟩ : ∃ d, e = j + d := ⟨e - j, by omega⟩
  have hp : st.pixelSize ≠ 0 := hst.ppos.ne'
  refine ⟨2 ^ j * (a - mx * 2 ^ (d + 1) + (mw : ℤ) * b * 2 ^ (j + d) -
    (mw : ℤ) * my * 2 ^ (j + 2 * d + 1)), ?_, fun he => ?_⟩
  · unfold keyRaw
    rw [hst.c0e, hst.cye, hst.cxe, hmx, hmy, hmw, hst.sse, hx, hy]
    push_cast
    field_simp
    ring
  · refine ⟨a - mx * 2 ^ (d + 1) + (mw : ℤ) * b * 2 ^ (j + d) -
      (mw : ℤ) * my * 2 ^ (j + 2 * d + 1), ?_, rfl⟩
    have he1 : Even (-(mx * 2 ^ (d + 1)) + (mw : ℤ) * b * 2 ^ (j + d) +
        -((mw : ℤ) * my * 2 ^ (j + 2 * d + 1))) := by
      refine Even.add (Even.add ?_ ?_) ?_
      · exact (even_mul_pow (by omega) mx).neg
      · exact even_mul_pow (by omega) ((mw : ℤ) * b)
      · exact (even_mul_pow (by omega) ((mw : ℤ) * my)).neg
    have := he1.odd_add ha
    convert this using 1
    ring

/-- Splitting the center coordinate on the parent grid: the parent center is
a well-placed center of the doubled square and the offset is half the edge. -/
theorem parentCoord_odd {s c : ℚ} {a : ℤ} (hs : 0 < s) (ha : Odd a)
    (hc : c = a * (s / 2)) :
    ∃ a' : ℤ, Odd a' ∧ parentCoord c (Q.mul s 2) = a' * (s * 2 / 2) ∧
      (c - parentCoord c (Q.mul s 2) = s / 2 ∨
       c - parentCoord c (Q.mul s 2) = -(s / 2)) := by
  have hs0 : s ≠ 0 := hs.ne'
  have hdiv : Q.div c (Q.mul s 2) = (a : ℚ) / 4 := by
    rw [Q.div_eq, Q.mul_eq, hc]
    field_simp
    ring
  have hfloor : ⌊Q.div c (Q.mul s 2)⌋ = a / 4 := by
    rw [hdiv]
    have : ((4 : ℕ) : ℚ) = (4 : ℚ) := by norm_num
    rw [← this, Rat.floor_intCast_div_natCast]
    norm_num
  have hmod : a % 4 = 1 ∨ a % 4 = 3 := by
    obtain ⟨t, rfl⟩ := ha
    omega
  have hval : parentCoord c (Q.mul s 2) = ((2 * (a / 4) + 1 : ℤ) : ℚ) * s := by
    unfold parentCoord
    rw [hfloor, Q.mul_eq, Q.mul_eq, Q.add_eq]
    have : (mkRat 1 2 : ℚ) = 1 / 2 := by norm_num [mkRat]
    rw [this]
    push_cast
    ring
  refine ⟨2 * (a / 4) + 1, ⟨a / 4, by ring⟩, ?_, ?_⟩
  · rw [hval]
    push_cast
    ring
  · have hae : (a : ℚ) = ((4 * (a / 4) + a % 4 : ℤ) : ℚ) := by
      norm_cast
      omega
    rcases hmod with h | h
    · right
      rw [hval, hc, hae, h]
      push_cast
      ring
    · left
      rw [hval, hc, hae, h]
      push_cast
      ring

theorem pow2_odd_modeq_cases {i j : ℕ} {u v : ℤ} (hu : Odd u) (hv : Odd v)
    (h : (2 ^ i * u : ℤ) ≡ 2 ^ j * v [ZMOD (2 ^ 32 : ℤ)]) :
    i = j ∨ (32 ≤ i ∧ 32 ≤ j) := by
  rcases lt_trichotomy i j with hij | hij | hij
  · by_cases h32 : i < 32
    · exact absurd h (pow2_odd_modeq_ne hij h32 hu hv)
    · right
      omega
  · exact Or.inl hij
  · by_cases h32 : j < 32
    · exact absurd h.symm (pow2_odd_modeq_ne hij h32 hv hu)
    · right
      omega

/-- A successful store lookup under a level-`c` shaped key returns a node of
level `c` (or, past the 32-bit wrap, of some level at least 32). -/
theorem storeGet_class {st : State} {e : ℕ} {heap : Heap V} {s : Store}
    (hS : ∀ ent ∈ s, entryCert st e heap ent) (he : 1 ≤ e)
    {k : ℚ} {K w : ℤ} {c : ℕ} (hk : k = ((K : ℤ) : ℚ)) (hw : Odd w)
    (hKc : K ≡ 2 ^ c * w [ZMOD (2 ^ 32 : ℤ)]) {id : ℕ}
    (hget : storeGet s k = some id) :
    ∃ n j, heapGet heap id = some n ∧ classAt st n j ∧
      (j = c ∨ (32 ≤ c ∧ 32 ≤ j)) := by
  have hmem := storeGet_mem hget
  obtain ⟨n, j, K', hn, hcl, hk', hu, -⟩ := hS (k, id) hmem
  obtain ⟨u, huodd, huc⟩ := hu he
  have hKK : K' = K := by
    have : ((K' : ℤ) : ℚ) = ((K : ℤ) : ℚ) := by rw [← hk', hk]
    exact_mod_cast this
  subst hKK
  have hcoll : (2 ^ j * u : ℤ) ≡ 2 ^ c * w [ZMOD (2 ^ 32 : ℤ)] :=
    huc.symm.trans hKc
  rcases pow2_odd_modeq_cases huodd hw hcoll with h | h
  · exact ⟨n, j, hn, hcl, Or.inl h⟩
  · exact ⟨n, j, hn, hcl, Or.inr ⟨h.2, h.1⟩⟩

theorem isPow2NatAux_pow {fuel n : ℕ} (h : isPow2NatAux fuel n = true) :
    ∃ k : ℕ, n = 2 ^ k := by
  induction fuel generalizing n with
  | zero =>
    cases n <;> simp [isPow2NatAux] at h
  | succ fuel ih =>
    match n with
    | 0 => simp [isPow2NatAux] at h
    | 1 => exact ⟨0, rfl⟩
    | m + 2 =>
      rw [isPow2NatAux, Bool.and_eq_true, decide_eq_true_eq] at h
      obtain ⟨k, hk⟩ := ih h.2
      refine ⟨k + 1, ?_⟩
      have h2 := h.1
      have := Nat.div_add_mod (m + 2) 2
      rw [pow_succ]
      omega

theorem isPow2_zpow {q : ℚ} (h : isPow2 q = true) : ∃ z : ℤ, q = 2 ^ z := by
  unfold isPow2 at h
  rcases Bool.or_eq_true_iff.1 h with h1 | h1 <;>
    rcases Bool.and_eq_true_iff.1 h1 with ⟨ha, hb⟩
  · obtain ⟨k, hk⟩ := isPow2NatAux_pow hb
    refine ⟨-(k : ℤ), ?_⟩
    have hnum : q.num = 1 := of_decide_eq_true ha
    have hq : q = q.num / q.den := (Rat.num_div_den q).symm
    rw [hq, hnum, hk]
    rw [zpow_neg, zpow_natCast]
    push_cast
    ring
  · obtain ⟨k, hk⟩ := isPow2NatAux_pow hb
    refine ⟨(k : ℤ), ?_⟩
    have hden : q.den = 1 := of_decide_eq_true ha
    have hq : q = q.num / q.den := (Rat.num_div_den q).symm
    have hnum : q.num = 2 ^ k := by
      have h0 : (0 : ℤ) < 2 ^ k := by positivity
      rcases le_or_lt 0 q.num with hn | hn
      · rw [← Int.toNat_of_nonneg hn, hk]
        push_cast
        ring
      · rw [Int.toNat_of_nonpos hn.le] at hk
        exact absurd hk.symm (by positivity)
    rw [hq, hden, hnum, zpow_natCast]
    push_cast
    ring

theorem max_pow2 {p s : ℚ} (hp : ∃ z : ℤ, p = 2 ^ z)
    (hs : ∃ z : ℤ, s = 2 ^ z) : ∃ e : ℕ, max p s = 2 ^ e * p := by
  obtain ⟨zp, rfl⟩ := hp
  obtain ⟨zs, rfl⟩ := hs
  rcases le_total zp zs with hz | hz
  · refine ⟨(zs - zp).toNat, ?_⟩
    have hle : (2 : ℚ) ^ zp ≤ 2 ^ zs := zpow_le_zpow_right₀ one_le_two hz
    rw [max_eq_right hle]
    rw [← zpow_natCast (2 : ℚ) (zs - zp).toNat, Int.toNat_of_nonneg (by omega)]
    rw [← zpow_add₀ (two_ne_zero) (zs - zp) zp]
    congr 1
    omega
  · refine ⟨0, ?_⟩
    have hle : (2 : ℚ) ^ zs ≤ 2 ^ zp := zpow_le_zpow_right₀ one_le_two hz
    rw [max_eq_left hle, pow_zero, one_mul]

theorem alignToGrid_x (d : Rect) (g : ℚ) :
    (alignToGrid d g).x = (⌊Q.div d.x g⌋ : ℤ) * g := by
  unfold alignToGrid
  dsimp only
  rw [Q.mul_eq]

theorem alignToGrid_y (d : Rect) (g : ℚ) :
    (alignToGrid d g).y = (⌊Q.div d.y g⌋ : ℤ) * g := by
  unfold alignToGrid
  dsimp only
  rw [Q.mul_eq]

theorem alignToGrid_w (d : Rect) (g : ℚ) (hg : 0 < g) (hw : 0 ≤ d.width) :
    ∃ m : ℕ, (alignToGrid d g).width = m * g := by
  unfold alignToGrid
  dsimp only
  refine ⟨(⌈Q.div (Q.add d.x d.width) g⌉ - ⌊Q.div d.x g⌋).toNat, ?_⟩
  have hle : ⌊Q.div d.x g⌋ ≤ ⌈Q.div (Q.add d.x d.width) g⌉ := by
    rw [Q.div_eq, Q.div_eq, Q.add_eq]
    refine le_trans (Int.floor_le_ceil _) (Int.ceil_le_ceil ?_)
    rw [div_le_div_iff_of_pos_right hg]
    linarith
  have hA : (((⌈Q.div (Q.add d.x d.width) g⌉ - ⌊Q.div d.x g⌋).toNat : ℕ) : ℚ) =
      ((⌈Q.div (Q.add d.x d.width) g⌉ : ℤ) : ℚ) - ((⌊Q.div d.x g⌋ : ℤ) : ℚ) := by
    rw [← Int.cast_natCast, Int.toNat_of_nonneg (by omega)]
    push_cast
    ring
  rw [Q.sub_eq, Q.mul_eq, Q.mul_eq, hA]
  ring

theorem mkState_goodState (d : Rect) (s p : ℚ) (hs : isPow2 s) (hp : isPow2 p)
    (hw : 0 ≤ d.width) : ∃ e : ℕ, GoodState (mkState d s p) e := by
  obtain ⟨e, he⟩ := max_pow2 (isPow2_zpow hp) (isPow2_zpow hs)
  refine ⟨e, ?_⟩
  have hppos : 0 < p := isPow2_pos hp
  have hsspos : 0 < max p s := lt_max_of_lt_left hppos
  refine ⟨hppos, he, ?_, ?_, ?_, ?_, ?_, ?_⟩
  · exact ⟨⌊Q.div d.x (max p s)⌋, alignToGrid_x d (max p s)⟩
  · exact ⟨⌊Q.div d.y (max p s)⌋, alignToGrid_y d (max p s)⟩
  · exact alignToGrid_w d (max p s) hsspos hw
  · exact Q.div_eq 2 p
  · show Q.mul (Q.div (alignToGrid d (max p s)).width p) (Q.div 2 p) =
      (alignToGrid d (max p s)).width / p * Q.div 2 p
    rw [Q.mul_eq, Q.div_eq]
  · show Q.sub (-(Q.mul (Q.div 2 p) (alignToGrid d (max p s)).x))
        (Q.mul (Q.mul (Q.div (alignToGrid d (max p s)).width p) (Q.div 2 p))
          (alignToGrid d (max p s)).y) =
      -(Q.div 2 p * (alignToGrid d (max p s)).x) -
        Q.mul (Q.div (alignToGrid d (max p s)).width p) (Q.div 2 p) *
          (alignToGrid d (max p s)).y
    rw [Q.sub_eq, Q.mul_eq, Q.mul_eq]

theorem createState_goodState {d : Rect} {s p : ℚ} {st : State}
    (h : createState d s p = .ok st) :
    ∃ e : ℕ, GoodState st e ∧ st.nodes = [] := by
  obtain ⟨hs, hp, hw, -⟩ := createState_ok_cond h
  obtain ⟨e, he⟩ := mkState_goodState d s p hs hp hw
  rw [createState_ok_inv h]
  exact ⟨e, he, rfl⟩

theorem goodState_empty : GoodState EMPTY_STATE 0 := by
  refine ⟨by norm_num [EMPTY_STATE], by norm_num [EMPTY_STATE],
    ⟨0, by norm_num [EMPTY_STATE]⟩, ⟨0, by norm_num [EMPTY_STATE]⟩,
    ⟨0, by norm_num [EMPTY_STATE]⟩, by norm_num [EMPTY_STATE],
    by norm_num [EMPTY_STATE], by norm_num [EMPTY_STATE]⟩

theorem goodState_nodes {st : State} {e : ℕ} (h : GoodState st e)
    (ns : Store) : GoodState { st with nodes := ns } e :=
  ⟨h.ppos, h.sse, h.dxm, h.dym, h.dwm, h.cxe, h.cye, h.c0e⟩

theorem goodState_fine_iff {st : State} {e : ℕ} (h : GoodState st e) :
    st.pixelSize < st.sampleSpacing ↔ 1 ≤ e := by
  rw [h.sse]
  constructor
  · intro hlt
    by_contra h0
    have : e = 0 := by omega
    rw [this] at hlt
    norm_num at hlt
  · intro he
    have h1 : (1 : ℚ) < 2 ^ e := by
      calc (1 : ℚ) < 2 := one_lt_two
      _ = 2 ^ 1 := (pow_one 2).symm
      _ ≤ 2 ^ e := by
        refine pow_le_pow_right₀ one_le_two he
    calc st.pixelSize = 1 * st.pixelSize := (one_mul _).symm
    _ < 2 ^ e * st.pixelSize := by
      exact mul_lt_mul_of_pos_right h1 h.ppos

theorem classAt_transfer {st st' : State} {n : Node V} {j : ℕ}
    (hp : st'.pixelSize = st.pixelSize)
    (hss : st'.sampleSpacing = st.sampleSpacing)
    (hc : classAt st' n j) : classAt st n j := by
  obtain ⟨h1, h2, h3, h4⟩ := hc
  exact ⟨by rw [← hp]; exact h1, by rw [← hss]; exact h2, h3, h4⟩

theorem canonical_zero {K : ℤ} (hlo : -2 ^ 31 ≤ K) (hhi : K < 2 ^ 31)
    (h : K ≡ 0 [ZMOD (2 ^ 32 : ℤ)]) : K = 0 := by
  unfold Int.ModEq at h
  omega

/-- The truncated key of a grid center: a canonical 32-bit integer congruent
to `2 ^ e` times an odd number. -/
theorem gridKey_cert {st : State} {e : ℕ} (hst : GoodState st e)
    {x y : ℚ} {a b : ℤ} (ha : Odd a) (hb : Odd b)
    (hx : x = a * (st.sampleSpacing / 2)) (hy : y = b * (st.sampleSpacing / 2)) :
    ∃ K : ℤ, nodeKey st x y = ((K : ℤ) : ℚ) ∧ -2 ^ 31 ≤ K ∧ K < 2 ^ 31 ∧
      (1 ≤ e → ∃ u : ℤ, Odd u ∧ K ≡ 2 ^ e * u [ZMOD (2 ^ 32 : ℤ)]) := by
  rw [hst.sse] at hx hy
  obtain ⟨KR, hKR, hu⟩ := keyRaw_form hst (le_refl e) ha hb hx hy
  refine ⟨toInt32Z KR, ?_, (toInt32Z_range KR).1, (toInt32Z_range KR).2,
    fun he => ?_⟩
  · rw [nodeKey_raw, hKR, toInt32_intCast]
  · obtain ⟨u, huodd, huKR⟩ := hu he
    exact ⟨u, huodd, by rw [← huKR]; exact toInt32Z_modeq KR⟩

theorem gridCell_ok {f : ℚ → ℚ → V} {st prevSt : State} {e : ℕ}
    (hst : GoodState st e) {usePrev : Bool}
    (hprev : usePrev = true → GoodState prevSt e ∧
      prevSt.pixelSize = st.pixelSize ∧
      prevSt.sampleSpacing = st.sampleSpacing)
    {x y : ℚ} {a b : ℤ} (ha : Odd a) (hb : Odd b)
    (hx : x = a * (st.sampleSpacing / 2)) (hy : y = b * (st.sampleSpacing / 2))
    {env : Env V} (hE : GridOK st e prevSt env) :
    GridOK st e prevSt (gridCell f st prevSt usePrev x y env) := by
  obtain ⟨hS, hside, hQ, hP⟩ := hE
  obtain ⟨K, hKcast, hKlo, hKhi, hKu⟩ := gridKey_cert hst ha hb hx hy
  have hkey0 : 32 ≤ e → nodeKey st x y = 0 := by
    intro he32
    obtain ⟨u, huodd, huc⟩ := hKu (by omega)
    have : K = 0 := canonical_zero hKlo hKhi (huc.trans (pow2_modeq_zero he32 u))
    rw [hKcast, this]
    norm_num
  unfold gridCell
  rcases usePrev with - | -
  · -- fresh allocation branch
    simp only [Bool.false_eq_true, if_false]
    set nd : Node V := ⟨x, y, st.sampleSpacing, f x y, true⟩ with hnd
    have hclnd : classAt st nd e := by
      refine ⟨hst.sse, le_refl _, ⟨a, ha, hx⟩, ⟨b, hb, hy⟩⟩
    have hgetnd : heapGet (env.heap ++ [nd]) env.heap.length = some nd :=
      heapGet_alloc env.heap nd
    have hgeom : GeomLe env.heap (env.heap ++ [nd]) := geomLe_alloc env.heap nd
    have hcert : entryCert st e (env.heap ++ [nd])
        (nodeKey st x y, env.heap.length) := by
      exact ⟨nd, e, K, hgetnd, hclnd, hKcast,
        fun he => hKu he, fun _ => ⟨hKlo, hKhi⟩⟩
    refine ⟨storeOK_insert (storeOK_geom hgeom hS) hcert, ?_, ?_, ?_⟩
    · intro ent hent
      rcases storeSet_mem hent with h | h
      · subst h
        exact Or.inl ⟨nd, hgetnd, rfl⟩
      · rcases hside ent h with hc | hc
        · exact Or.inl (coarseEnt_geom hgeom hc)
        · exact Or.inr hc
    · intro id hid
      rcases List.mem_cons.1 hid with h | h
      · subst h
        exact ⟨nd, e, hclnd, hgetnd⟩
      · exact queueOK_geom hgeom hQ id h
    · exact prevOK_geom hgeom hP
  · -- usePrev branch: look the grid center up in the previous store
    simp only [if_true]
    obtain ⟨hpgood, hpx, hpss⟩ := hprev rfl
    rcases hget : storeGet prevSt.nodes (nodeKey prevSt x y) with - | id
    · -- not found: fresh allocation, same as above
      simp only [hget]
      set nd : Node V := ⟨x, y, st.sampleSpacing, f x y, true⟩ with hnd
      have hclnd : classAt st nd e := by
        refine ⟨hst.sse, le_refl _, ⟨a, ha, hx⟩, ⟨b, hb, hy⟩⟩
      have hgetnd : heapGet (env.heap ++ [nd]) env.heap.length = some nd :=
        heapGet_alloc env.heap nd
      have hgeom : GeomLe env.heap (env.heap ++ [nd]) := geomLe_alloc env.heap nd
      have hcert : entryCert st e (env.heap ++ [nd])
          (nodeKey st x y, env.heap.length) := by
        exact ⟨nd, e, K, hgetnd, hclnd, hKcast,
          fun he => hKu he, fun _ => ⟨hKlo, hKhi⟩⟩
      refine ⟨storeOK_insert (storeOK_geom hgeom hS) hcert, ?_, ?_, ?_⟩
      · intro ent hent
        rcases storeSet_mem hent with h | h
        · subst h
          exact Or.inl ⟨nd, hgetnd, rfl⟩
        · rcases hside ent h with hc | hc
          · exact Or.inl (coarseEnt_geom hgeom hc)
          · exact Or.inr hc
      · intro id hid
        rcases List.mem_cons.1 hid with h | h
        · subst h
          exact ⟨nd, e, hclnd, hgetnd⟩
        · exact queueOK_geom hgeom hQ id h
      · exact prevOK_geom hgeom hP
    · -- found: reuse the previous node under the new key
      simp only [hget]
      have hmem := storeGet_mem hget
      obtain ⟨n, j, K', hn, hcl', hk', hu', -⟩ := hP _ hmem
      have hcl : classAt st n j := classAt_transfer hpx hpss hcl'
      have hj : j ≤ e := classAt_le hst hcl
      by_cases he : 1 ≤ e
      · -- the previous key has level e; deduce j = e or both past the wrap
        have hxp : x = (a : ℚ) * (prevSt.sampleSpacing / 2) := by
          rw [hpss]; exact hx
        have hyp : y = (b : ℚ) * (prevSt.sampleSpacing / 2) := by
          rw [hpss]; exact hy
        obtain ⟨Kp, hKpcast, hKplo, hKphi, hKpu⟩ := gridKey_cert hpgood ha hb hxp hyp
        obtain ⟨up, hupodd, hupc⟩ := hKpu he
        obtain ⟨u', hu'odd, hu'c⟩ := hu' he
        have hKK : K' = Kp := by
          have : ((K' : ℤ) : ℚ) = ((Kp : ℤ) : ℚ) := by rw [← hk', ← hKpcast]
          exact_mod_cast this
        subst hKK
        have hcoll : (2 ^ j * u' : ℤ) ≡ 2 ^ e * up [ZMOD (2 ^ 32 : ℤ)] :=
          hu'c.symm.trans hupc
        obtain ⟨u, huodd, huc⟩ := hKu he
        have hcert : entryCert st e env.heap (nodeKey st x y, id) := by
          refine ⟨n, j, K, hn, hcl, hKcast, fun _ => ?_, fun _ => ⟨hKlo, hKhi⟩⟩
          rcases pow2_odd_modeq_cases hu'odd hupodd hcoll with hje | ⟨hj32, he32⟩
          · exact ⟨u, huodd, by rw [hje]; exact huc⟩
          · refine ⟨1, odd_one, ?_⟩
            have h1 : K ≡ 0 [ZMOD (2 ^ 32 : ℤ)] :=
              huc.trans (pow2_modeq_zero (by omega) u)
            have h2 : (2 ^ j * 1 : ℤ) ≡ 0 [ZMOD (2 ^ 32 : ℤ)] :=
              pow2_modeq_zero (by omega) 1
            exact h1.trans h2.symm
        refine ⟨storeOK_insert hS hcert, ?_, hQ, hP⟩
        intro ent hent
        rcases storeSet_mem hent with h | h
        · subst h
          rcases pow2_odd_modeq_cases hu'odd hupodd hcoll with hje | ⟨hj32, he32⟩
          · refine Or.inl ⟨n, hn, ?_⟩
            rw [(classAt_coarse_iff hst hcl).2 hje]
          · exact Or.inr ⟨by omega, hkey0 (by omega)⟩
        · exact hside ent h
      · -- e = 0: every admissible node is a root node
        have hje : j = e := by omega
        have hcert : entryCert st e env.heap (nodeKey st x y, id) :=
          ⟨n, j, K, hn, hcl, hKcast, fun h1 => absurd h1 he,
            fun _ => ⟨hKlo, hKhi⟩⟩
        refine ⟨storeOK_insert hS hcert, ?_, hQ, hP⟩
        intro ent hent
        rcases storeSet_mem hent with h | h
        · subst h
          refine Or.inl ⟨n, hn, ?_⟩
          rw [(classAt_coarse_iff hst hcl).2 hje]
        · exact hside ent h

theorem gridCells_ok {f : ℚ → ℚ → V} {st prevSt : State} {e : ℕ}
    (hst : GoodState st e) {usePrev : Bool}
    (hprev : usePrev = true → GoodState prevSt e ∧
      prevSt.pixelSize = st.pixelSize ∧
      prevSt.sampleSpacing = st.sampleSpacing)
    {y : ℚ} {b : ℤ} (hb : Odd b) (hy : y = b * (st.sampleSpacing / 2))
    (n : ℕ) :
    ∀ (x : ℚ) (a : ℤ) (env : Env V), Odd a →
      x = a * (st.sampleSpacing / 2) → GridOK st e prevSt env →
      GridOK st e prevSt (gridCells f st prevSt usePrev y n x env) := by
  induction n with
  | zero =>
    intro x a env ha hx hE
    exact hE
  | succ n ih =>
    intro x a env ha hx hE
    rw [gridCells]
    refine ih (Q.add x st.sampleSpacing) (a + 2) _ (by
      obtain ⟨t, ht⟩ := ha
      exact ⟨t + 1, by omega⟩) ?_ (gridCell_ok hst hprev ha hb hx hy hE)
    rw [Q.add_eq, hx]
    push_cast
    ring

theorem gridRows_ok {f : ℚ → ℚ → V} {st prevSt : State} {e : ℕ}
    (hst : GoodState st e) {usePrev : Bool}
    (hprev : usePrev = true → GoodState prevSt e ∧
      prevSt.pixelSize = st.pixelSize ∧
      prevSt.sampleSpacing = st.sampleSpacing)
    (nx : ℕ) (n : ℕ) :
    ∀ (y : ℚ) (b : ℤ) (env : Env V), Odd b →
      y = b * (st.sampleSpacing / 2) → GridOK st e prevSt env →
      GridOK st e prevSt (gridRows f st prevSt usePrev nx n y env) := by
  induction n with
  | zero =>
    intro y b env hb hy hE
    exact hE
  | succ n ih =>
    intro y b env hb hy hE
    rw [gridRows]
    obtain ⟨mx, hmx⟩ := hst.dxm
    have hxstart : Q.add st.domain.x (Q.div st.sampleSpacing 2) =
        ((2 * mx + 1 : ℤ) : ℚ) * (st.sampleSpacing / 2) := by
      rw [Q.add_eq, Q.div_eq, hmx]
      push_cast
      ring
    refine ih (Q.add y st.sampleSpacing) (b + 2) _ (by
      obtain ⟨t, ht⟩ := hb
      exact ⟨t + 1, by omega⟩) ?_ ?_
    · rw [Q.add_eq, hy]
      push_cast
      ring
    · exact gridCells_ok hst hprev hb hy nx _ (2 * mx + 1) env
        ⟨mx, by ring⟩ hxstart hE

theorem computeGrid_ok {f : ℚ → ℚ → V} {st prevSt : State} {e : ℕ}
    (hst : GoodState st e)
    (hprev : prevSt.nodes ≠ [] → GoodState prevSt e ∧
      prevSt.pixelSize = st.pixelSize ∧
      prevSt.sampleSpacing = st.sampleSpacing)
    {env : Env V} (hE : GridOK st e prevSt env) :
    GridOK st e prevSt (computeGrid f st prevSt env) := by
  unfold computeGrid
  obtain ⟨my, hmy⟩ := hst.dym
  have hystart : Q.add st.domain.y (Q.div st.sampleSpacing 2) =
      ((2 * my + 1 : ℤ) : ℚ) * (st.sampleSpacing / 2) := by
    rw [Q.add_eq, Q.div_eq, hmy]
    push_cast
    ring
  refine gridRows_ok hst ?_ _ _ _ (2 * my + 1) env ⟨my, by ring⟩ hystart hE
  intro hup
  refine hprev ?_
  intro hnil
  rw [decide_eq_true_eq] at hup
  exact hup hnil

theorem gridOK_envOK {st prevSt : State} {e : ℕ} (hst : GoodState st e)
    {env : Env V} (hE : GridOK st e prevSt env) : EnvOK st e env :=
  ⟨hE.1, grid_side_ordered hst hE.1 hE.2.1, hE.2.2.1⟩

theorem cx_half {st : State} {e : ℕ} (hst : GoodState st e) {size : ℚ}
    {c : ℕ} (hs : size = 2 ^ (c + 1) * st.pixelSize) :
    Q.mul (Q.div size 2) st.cx = ((2 ^ (c + 1) : ℤ) : ℚ) := by
  have hp : st.pixelSize ≠ 0 := hst.ppos.ne'
  rw [Q.mul_eq, Q.div_eq, hs, hst.cxe]
  push_cast
  field_simp
  all_goals ring

theorem cy_half {st : State} {e : ℕ} (hst : GoodState st e) {size : ℚ}
    {c : ℕ} (hs : size = 2 ^ (c + 1) * st.pixelSize) :
    ∃ W : ℤ, Q.mul (Q.div size 2) st.cy = ((2 ^ (c + 1) * W : ℤ) : ℚ) := by
  obtain ⟨mw, hmw⟩ := hst.dwm
  have hp : st.pixelSize ≠ 0 := hst.ppos.ne'
  refine ⟨(mw : ℤ) * 2 ^ e, ?_⟩
  rw [Q.mul_eq, Q.div_eq, hs, hst.cye, hst.cxe, hmw, hst.sse]
  push_cast
  field_simp
  ring

theorem addChildren_ok {f : ℚ → ℚ → V} {st : State} {e : ℕ}
    (hst : GoodState st e) {x y size : ℚ} {jc : ℕ}
    (hsize : size = 2 ^ (jc + 1) * st.pixelSize) (hle : size ≤ st.sampleSpacing)
    {a b : ℤ} (ha : Odd a) (hb : Odd b)
    (hx : x = a * (size / 2)) (hy : y = b * (size / 2))
    {env : Env V} (hE : EnvOK st e env) :
    EnvOK st e (addChildren f st x y size env) := by
  obtain ⟨hS0, hO0, hQ0⟩ := hE
  have hp : st.pixelSize ≠ 0 := hst.ppos.ne'
  have hjce : jc + 1 ≤ e := by
    rw [hsize, hst.sse] at hle
    exact qpow_two_le (le_of_mul_le_mul_right hle hst.ppos)
  have he1 : 1 ≤ e := by omega
  obtain ⟨mw, hmw⟩ := hst.dwm
  -- geometry of the four children
  have hhalf : Q.div size 2 = 2 ^ jc * st.pixelSize := by
    rw [Q.div_eq, hsize]
    ring
  have hhalfle : Q.div size 2 ≤ st.sampleSpacing := by
    rw [hhalf, hst.sse]
    exact mul_le_mul_of_nonneg_right
      (pow_le_pow_right₀ one_le_two (by omega)) hst.ppos.le
  have hx1 : Q.sub x (Q.div size 4) =
      ((2 * a - 1 : ℤ) : ℚ) * (2 ^ jc * st.pixelSize / 2) := by
    rw [Q.sub_eq, Q.div_eq, hx, hsize]
    push_cast
    ring
  have hy1 : Q.sub y (Q.div size 4) =
      ((2 * b - 1 : ℤ) : ℚ) * (2 ^ jc * st.pixelSize / 2) := by
    rw [Q.sub_eq, Q.div_eq, hy, hsize]
    push_cast
    ring
  have hx2 : Q.add (Q.sub x (Q.div size 4)) (Q.div size 2) =
      ((2 * a + 1 : ℤ) : ℚ) * (2 ^ jc * st.pixelSize / 2) := by
    rw [Q.add_eq, hx1, Q.div_eq, hsize]
    push_cast
    ring
  have hy2 : Q.add (Q.sub y (Q.div size 4)) (Q.div size 2) =
      ((2 * b + 1 : ℤ) : ℚ) * (2 ^ jc * st.pixelSize / 2) := by
    rw [Q.add_eq, hy1, Q.div_eq, hsize]
    push_cast
    ring
  have hx3 : Q.sub (Q.add (Q.sub x (Q.div size 4)) (Q.div size 2)) (Q.div size 2) =
      ((2 * a - 1 : ℤ) : ℚ) * (2 ^ jc * st.pixelSize / 2) := by
    rw [Q.sub_eq, hx2, Q.div_eq, hsize]
    push_cast
    ring
  -- integer keys of the four children's centers
  obtain ⟨KR1, hKR1, hu1⟩ := keyRaw_form hst (by omega : jc ≤ e)
    (⟨a - 1, by ring⟩ : Odd (2 * a - 1)) (⟨b - 1, by ring⟩ : Odd (2 * b - 1))
    hx1 hy1
  obtain ⟨KR2, hKR2, hu2⟩ := keyRaw_form hst (by omega : jc ≤ e)
    (⟨a, by ring⟩ : Odd (2 * a + 1)) (⟨b - 1, by ring⟩ : Odd (2 * b - 1))
    hx2 hy1
  obtain ⟨KR3, hKR3, hu3⟩ := keyRaw_form hst (by omega : jc ≤ e)
    (⟨a, by ring⟩ : Odd (2 * a + 1)) (⟨b, by ring⟩ : Odd (2 * b + 1))
    hx2 hy2
  obtain ⟨KR4, hKR4, hu4⟩ := keyRaw_form hst (by omega : jc ≤ e)
    (⟨a - 1, by ring⟩ : Odd (2 * a - 1)) (⟨b, by ring⟩ : Odd (2 * b + 1))
    hx3 hy2
  obtain ⟨u1, hu1o, hu1e⟩ := hu1 he1
  obtain ⟨u2, hu2o, hu2e⟩ := hu2 he1
  obtain ⟨u3, hu3o, hu3e⟩ := hu3 he1
  obtain ⟨u4, hu4o, hu4e⟩ := hu4 he1
  have hcx := cx_half hst hsize
  have hcy : Q.mul (Q.div size 2) st.cy =
      ((2 ^ (jc + 1) * ((mw : ℤ) * 2 ^ e) : ℤ) : ℚ) := by
    rw [Q.mul_eq, Q.div_eq, hsize, hst.cye, hst.cxe, hmw, hst.sse]
    push_cast
    field_simp
    ring
  -- raw-key steps between consecutive children
  have hstep2 : KR2 = KR1 + 2 ^ (jc + 1) := by
    have h1 : keyRaw st (Q.add (Q.sub x (Q.div size 4)) (Q.div size 2))
        (Q.sub y (Q.div size 4)) =
        keyRaw st (Q.sub x (Q.div size 4)) (Q.sub y (Q.div size 4)) +
          ((2 ^ (jc + 1) : ℤ) : ℚ) := by
      unfold keyRaw
      rw [hst.cxe, hx2, hx1]
      push_cast
      field_simp
      ring
    rw [hKR1, hKR2] at h1
    exact_mod_cast h1
  have hstep3 : KR3 = KR2 + 2 ^ (jc + 1) * ((mw : ℤ) * 2 ^ e) := by
    have h1 : keyRaw st (Q.add (Q.sub x (Q.div size 4)) (Q.div size 2))
        (Q.add (Q.sub y (Q.div size 4)) (Q.div size 2)) =
        keyRaw st (Q.add (Q.sub x (Q.div size 4)) (Q.div size 2))
          (Q.sub y (Q.div size 4)) +
          ((2 ^ (jc + 1) * ((mw : ℤ) * 2 ^ e) : ℤ) : ℚ) := by
      unfold keyRaw
      rw [hst.cye, hst.cxe, hmw, hst.sse, hy2, hy1]
      push_cast
      field_simp
      ring
    rw [hKR2, hKR3] at h1
    exact_mod_cast h1
  have hstep4 : KR4 = KR3 - 2 ^ (jc + 1) := by
    have h1 : keyRaw st
        (Q.sub (Q.add (Q.sub x (Q.div size 4)) (Q.div size 2)) (Q.div size 2))
        (Q.add (Q.sub y (Q.div size 4)) (Q.div size 2)) =
        keyRaw st (Q.add (Q.sub x (Q.div size 4)) (Q.div size 2))
          (Q.add (Q.sub y (Q.div size 4)) (Q.div size 2)) -
          ((2 ^ (jc + 1) : ℤ) : ℚ) := by
      unfold keyRaw
      rw [hst.cxe, hx3, hx2]
      push_cast
      field_simp
      ring
    rw [hKR3, hKR4] at h1
    exact_mod_cast h1
  -- the four inserted keys as integers
  have hkey1 : nodeKey st (Q.sub x (Q.div size 4)) (Q.sub y (Q.div size 4)) =
      ((toInt32Z KR1 : ℤ) : ℚ) := by
    rw [nodeKey_raw, hKR1, toInt32_intCast]
  have hkey2 : Q.add (nodeKey st (Q.sub x (Q.div size 4)) (Q.sub y (Q.div size 4)))
      (Q.mul (Q.div size 2) st.cx) =
      ((toInt32Z KR1 + 2 ^ (jc + 1) : ℤ) : ℚ) := by
    rw [Q.add_eq, hkey1, hcx]
    push_cast
    ring
  have hkey3 : Q.add (Q.add
      (nodeKey st (Q.sub x (Q.div size 4)) (Q.sub y (Q.div size 4)))
      (Q.mul (Q.div size 2) st.cx)) (Q.mul (Q.div size 2) st.cy) =
      ((toInt32Z KR1 + 2 ^ (jc + 1) + 2 ^ (jc + 1) * ((mw : ℤ) * 2 ^ e) : ℤ) : ℚ) := by
    rw [Q.add_eq, hkey2, hcy]
    push_cast
    ring
  have hkey4 : Q.sub (Q.add (Q.add
      (nodeKey st (Q.sub x (Q.div size 4)) (Q.sub y (Q.div size 4)))
      (Q.mul (Q.div size 2) st.cx)) (Q.mul (Q.div size 2) st.cy))
      (Q.mul (Q.div size 2) st.cx) =
      ((toInt32Z KR1 + 2 ^ (jc + 1) + 2 ^ (jc + 1) * ((mw : ℤ) * 2 ^ e) -
        2 ^ (jc + 1) : ℤ) : ℚ) := by
    rw [Q.sub_eq, hkey3, hcx]
    push_cast
    ring
  -- congruence certificates for the four keys
  have hc1 : toInt32Z KR1 ≡ 2 ^ jc * u1 [ZMOD (2 ^ 32 : ℤ)] := by
    rw [← hu1e]
    exact toInt32Z_modeq KR1
  have hc2 : toInt32Z KR1 + 2 ^ (jc + 1) ≡ 2 ^ jc * u2 [ZMOD (2 ^ 32 : ℤ)] := by
    rw [← hu2e, hstep2]
    exact (toInt32Z_modeq KR1).add_right _
  have hc3 : toInt32Z KR1 + 2 ^ (jc + 1) + 2 ^ (jc + 1) * ((mw : ℤ) * 2 ^ e) ≡
      2 ^ jc * u3 [ZMOD (2 ^ 32 : ℤ)] := by
    rw [← hu3e, hstep3, hstep2]
    exact ((toInt32Z_modeq KR1).add_right _).add_right _
  have hc4 : toInt32Z KR1 + 2 ^ (jc + 1) + 2 ^ (jc + 1) * ((mw : ℤ) * 2 ^ e) -
      2 ^ (jc + 1) ≡ 2 ^ jc * u4 [ZMOD (2 ^ 32 : ℤ)] := by
    rw [← hu4e, hstep4, hstep3, hstep2]
    exact (((toInt32Z_modeq KR1).add_right _).add_right _).sub_right _
  unfold addChildren
  dsimp only [heapAlloc]
  -- the four freshly allocated children
  set nd1 : Node V := ⟨Q.sub x (Q.div size 4), Q.sub y (Q.div size 4),
    Q.div size 2, f (Q.sub x (Q.div size 4)) (Q.sub y (Q.div size 4)), true⟩
    with hnd1
  set nd2 : Node V := ⟨Q.add (Q.sub x (Q.div size 4)) (Q.div size 2),
    Q.sub y (Q.div size 4), Q.div size 2,
    f (Q.add (Q.sub x (Q.div size 4)) (Q.div size 2)) (Q.sub y (Q.div size 4)),
    true⟩ with hnd2
  set nd3 : Node V := ⟨Q.add (Q.sub x (Q.div size 4)) (Q.div size 2),
    Q.add (Q.sub y (Q.div size 4)) (Q.div size 2), Q.div size 2,
    f (Q.add (Q.sub x (Q.div size 4)) (Q.div size 2))
      (Q.add (Q.sub y (Q.div size 4)) (Q.div size 2)), true⟩ with hnd3
  set nd4 : Node V := ⟨Q.sub (Q.add (Q.sub x (Q.div size 4)) (Q.div size 2))
      (Q.div size 2),
    Q.add (Q.sub y (Q.div size 4)) (Q.div size 2), Q.div size 2,
    f (Q.sub (Q.add (Q.sub x (Q.div size 4)) (Q.div size 2)) (Q.div size 2))
      (Q.add (Q.sub y (Q.div size 4)) (Q.div size 2)), true⟩ with hnd4
  have hcl1 : classAt st nd1 jc := by
    refine ⟨hhalf, hhalfle, ⟨2 * a - 1, ⟨a - 1, by ring⟩, ?_⟩,
      ⟨2 * b - 1, ⟨b - 1, by ring⟩, ?_⟩⟩
    · show Q.sub x (Q.div size 4) = ((2 * a - 1 : ℤ) : ℚ) * (Q.div size 2 / 2)
      rw [hx1, hhalf]
    · show Q.sub y (Q.div size 4) = ((2 * b - 1 : ℤ) : ℚ) * (Q.div size 2 / 2)
      rw [hy1, hhalf]
  have hcl2 : classAt st nd2 jc := by
    refine ⟨hhalf, hhalfle, ⟨2 * a + 1, ⟨a, by ring⟩, ?_⟩,
      ⟨2 * b - 1, ⟨b - 1, by ring⟩, ?_⟩⟩
    · show Q.add (Q.sub x (Q.div size 4)) (Q.div size 2) =
        ((2 * a + 1 : ℤ) : ℚ) * (Q.div size 2 / 2)
      rw [hx2, hhalf]
    · show Q.sub y (Q.div size 4) = ((2 * b - 1 : ℤ) : ℚ) * (Q.div size 2 / 2)
      rw [hy1, hhalf]
  have hcl3 : classAt st nd3 jc := by
    refine ⟨hhalf, hhalfle, ⟨2 * a + 1, ⟨a, by ring⟩, ?_⟩,
      ⟨2 * b + 1, ⟨b, by ring⟩, ?_⟩⟩
    · show Q.add (Q.sub x (Q.div size 4)) (Q.div size 2) =
        ((2 * a + 1 : ℤ) : ℚ) * (Q.div size 2 / 2)
      rw [hx2, hhalf]
    · show Q.add (Q.sub y (Q.div size 4)) (Q.div size 2) =
        ((2 * b + 1 : ℤ) : ℚ) * (Q.div size 2 / 2)
      rw [hy2, hhalf]
  have hcl4 : classAt st nd4 jc := by
    refine ⟨hhalf, hhalfle, ⟨2 * a - 1, ⟨a - 1, by ring⟩, ?_⟩,
      ⟨2 * b + 1, ⟨b, by ring⟩, ?_⟩⟩
    · show Q.sub (Q.add (Q.sub x (Q.div size 4)) (Q.div size 2)) (Q.div size 2) =
        ((2 * a - 1 : ℤ) : ℚ) * (Q.div size 2 / 2)
      rw [hx3, hhalf]
    · show Q.add (Q.sub y (Q.div size 4)) (Q.div size 2) =
        ((2 * b + 1 : ℤ) : ℚ) * (Q.div size 2 / 2)
      rw [hy2, hhalf]
  -- heap access to the four children in the final heap
  have hg1 : heapGet (((env.heap ++ [nd1]) ++ [nd2] ++ [nd3]) ++ [nd4])
      env.heap.length = some nd1 :=
    heapGet_append nd4 (heapGet_append nd3
      (heapGet_append nd2 (heapGet_alloc env.heap nd1)))
  have hg2 : heapGet (((env.heap ++ [nd1]) ++ [nd2] ++ [nd3]) ++ [nd4])
      (env.heap ++ [nd1]).length = some nd2 :=
    heapGet_append nd4 (heapGet_append nd3 (heapGet_alloc (env.heap ++ [nd1]) nd2))
  have hg3 : heapGet (((env.heap ++ [nd1]) ++ [nd2] ++ [nd3]) ++ [nd4])
      (env.heap ++ [nd1] ++ [nd2]).length = some nd3 :=
    heapGet_append nd4 (heapGet_alloc (env.heap ++ [nd1] ++ [nd2]) nd3)
  have hg4 : heapGet (((env.heap ++ [nd1]) ++ [nd2] ++ [nd3]) ++ [nd4])
      (env.heap ++ [nd1] ++ [nd2] ++ [nd3]).length = some nd4 :=
    heapGet_alloc (env.heap ++ [nd1] ++ [nd2] ++ [nd3]) nd4
  have hgeom : GeomLe env.heap (((env.heap ++ [nd1]) ++ [nd2] ++ [nd3]) ++ [nd4]) :=
    geomLe_trans (geomLe_alloc _ nd1) (geomLe_trans (geomLe_alloc _ nd2)
      (geomLe_trans (geomLe_alloc _ nd3) (geomLe_alloc _ nd4)))
  have hS4 := storeOK_geom hgeom hS0
  have hO4 := orderedStore_geom hgeom hS0.1 hO0
  have step1 := insert_fine_ok hst hS4 hO4 hg1 hcl1 (by omega : jc < e)
    hkey1 ⟨u1, hu1o, hc1⟩
  have step2 := insert_fine_ok hst step1.1 step1.2 hg2 hcl2 (by omega : jc < e)
    hkey2 ⟨u2, hu2o, hc2⟩
  have step3 := insert_fine_ok hst step2.1 step2.2 hg3 hcl3 (by omega : jc < e)
    hkey3 ⟨u3, hu3o, hc3⟩
  have step4 := insert_fine_ok hst step3.1 step3.2 hg4 hcl4 (by omega : jc < e)
    hkey4 ⟨u4, hu4o, hc4⟩
  refine ⟨step4.1, step4.2, ?_⟩
  intro id hid
  rcases List.mem_cons.1 hid with h | hid
  · subst h
    exact ⟨nd4, jc, hcl4, hg4⟩
  rcases List.mem_cons.1 hid with h | hid
  · subst h
    exact ⟨nd3, jc, hcl3, hg3⟩
  rcases List.mem_cons.1 hid with h | hid
  · subst h
    exact ⟨nd2, jc, hcl2, hg2⟩
  rcases List.mem_cons.1 hid with h | hid
  · subst h
    exact ⟨nd1, jc, hcl1, hg1⟩
  · exact queueOK_geom hgeom hQ0 id hid

theorem storeGet_even {st : State} {e : ℕ} {heap : Heap V} {s : Store}
    (hS : ∀ ent ∈ s, entryCert st e heap ent) (he : 1 ≤ e)
    {k : ℚ} {K : ℤ} (hk : k = ((K : ℤ) : ℚ)) (hKe : Even K) {id : ℕ}
    (hget : storeGet s k = some id) :
    ∃ n j, heapGet heap id = some n ∧ classAt st n j ∧ 1 ≤ j := by
  have hmem := storeGet_mem hget
  obtain ⟨n, j, K', hn, hcl, hk', hu, -⟩ := hS (k, id) hmem
  obtain ⟨u, huodd, huc⟩ := hu he
  have hKK : K' = K := by
    have : ((K' : ℤ) : ℚ) = ((K : ℤ) : ℚ) := by rw [← hk', hk]
    exact_mod_cast this
  subst hKK
  refine ⟨n, j, hn, hcl, ?_⟩
  by_contra hj0
  have hj : j = 0 := by omega
  subst hj
  rw [pow_zero, one_mul] at huc
  unfold Int.ModEq at huc
  obtain ⟨t, ht⟩ := huodd
  obtain ⟨r, hr⟩ := hKe
  omega

theorem lookup_fact {st : State} {e : ℕ} {heap : Heap V} {s : Store}
    (hS : ∀ ent ∈ s, entryCert st e heap ent) (he : 1 ≤ e)
    {k : ℚ} {K : ℤ} (hk : k = ((K : ℤ) : ℚ))
    (hcls : (∃ cn : ℕ, ∃ u : ℤ, 1 ≤ cn ∧ Odd u ∧
      K ≡ 2 ^ cn * u [ZMOD (2 ^ 32 : ℤ)]) ∨ Even K) :
    ∀ id, storeGet s k = some id →
      ∃ n j, heapGet heap id = some n ∧ classAt st n j ∧ 1 ≤ j := by
  intro id hget
  rcases hcls with ⟨cn, u, hcn, huodd, huc⟩ | hKe
  · obtain ⟨n, j, hn, hcl, hj⟩ := storeGet_class hS he hk huodd huc hget
    refine ⟨n, j, hn, hcl, ?_⟩
    rcases hj with h | h <;> omega
  · exact storeGet_even hS he hk hKe hget

theorem toInt32Z_even {K : ℤ} (h : Even K) : Even (toInt32Z K) := by
  rw [Int.even_iff] at h ⊢
  unfold toInt32Z
  split <;> omega

/-- Looking up `toInt32 (base + offset)` where the base key is congruent to
`2 ^ c` times an odd number below the root level (and even in any case), and
the offset is `2 ^ c` times an even number, finds a subdividable node. -/
theorem lookup_shift {st : State} {e : ℕ} {heap : Heap V} {s : Store}
    (hS : ∀ ent ∈ s, entryCert st e heap ent) (he : 1 ≤ e)
    {KB : ℤ} {c : ℕ} (hc1 : 1 ≤ c)
    (hbu : c ≤ e → ∃ u : ℤ, Odd u ∧ KB ≡ 2 ^ c * u [ZMOD (2 ^ 32 : ℤ)])
    (hbe : Even KB) {off : ℤ} (hofft : ∃ t : ℤ, off = 2 ^ c * (2 * t))
    {k : ℚ} (hk : k = ((toInt32Z (KB + off) : ℤ) : ℚ)) :
    ∀ nid, storeGet s k = some nid →
      ∃ n j, heapGet heap nid = some n ∧ classAt st n j ∧ 1 ≤ j := by
  obtain ⟨t, hofft⟩ := hofft
  by_cases hce : c ≤ e
  · obtain ⟨u, huodd, huc⟩ := hbu hce
    refine lookup_fact hS he hk (Or.inl ⟨c, u + 2 * t, hc1, ?_, ?_⟩)
    · obtain ⟨r, hr⟩ := huodd
      exact ⟨r + t, by omega⟩
    · have h1 : KB + off ≡ 2 ^ c * u + off [ZMOD (2 ^ 32 : ℤ)] :=
        huc.add_right off
      have h2 : (2 ^ c * u + off : ℤ) = 2 ^ c * (u + 2 * t) := by
        rw [hofft]
        ring
      exact (toInt32Z_modeq _).trans (h2 ▸ h1)
  · refine lookup_fact hS he hk (Or.inr ?_)
    refine toInt32Z_even ?_
    refine hbe.add ?_
    rw [hofft, ← mul_assoc, mul_comm ((2:ℤ) ^ c) 2, mul_assoc]
    exact ⟨2 ^ c * t, by ring⟩

/-- The raw key of a well-placed center of level `1 ≤ c ≤ e + 1` is an even
integer; below the root level it is `2 ^ c` times an odd number. -/
theorem keyRaw_parent {st : State} {e : ℕ} (hst : GoodState st e) {c : ℕ}
    (hc1 : 1 ≤ c) (hce : c ≤ e + 1) {x y : ℚ} {a b : ℤ}
    (ha : Odd a) (hb : Odd b)
    (hx : x = a * (2 ^ c * st.pixelSize / 2))
    (hy : y = b * (2 ^ c * st.pixelSize / 2)) :
    ∃ KR : ℤ, keyRaw st x y = ((KR : ℤ) : ℚ) ∧ Even KR ∧
      (c ≤ e → ∃ u : ℤ, Odd u ∧ KR = 2 ^ c * u) := by
  by_cases hcle : c ≤ e
  · obtain ⟨KR, hKR, hu⟩ := keyRaw_form hst hcle ha hb hx hy
    obtain ⟨u, huodd, hue⟩ := hu (by omega)
    refine ⟨KR, hKR, ?_, fun _ => ⟨u, huodd, hue⟩⟩
    rw [hue, mul_comm]
    exact even_mul_pow hc1 u
  · have hc : c = e + 1 := by omega
    subst hc
    obtain ⟨mx, hmx⟩ := hst.dxm
    obtain ⟨my, hmy⟩ := hst.dym
    obtain ⟨mw, hmw⟩ := hst.dwm
    have hp : st.pixelSize ≠ 0 := hst.ppos.ne'
    refine ⟨(a - mx) * 2 ^ (e + 1) +
      ((mw : ℤ) * 2 ^ e * (b - my)) * 2 ^ (e + 1), ?_, ?_, fun h => by omega⟩
    · unfold keyRaw
      rw [hst.c0e, hst.cye, hst.cxe, hmx, hmy, hmw, hst.sse, hx, hy]
      push_cast
      field_simp
      ring
    · exact Even.add (even_mul_pow (by omega) _) (even_mul_pow (by omega) _)

theorem cx_mul_size {st : State} {e : ℕ} (hst : GoodState st e) {size : ℚ}
    {c : ℕ} (hs : size = 2 ^ c * st.pixelSize) :
    Q.mul size st.cx = ((2 ^ (c + 1) : ℤ) : ℚ) := by
  have hp : st.pixelSize ≠ 0 := hst.ppos.ne'
  rw [Q.mul_eq, hs, hst.cxe]
  push_cast
  field_simp
  ring

theorem cy_mul_size {st : State} {e : ℕ} (hst : GoodState st e) {size : ℚ}
    {c : ℕ} (hs : size = 2 ^ c * st.pixelSize) :
    ∃ W : ℤ, Q.mul size st.cy = ((2 ^ (c + 1) * W : ℤ) : ℚ) := by
  obtain ⟨mw, hmw⟩ := hst.dwm
  have hp : st.pixelSize ≠ 0 := hst.ppos.ne'
  refine ⟨(mw : ℤ) * 2 ^ e, ?_⟩
  rw [Q.mul_eq, hs, hst.cye, hst.cxe, hmw, hst.sse]
  push_cast
  field_simp
  ring

theorem cx_mul_size2 {st : State} {e : ℕ} (hst : GoodState st e) {size : ℚ}
    {c : ℕ} (hs : size = 2 ^ c * st.pixelSize) :
    Q.mul (Q.mul size 2) st.cx = ((2 ^ (c + 2) : ℤ) : ℚ) := by
  have hp : st.pixelSize ≠ 0 := hst.ppos.ne'
  rw [Q.mul_eq, Q.mul_eq, hs, hst.cxe]
  push_cast
  field_simp
  ring

theorem cy_mul_size2 {st : State} {e : ℕ} (hst : GoodState st e) {size : ℚ}
    {c : ℕ} (hs : size = 2 ^ c * st.pixelSize) :
    ∃ W : ℤ, Q.mul (Q.mul size 2) st.cy = ((2 ^ (c + 2) * W : ℤ) : ℚ) := by
  obtain ⟨mw, hmw⟩ := hst.dwm
  have hp : st.pixelSize ≠ 0 := hst.ppos.ne'
  refine ⟨(mw : ℤ) * 2 ^ e, ?_⟩
  rw [Q.mul_eq, Q.mul_eq, hs, hst.cye, hst.cxe, hmw, hst.sse]
  push_cast
  field_simp
  ring

theorem addChildren_geom (f : ℚ → ℚ → V) (st : State) (x y size : ℚ)
    (env : Env V) : GeomLe env.heap (addChildren f st x y size env).heap := by
  unfold addChildren
  dsimp only [heapAlloc]
  exact geomLe_trans (geomLe_alloc _ _) (geomLe_trans (geomLe_alloc _ _)
    (geomLe_trans (geomLe_alloc _ _) (geomLe_alloc _ _)))

theorem envOK_heap {st : State} {e : ℕ} {env : Env V} {heap' : Heap V}
    (hE : EnvOK st e env) (hg : GeomLe env.heap heap') :
    EnvOK st e ⟨heap', env.store, env.queue, env.newCalls⟩ :=
  ⟨storeOK_geom hg hE.1, orderedStore_geom hg hE.1.1 hE.2.1,
    queueOK_geom hg hE.2.2⟩

theorem rawKey_Q (st : State) (px py : ℚ) :
    Q.add (Q.add st.c0 (Q.mul st.cy py)) (Q.mul st.cx px) = keyRaw st px py := by
  unfold keyRaw
  rw [Q.add_eq, Q.add_eq, Q.mul_eq, Q.mul_eq]

/-- `subdivideLeaf` preserves the invariant and the geometry of live nodes,
provided the subdivided node sits at least one level above the pixels. -/
theorem subdivideLeaf_ok {f : ℚ → ℚ → V} {st : State} {e : ℕ}
    (hst : GoodState st e) (he : 1 ≤ e) :
    ∀ (fuel : ℕ) (id : ℕ) (env env' : Env V), EnvOK st e env →
      (∃ n j, heapGet env.heap id = some n ∧ classAt st n j ∧ 1 ≤ j) →
      subdivideLeaf f st fuel id env = some env' →
      EnvOK st e env' ∧ GeomLe env.heap env'.heap := by
  intro fuel
  induction fuel with
  | zero =>
    intro id env env' hE hfound h
    exact absurd h (by simp [subdivideLeaf])
  | succ fuel ih =>
    intro id env env' hE hfound h
    have step : ∀ (o : Option (Env V)) (ecur out : Env V), EnvOK st e ecur →
        (o = some ecur ∨ ∃ nid, (∃ nn jj, heapGet ecur.heap nid = some nn ∧
          classAt st nn jj ∧ 1 ≤ jj) ∧ o = subdivideLeaf f st fuel nid ecur) →
        o = some out → EnvOK st e out ∧ GeomLe ecur.heap out.heap := by
      intro o ecur out hEc hcase ho
      rcases hcase with h1 | ⟨nid, hpre, h1⟩
      · rw [h1] at ho
        injection ho with ho
        subst ho
        exact ⟨hEc, geomLe_refl _⟩
      · exact ih nid ecur out hEc hpre (h1 ▸ ho)
    obtain ⟨n, j, hn, hcl, hj1⟩ := hfound
    obtain ⟨hsize, hsle, ⟨a, haodd, hxa⟩, ⟨b, hbodd, hyb⟩⟩ := hcl
    have hcl' : classAt st n j := ⟨hsize, hsle, ⟨a, haodd, hxa⟩, ⟨b, hbodd, hyb⟩⟩
    have hspos : 0 < n.size := by
      rw [hsize]
      exact mul_pos (by positivity) hst.ppos
    have hje : j ≤ e := classAt_le hst hcl'
    obtain ⟨ap, hapodd, hpx, hsubx⟩ := parentCoord_odd hspos haodd hxa
    obtain ⟨bp, hbpodd, hpy, hsuby⟩ := parentCoord_odd hspos hbodd hyb
    have hsz2 : n.size * 2 / 2 = 2 ^ (j + 1) * st.pixelSize / 2 := by
      rw [hsize]
      ring
    have hpx' : parentCoord n.x (Q.mul n.size 2) =
        ap * (2 ^ (j + 1) * st.pixelSize / 2) := by rw [hpx, hsz2]
    have hpy' : parentCoord n.y (Q.mul n.size 2) =
        bp * (2 ^ (j + 1) * st.pixelSize / 2) := by rw [hpy, hsz2]
    obtain ⟨KP, hKP, hKPeven, hKPu⟩ := keyRaw_parent hst (by omega)
      (by omega) hapodd hbpodd hpx' hpy'
    have hKPuc : j + 1 ≤ e → ∃ u : ℤ, Odd u ∧
        KP ≡ 2 ^ (j + 1) * u [ZMOD (2 ^ 32 : ℤ)] := by
      intro hce
      obtain ⟨u, huodd, hue⟩ := hKPu hce
      exact ⟨u, huodd, by rw [hue]⟩
    obtain ⟨mw, hmw⟩ := hst.dwm
    have hp : st.pixelSize ≠ 0 := hst.ppos.ne'
    -- the two neighbor lookup keys
    have hPK : Q.add (Q.add st.c0 (Q.mul st.cy (parentCoord n.y (Q.mul n.size 2))))
        (Q.mul st.cx (parentCoord n.x (Q.mul n.size 2))) = ((KP : ℤ) : ℚ) := by
      rw [rawKey_Q, hKP]
    have hoffx : Q.mul (Q.mul 4 (Q.sub n.x (parentCoord n.x (Q.mul n.size 2)))) st.cx =
        ((2 ^ (j + 1) * (2 * 1) : ℤ) : ℚ) ∨
        Q.mul (Q.mul 4 (Q.sub n.x (parentCoord n.x (Q.mul n.size 2)))) st.cx =
        ((2 ^ (j + 1) * (2 * (-1)) : ℤ) : ℚ) := by
      rcases hsubx with hd | hd
      · left
        rw [Q.mul_eq, Q.mul_eq, Q.sub_eq, hd, hst.cxe, hsize]
        push_cast
        field_simp
        ring
      · right
        rw [Q.mul_eq, Q.mul_eq, Q.sub_eq, hd, hst.cxe, hsize]
        push_cast
        field_simp
        ring
    have hoffy : Q.mul (Q.mul 4 (Q.sub n.y (parentCoord n.y (Q.mul n.size 2)))) st.cy =
        ((2 ^ (j + 1) * (2 * ((mw : ℤ) * 2 ^ e)) : ℤ) : ℚ) ∨
        Q.mul (Q.mul 4 (Q.sub n.y (parentCoord n.y (Q.mul n.size 2)))) st.cy =
        ((2 ^ (j + 1) * (2 * (-((mw : ℤ) * 2 ^ e))) : ℤ) : ℚ) := by
      rcases hsuby with hd | hd
      · left
        rw [Q.mul_eq, Q.mul_eq, Q.sub_eq, hd, hst.cye, hst.cxe, hmw, hst.sse, hsize]
        push_cast
        field_simp
        ring
      · right
        rw [Q.mul_eq, Q.mul_eq, Q.sub_eq, hd, hst.cye, hst.cxe, hmw, hst.sse, hsize]
        push_cast
        field_simp
        ring
    -- open the definition
    rw [subdivideLeaf, hn] at h
    dsimp only at h
    set n' : Node V := { n with leaf := false } with hn'
    have hg1 : GeomLe env.heap (heapSet env.heap id n') :=
      geomLe_set hn rfl rfl rfl
    have hE1 : EnvOK st e
        ⟨heapSet env.heap id n', env.store, env.queue, env.newCalls⟩ :=
      envOK_heap hE hg1
    have hcertsE1 : ∀ ent ∈ env.store,
        entryCert st e (heapSet env.heap id n') ent :=
      fun ent hent => entryCert_geom hg1 (hE.1.1 ent hent)
    -- safety of the two lookups
    have hlookX : ∀ nid, storeGet env.store (toInt32 (Q.add
        (Q.add (Q.add st.c0 (Q.mul st.cy (parentCoord n.y (Q.mul n.size 2))))
          (Q.mul st.cx (parentCoord n.x (Q.mul n.size 2))))
        (Q.mul (Q.mul 4 (Q.sub n.x (parentCoord n.x (Q.mul n.size 2)))) st.cx)))
        = some nid →
        ∃ nn jj, heapGet (heapSet env.heap id n') nid = some nn ∧
          classAt st nn jj ∧ 1 ≤ jj := by
      rcases hoffx with hd | hd
      · refine lookup_shift hcertsE1 he (by omega) hKPuc hKPeven ⟨1, rfl⟩ ?_
        rw [Q.add_eq, hPK, hd, ← Int.cast_add, toInt32_intCast]
      · refine lookup_shift hcertsE1 he (by omega) hKPuc hKPeven ⟨-1, rfl⟩ ?_
        rw [Q.add_eq, hPK, hd, ← Int.cast_add, toInt32_intCast]
    have hlookY : ∀ nid, storeGet env.store (toInt32 (Q.add
        (Q.add (Q.add st.c0 (Q.mul st.cy (parentCoord n.y (Q.mul n.size 2))))
          (Q.mul st.cx (parentCoord n.x (Q.mul n.size 2))))
        (Q.mul (Q.mul 4 (Q.sub n.y (parentCoord n.y (Q.mul n.size 2)))) st.cy)))
        = some nid →
        ∃ nn jj, heapGet (heapSet env.heap id n') nid = some nn ∧
          classAt st nn jj ∧ 1 ≤ jj := by
      rcases hoffy with hd | hd
      · refine lookup_shift hcertsE1 he (by omega) hKPuc hKPeven
          ⟨(mw : ℤ) * 2 ^ e, rfl⟩ ?_
        rw [Q.add_eq, hPK, hd, ← Int.cast_add, toInt32_intCast]
      · refine lookup_shift hcertsE1 he (by omega) hKPuc hKPeven
          ⟨-((mw : ℤ) * 2 ^ e), rfl⟩ ?_
        rw [Q.add_eq, hPK, hd, ← Int.cast_add, toInt32_intCast]
    obtain ⟨jc, hjc⟩ : ∃ jc, j = jc + 1 := ⟨j - 1, by omega⟩
    subst hjc
    -- handling of the closing addChildren call
    have hTail : ∀ e3 : Env V, EnvOK st e e3 →
        some (addChildren f st n.x n.y n.size e3) = some env' →
        EnvOK st e env' ∧ GeomLe e3.heap env'.heap := by
      intro e3 hE3 hh
      injection hh with hh
      subst hh
      exact ⟨addChildren_ok hst hsize hsle haodd hbodd hxa hyb hE3,
        addChildren_geom f st n.x n.y n.size e3⟩
    -- handling of the y-neighbor stage for an arbitrary environment
    have hY : ∀ e2 : Env V, EnvOK st e e2 →
        GeomLe (heapSet env.heap id n') e2.heap →
        (match
          match storeGet env.store (toInt32 (Q.add
            (Q.add (Q.add st.c0 (Q.mul st.cy (parentCoord n.y (Q.mul n.size 2))))
              (Q.mul st.cx (parentCoord n.x (Q.mul n.size 2))))
            (Q.mul (Q.mul 4 (Q.sub n.y (parentCoord n.y (Q.mul n.size 2)))) st.cy)))
            with
          | none => some e2
          | some nid =>
            match heapGet e2.heap nid with
            | none => none
            | some nn => if nn.leaf = true then subdivideLeaf f st fuel nid e2
              else some e2 with
        | none => none
        | some e3 => some (addChildren f st n.x n.y n.size e3)) = some env' →
        EnvOK st e env' ∧ GeomLe (heapSet env.heap id n') env'.heap := by
      intro e2 hE2 hg2 h2
      rcases hgy : storeGet env.store (toInt32 (Q.add
          (Q.add (Q.add st.c0 (Q.mul st.cy (parentCoord n.y (Q.mul n.size 2))))
            (Q.mul st.cx (parentCoord n.x (Q.mul n.size 2))))
          (Q.mul (Q.mul 4 (Q.sub n.y (parentCoord n.y (Q.mul n.size 2)))) st.cy)))
          with - | nidy
      · rw [hgy] at h2
        dsimp only at h2
        obtain ⟨hok, hgeo⟩ := hTail e2 hE2 h2
        exact ⟨hok, geomLe_trans hg2 hgeo⟩
      · rw [hgy] at h2
        dsimp only at h2
        obtain ⟨ny, jy, hny, hcly, hjy⟩ := hlookY nidy hgy
        obtain ⟨ny2, hny2, hgx2, hgy2, hgs2⟩ := hg2 nidy ny hny
        rw [hny2] at h2
        dsimp only at h2
        cases hlf : ny2.leaf
        · rw [hlf] at h2
          simp only [Bool.false_eq_true, if_false] at h2
          obtain ⟨hok, hgeo⟩ := hTail e2 hE2 h2
          exact ⟨hok, geomLe_trans hg2 hgeo⟩
        · rw [hlf] at h2
          simp only [if_true] at h2
          rcases hsub : subdivideLeaf f st fuel nidy e2 with - | e3
          · rw [hsub] at h2
            exact absurd h2 (by simp)
          · rw [hsub] at h2
            dsimp only at h2
            obtain ⟨hE3, hg3⟩ := ih nidy e2 e3 hE2
              ⟨ny2, jy, hny2, classAt_geom hgx2 hgy2 hgs2 hcly, hjy⟩ hsub
            obtain ⟨hok, hgeo⟩ := hTail e3 hE3 h2
            exact ⟨hok, geomLe_trans hg2 (geomLe_trans hg3 hgeo)⟩
    -- the x-neighbor stage
    rcases hgx : storeGet env.store (toInt32 (Q.add
        (Q.add (Q.add st.c0 (Q.mul st.cy (parentCoord n.y (Q.mul n.size 2))))
          (Q.mul st.cx (parentCoord n.x (Q.mul n.size 2))))
        (Q.mul (Q.mul 4 (Q.sub n.x (parentCoord n.x (Q.mul n.size 2)))) st.cx)))
        with - | nidx
    · rw [hgx] at h
      dsimp only at h
      obtain ⟨hok, hgeo⟩ := hY _ hE1 (geomLe_refl _) h
      exact ⟨hok, geomLe_trans hg1 hgeo⟩
    · rw [hgx] at h
      dsimp only at h
      obtain ⟨nx, jx, hnx, hclx, hjx⟩ := hlookX nidx hgx
      rw [hnx] at h
      dsimp only at h
      cases hlf : nx.leaf
      · rw [hlf] at h
        simp only [Bool.false_eq_true, if_false] at h
        obtain ⟨hok, hgeo⟩ := hY _ hE1 (geomLe_refl _) h
        exact ⟨hok, geomLe_trans hg1 hgeo⟩
      · rw [hlf] at h
        simp only [if_true] at h
        rcases hsub : subdivideLeaf f st fuel nidx
            ⟨heapSet env.heap id n', env.store, env.queue, env.newCalls⟩
            with - | e2
        · rw [hsub] at h
          exact absurd h (by simp)
        · rw [hsub] at h
          dsimp only at h
          obtain ⟨hE2, hg2⟩ := ih nidx _ e2 hE1 ⟨nx, jx, hnx, hclx, hjx⟩ hsub
          obtain ⟨hok, hgeo⟩ := hY e2 hE2 hg2 h
          exact ⟨hok, geomLe_trans hg1 hgeo⟩

theorem traverseNeighbor_ok {f : ℚ → ℚ → V} {st : State} {e : ℕ}
    (hst : GoodState st e) (he : 1 ≤ e) {fuel : ℕ} {value : V}
    {nid? : Option ℕ} {env : Env V} {out : Env V × Bool}
    (hE : EnvOK st e env)
    (hfound : ∀ nid, nid? = some nid → ∃ n j, heapGet env.heap nid = some n ∧
      classAt st n j ∧ 1 ≤ j)
    (h : traverseNeighbor f st fuel value nid? env = some out) :
    EnvOK st e out.1 ∧ GeomLe env.heap out.1.heap := by
  unfold traverseNeighbor at h
  rcases nid? with - | nid
  · dsimp only at h
    injection h with h
    subst h
    exact ⟨hE, geomLe_refl _⟩
  · dsimp only at h
    obtain ⟨n, j, hn, hcl, hj⟩ := hfound nid rfl
    rw [hn] at h
    dsimp only at h
    by_cases hcond : value ≠ n.value
    · rw [if_pos hcond] at h
      cases hlf : n.leaf
      · rw [hlf] at h
        simp only [Bool.false_eq_true, if_false] at h
        injection h with h
        subst h
        exact ⟨hE, geomLe_refl _⟩
      · rw [hlf] at h
        simp only [if_true] at h
        rcases hsub : subdivideLeaf f st fuel nid env with - | e2
        · rw [hsub] at h
          exact absurd h (by simp)
        · rw [hsub] at h
          injection h with h
          subst h
          exact subdivideLeaf_ok hst he fuel nid env e2 hE ⟨n, j, hn, hcl, hj⟩ hsub
    · rw [if_neg hcond] at h
      injection h with h
      subst h
      exact ⟨hE, geomLe_refl _⟩

theorem option_orElse_cases {o1 o2 : Option ℕ} {id0 : ℕ}
    (h : (o1.orElse fun _ => o2) = some id0) :
    o1 = some id0 ∨ o2 = some id0 := by
  cases o1 with
  | none =>
    right
    simpa [Option.orElse] using h
  | some a =>
    left
    simpa [Option.orElse] using h

theorem even_base {j : ℕ} (hj : 1 ≤ j) (u KR : ℤ) (he : KR = 2 ^ j * u) :
    Even (toInt32Z KR) := by
  refine toInt32Z_even ?_
  rw [he, mul_comm]
  exact even_mul_pow hj u

/-- `traverse` preserves the invariant. -/
theorem traverse_envOK {f : ℚ → ℚ → V} {st : State} {e : ℕ}
    (hst : GoodState st e) (he : 1 ≤ e) :
    ∀ (fuel : ℕ) (env env' : Env V), EnvOK st e env →
      traverse f st fuel env = some env' → EnvOK st e env' := by
  intro fuel
  induction fuel with
  | zero =>
    intro env env' hE h
    exact absurd h (by simp [traverse])
  | succ fuel ih =>
    intro env env' hE h
    rw [traverse] at h
    rcases hq : env.queue with - | ⟨id, rest⟩
    · rw [hq] at h
      dsimp only at h
      injection h with h
      subst h
      exact hE
    · rw [hq] at h
      dsimp only at h
      have hQ := hE.2.2
      rw [hq] at hQ
      obtain ⟨n, j, hcl, hn⟩ := hQ id (List.mem_cons_self id rest)
      have hE' : EnvOK st e ⟨env.heap, env.store, rest, env.newCalls⟩ :=
        ⟨hE.1, hE.2.1, fun i hi => hQ i (List.mem_cons_of_mem id hi)⟩
      rw [hn] at h
      dsimp only at h
      by_cases hlf : n.leaf = true
      swap
      · rw [if_pos (by simp [hlf])] at h
        exact ih _ env' hE' h
      rw [if_neg (by simp [hlf])] at h
      obtain ⟨hsize, hsle, ⟨a, haodd, hxa⟩, ⟨b, hbodd, hyb⟩⟩ := hcl
      have hcl' : classAt st n j := ⟨hsize, hsle, ⟨a, haodd, hxa⟩, ⟨b, hbodd, hyb⟩⟩
      have hje : j ≤ e := classAt_le hst hcl'
      have hspos : 0 < n.size := by
        rw [hsize]
        exact mul_pos (by positivity) hst.ppos
      obtain ⟨ap, hapodd, hpx, hsubx⟩ := parentCoord_odd hspos haodd hxa
      obtain ⟨bp, hbpodd, hpy, hsuby⟩ := parentCoord_odd hspos hbodd hyb
      have hsz2 : n.size * 2 / 2 = 2 ^ (j + 1) * st.pixelSize / 2 := by
        rw [hsize]
        ring
      have hpx' : parentCoord n.x (Q.mul n.size 2) =
          ap * (2 ^ (j + 1) * st.pixelSize / 2) := by rw [hpx, hsz2]
      have hpy' : parentCoord n.y (Q.mul n.size 2) =
          bp * (2 ^ (j + 1) * st.pixelSize / 2) := by rw [hpy, hsz2]
      obtain ⟨KRP, hKRP, hKRPeven, hKRPu⟩ := keyRaw_parent hst (by omega)
        (by omega) hapodd hbpodd hpx' hpy'
      have hPKcast : nodeKey st (parentCoord n.x (Q.mul n.size 2))
          (parentCoord n.y (Q.mul n.size 2)) = ((toInt32Z KRP : ℤ) : ℚ) := by
        rw [nodeKey_raw, hKRP, toInt32_intCast]
      have hPbu : j + 1 ≤ e → ∃ u : ℤ, Odd u ∧
          toInt32Z KRP ≡ 2 ^ (j + 1) * u [ZMOD (2 ^ 32 : ℤ)] := by
        intro hce
        obtain ⟨u, huodd, hue⟩ := hKRPu hce
        exact ⟨u, huodd, by rw [← hue]; exact toInt32Z_modeq KRP⟩
      have hPeven : Even (toInt32Z KRP) := toInt32Z_even hKRPeven
      have hxa' : n.x = (a : ℚ) * (2 ^ j * st.pixelSize / 2) := by
        rw [hxa, hsize]
      have hyb' : n.y = (b : ℚ) * (2 ^ j * st.pixelSize / 2) := by
        rw [hyb, hsize]
      obtain ⟨KR0, hKR0, hu0⟩ := keyRaw_form hst hje haodd hbodd hxa' hyb' 
      obtain ⟨u0, hu0odd, hu0e⟩ := hu0 he
      have hKcast : nodeKey st n.x n.y = ((toInt32Z KR0 : ℤ) : ℚ) := by
        rw [nodeKey_raw, hKR0, toInt32_intCast]
      obtain ⟨mw, hmw⟩ := hst.dwm
      have hp : st.pixelSize ≠ 0 := hst.ppos.ne'
      by_cases hsp : n.size = st.pixelSize
      · -- finest level: only the parent-sized axis neighbors are examined
        rw [if_pos hsp] at h
        have hj0 : j = 0 := by
          have h1 : (2 : ℚ) ^ j * st.pixelSize = 2 ^ 0 * st.pixelSize := by
            rw [pow_zero, one_mul, ← hsize, hsp]
          exact qpow_two_inj (mul_right_cancel₀ hp h1)
        subst hj0
        have hoffx : Q.mul (Q.mul (Q.sub n.x (parentCoord n.x (Q.mul n.size 2))) 4) st.cx =
            ((2 ^ 1 * (2 * 1) : ℤ) : ℚ) ∨
            Q.mul (Q.mul (Q.sub n.x (parentCoord n.x (Q.mul n.size 2))) 4) st.cx =
            ((2 ^ 1 * (2 * (-1)) : ℤ) : ℚ) := by
          rcases hsubx with hd | hd
          · left
            rw [Q.mul_eq, Q.mul_eq, Q.sub_eq, hd, hst.cxe, hsp]
            push_cast
            field_simp
          · right
            rw [Q.mul_eq, Q.mul_eq, Q.sub_eq, hd, hst.cxe, hsp]
            push_cast
            field_simp
            ring
        have hoffy : Q.mul (Q.mul (Q.sub n.y (parentCoord n.y (Q.mul n.size 2))) 4) st.cy =
            ((2 ^ 1 * (2 * ((mw : ℤ) * 2 ^ e * 1)) : ℤ) : ℚ) ∨
            Q.mul (Q.mul (Q.sub n.y (parentCoord n.y (Q.mul n.size 2))) 4) st.cy =
            ((2 ^ 1 * (2 * ((mw : ℤ) * 2 ^ e * (-1))) : ℤ) : ℚ) := by
          rcases hsuby with hd | hd
          · left
            rw [Q.mul_eq, Q.mul_eq, Q.sub_eq, hd, hst.cye, hst.cxe, hmw, hst.sse, hsp]
            push_cast
            field_simp
            ring
          · right
            rw [Q.mul_eq, Q.mul_eq, Q.sub_eq, hd, hst.cye, hst.cxe, hmw, hst.sse, hsp]
            push_cast
            field_simp
            ring
        have hlookX : ∀ nid, storeGet env.store (toInt32 (Q.add
            (nodeKey st (parentCoord n.x (Q.mul n.size 2))
              (parentCoord n.y (Q.mul n.size 2)))
            (Q.mul (Q.mul (Q.sub n.x (parentCoord n.x (Q.mul n.size 2))) 4) st.cx)))
            = some nid →
            ∃ nn jj, heapGet env.heap nid = some nn ∧ classAt st nn jj ∧ 1 ≤ jj := by
          rcases hoffx with hd | hd
          · refine lookup_shift hE.1.1 he (by omega) hPbu hPeven ⟨1, rfl⟩ ?_
            rw [Q.add_eq, hPKcast, hd, ← Int.cast_add, toInt32_intCast]
          · refine lookup_shift hE.1.1 he (by omega) hPbu hPeven ⟨-1, rfl⟩ ?_
            rw [Q.add_eq, hPKcast, hd, ← Int.cast_add, toInt32_intCast]
        have hlookY : ∀ nid, storeGet env.store (toInt32 (Q.add
            (nodeKey st (parentCoord n.x (Q.mul n.size 2))
              (parentCoord n.y (Q.mul n.size 2)))
            (Q.mul (Q.mul (Q.sub n.y (parentCoord n.y (Q.mul n.size 2))) 4) st.cy)))
            = some nid →
            ∃ nn jj, heapGet env.heap nid = some nn ∧ classAt st nn jj ∧ 1 ≤ jj := by
          rcases hoffy with hd | hd
          · refine lookup_shift hE.1.1 he (by omega) hPbu hPeven
              ⟨(mw : ℤ) * 2 ^ e * 1, rfl⟩ ?_
            rw [Q.add_eq, hPKcast, hd, ← Int.cast_add, toInt32_intCast]
          · refine lookup_shift hE.1.1 he (by omega) hPbu hPeven
              ⟨(mw : ℤ) * 2 ^ e * (-1), rfl⟩ ?_
            rw [Q.add_eq, hPKcast, hd, ← Int.cast_add, toInt32_intCast]
        -- a generic pixel-level guard stage
        have hstage : ∀ (nid? : Option ℕ) (ecur eo : Env V), EnvOK st e ecur →
            (∀ nid, nid? = some nid → ∃ nn jj, heapGet ecur.heap nid = some nn ∧
              classAt st nn jj ∧ 1 ≤ jj) →
            (match nid? with
             | none => some ecur
             | some nid =>
               match heapGet ecur.heap nid with
               | none => none
               | some n2 =>
                 if n2.leaf ∧ n.value ≠ n2.value then
                   subdivideLeaf f st fuel nid ecur
                 else some ecur) = some eo →
            EnvOK st e eo ∧ GeomLe ecur.heap eo.heap := by
          intro nid? ecur eo hEc hfound hh
          rcases nid? with - | nid
          · dsimp only at hh
            injection hh with hh
            subst hh
            exact ⟨hEc, geomLe_refl _⟩
          · dsimp only at hh
            obtain ⟨nn, jj, hnn, hclnn, hjj⟩ := hfound nid rfl
            rw [hnn] at hh
            dsimp only at hh
            by_cases hcond : nn.leaf ∧ n.value ≠ nn.value
            · rw [if_pos hcond] at hh
              exact subdivideLeaf_ok hst he fuel nid ecur eo hEc
                ⟨nn, jj, hnn, hclnn, hjj⟩ hh
            · rw [if_neg hcond] at hh
              injection hh with hh
              subst hh
              exact ⟨hEc, geomLe_refl _⟩
        rcases hsx : (match storeGet env.store (toInt32 (Q.add
            (nodeKey st (parentCoord n.x (Q.mul n.size 2))
              (parentCoord n.y (Q.mul n.size 2)))
            (Q.mul (Q.mul (Q.sub n.x (parentCoord n.x (Q.mul n.size 2))) 4) st.cx)))
            with
          | none => some (⟨env.heap, env.store, rest, env.newCalls⟩ : Env V)
          | some nid =>
            match heapGet (⟨env.heap, env.store, rest, env.newCalls⟩ : Env V).heap nid with
            | none => none
            | some n2 =>
              if n2.leaf ∧ n.value ≠ n2.value then
                subdivideLeaf f st fuel nid ⟨env.heap, env.store, rest, env.newCalls⟩
              else some ⟨env.heap, env.store, rest, env.newCalls⟩) with - | e2
        · rw [hsx] at h
          exact absurd h (by simp)
        · rw [hsx] at h
          dsimp only at h
          obtain ⟨hE2, hg2⟩ := hstage _ _ e2 hE' (fun nid hnid => hlookX nid hnid) hsx
          rcases hsy : (match storeGet env.store (toInt32 (Q.add
              (nodeKey st (parentCoord n.x (Q.mul n.size 2))
                (parentCoord n.y (Q.mul n.size 2)))
              (Q.mul (Q.mul (Q.sub n.y (parentCoord n.y (Q.mul n.size 2))) 4) st.cy)))
              with
            | none => some e2
            | some nid =>
              match heapGet e2.heap nid with
              | none => none
              | some n2 =>
                if n2.leaf ∧ n.value ≠ n2.value then
                  subdivideLeaf f st fuel nid e2
                else some e2) with - | e3
          · rw [hsy] at h
            exact absurd h (by simp)
          · rw [hsy] at h
            dsimp only at h
            have hfY : ∀ nid, storeGet env.store (toInt32 (Q.add
                (nodeKey st (parentCoord n.x (Q.mul n.size 2))
                  (parentCoord n.y (Q.mul n.size 2)))
                (Q.mul (Q.mul (Q.sub n.y (parentCoord n.y (Q.mul n.size 2))) 4) st.cy)))
                = some nid →
                ∃ nn jj, heapGet e2.heap nid = some nn ∧ classAt st nn jj ∧ 1 ≤ jj := by
              intro nid hnid
              obtain ⟨nn, jj, hnn, hclnn, hjj⟩ := hlookY nid hnid
              obtain ⟨nn2, hnn2, hh1, hh2, hh3⟩ := hg2 nid nn hnn
              exact ⟨nn2, jj, hnn2, classAt_geom hh1 hh2 hh3 hclnn, hjj⟩
            obtain ⟨hE3, hg3⟩ := hstage _ e2 e3 hE2 hfY hsy
            exact ih e3 env' hE3 h
      · -- interior level: all four neighbors, with parent fallback
        rw [if_neg hsp] at h
        have hj1 : 1 ≤ j := by
          by_contra hj0
          have : j = 0 := by omega
          subst this
          rw [pow_zero, one_mul] at hsize
          exact hsp hsize
        have hbase0 : Even (toInt32Z KR0) := even_base hj1 u0 KR0 hu0e
        have hbu0 : ∀ c : ℕ, c = j → c ≤ e → ∃ u : ℤ, Odd u ∧
            toInt32Z KR0 ≡ 2 ^ c * u [ZMOD (2 ^ 32 : ℤ)] := by
          intro c hc hce
          subst hc
          exact ⟨u0, hu0odd, by rw [← hu0e]; exact toInt32Z_modeq KR0⟩
        obtain ⟨W1, hW1⟩ := cy_mul_size hst hsize
        obtain ⟨W2, hW2⟩ := cy_mul_size2 hst hsize
        have hcx1 := cx_mul_size hst hsize
        have hcx2 := cx_mul_size2 hst hsize
        -- the eight candidate keys
        have hkN : toInt32 (Q.sub (nodeKey st n.x n.y) (Q.mul n.size st.cy)) =
            ((toInt32Z (toInt32Z KR0 + 2 ^ j * (2 * (-W1))) : ℤ) : ℚ) := by
          rw [Q.sub_eq, hKcast, hW1]
          rw [show ((toInt32Z KR0 : ℤ) : ℚ) - ((2 ^ (j + 1) * W1 : ℤ) : ℚ) =
            ((toInt32Z KR0 + 2 ^ j * (2 * (-W1)) : ℤ) : ℚ) by push_cast; ring]
          rw [toInt32_intCast]
        have hkS : toInt32 (Q.add (nodeKey st n.x n.y) (Q.mul n.size st.cy)) =
            ((toInt32Z (toInt32Z KR0 + 2 ^ j * (2 * W1)) : ℤ) : ℚ) := by
          rw [Q.add_eq, hKcast, hW1]
          rw [show ((toInt32Z KR0 : ℤ) : ℚ) + ((2 ^ (j + 1) * W1 : ℤ) : ℚ) =
            ((toInt32Z KR0 + 2 ^ j * (2 * W1) : ℤ) : ℚ) by push_cast; ring]
          rw [toInt32_intCast]
        have hkE : toInt32 (Q.add (nodeKey st n.x n.y) (Q.mul n.size st.cx)) =
            ((toInt32Z (toInt32Z KR0 + 2 ^ j * (2 * 1)) : ℤ) : ℚ) := by
          rw [Q.add_eq, hKcast, hcx1]
          rw [show ((toInt32Z KR0 : ℤ) : ℚ) + ((2 ^ (j + 1) : ℤ) : ℚ) =
            ((toInt32Z KR0 + 2 ^ j * (2 * 1) : ℤ) : ℚ) by push_cast; ring]
          rw [toInt32_intCast]
        have hkW : toInt32 (Q.sub (nodeKey st n.x n.y) (Q.mul n.size st.cx)) =
            ((toInt32Z (toInt32Z KR0 + 2 ^ j * (2 * (-1))) : ℤ) : ℚ) := by
          rw [Q.sub_eq, hKcast, hcx1]
          rw [show ((toInt32Z KR0 : ℤ) : ℚ) - ((2 ^ (j + 1) : ℤ) : ℚ) =
            ((toInt32Z KR0 + 2 ^ j * (2 * (-1)) : ℤ) : ℚ) by push_cast; ring]
          rw [toInt32_intCast]
        have hkNP : toInt32 (Q.sub (nodeKey st (parentCoord n.x (Q.mul n.size 2))
            (parentCoord n.y (Q.mul n.size 2))) (Q.mul (Q.mul n.size 2) st.cy)) =
            ((toInt32Z (toInt32Z KRP + 2 ^ (j + 1) * (2 * (-W2))) : ℤ) : ℚ) := by
          rw [Q.sub_eq, hPKcast, hW2]
          rw [show ((toInt32Z KRP : ℤ) : ℚ) - ((2 ^ (j + 2) * W2 : ℤ) : ℚ) =
            ((toInt32Z KRP + 2 ^ (j + 1) * (2 * (-W2)) : ℤ) : ℚ) by push_cast; ring]
          rw [toInt32_intCast]
        have hkSP : toInt32 (Q.add (nodeKey st (parentCoord n.x (Q.mul n.size 2))
            (parentCoord n.y (Q.mul n.size 2))) (Q.mul (Q.mul n.size 2) st.cy)) =
            ((toInt32Z (toInt32Z KRP + 2 ^ (j + 1) * (2 * W2)) : ℤ) : ℚ) := by
          rw [Q.add_eq, hPKcast, hW2]
          rw [show ((toInt32Z KRP : ℤ) : ℚ) + ((2 ^ (j + 2) * W2 : ℤ) : ℚ) =
            ((toInt32Z KRP + 2 ^ (j + 1) * (2 * W2) : ℤ) : ℚ) by push_cast; ring]
          rw [toInt32_intCast]
        have hkEP : toInt32 (Q.add (nodeKey st (parentCoord n.x (Q.mul n.size 2))
            (parentCoord n.y (Q.mul n.size 2))) (Q.mul (Q.mul n.size 2) st.cx)) =
            ((toInt32Z (toInt32Z KRP + 2 ^ (j + 1) * (2 * 1)) : ℤ) : ℚ) := by
          rw [Q.add_eq, hPKcast, hcx2]
          rw [show ((toInt32Z KRP : ℤ) : ℚ) + ((2 ^ (j + 2) : ℤ) : ℚ) =
            ((toInt32Z KRP + 2 ^ (j + 1) * (2 * 1) : ℤ) : ℚ) by push_cast; ring]
          rw [toInt32_intCast]
        have hkWP : toInt32 (Q.sub (nodeKey st (parentCoord n.x (Q.mul n.size 2))
            (parentCoord n.y (Q.mul n.size 2))) (Q.mul (Q.mul n.size 2) st.cx)) =
            ((toInt32Z (toInt32Z KRP + 2 ^ (j + 1) * (2 * (-1))) : ℤ) : ℚ) := by
          rw [Q.sub_eq, hPKcast, hcx2]
          rw [show ((toInt32Z KRP : ℤ) : ℚ) - ((2 ^ (j + 2) : ℤ) : ℚ) =
            ((toInt32Z KRP + 2 ^ (j + 1) * (2 * (-1)) : ℤ) : ℚ) by push_cast; ring]
          rw [toInt32_intCast]
        -- safety of the four (fallback) neighbor references
        have hlookN : ∀ nid,
            ((storeGet env.store (toInt32 (Q.sub (nodeKey st n.x n.y)
                (Q.mul n.size st.cy)))).orElse
              fun _ => storeGet env.store (toInt32 (Q.sub
                (nodeKey st (parentCoord n.x (Q.mul n.size 2))
                  (parentCoord n.y (Q.mul n.size 2)))
                (Q.mul (Q.mul n.size 2) st.cy)))) = some nid →
            ∃ nn jj, heapGet env.heap nid = some nn ∧ classAt st nn jj ∧ 1 ≤ jj := by
          intro nid hnid
          rcases option_orElse_cases hnid with hl | hl
          · exact lookup_shift hE.1.1 he hj1 (hbu0 j rfl) hbase0 ⟨-W1, rfl⟩ hkN nid hl
          · exact lookup_shift hE.1.1 he (by omega) hPbu hPeven ⟨-W2, rfl⟩ hkNP nid hl
        have hlookS : ∀ nid,
            ((storeGet env.store (toInt32 (Q.add (nodeKey st n.x n.y)
                (Q.mul n.size st.cy)))).orElse
              fun _ => storeGet env.store (toInt32 (Q.add
                (nodeKey st (parentCoord n.x (Q.mul n.size 2))
                  (parentCoord n.y (Q.mul n.size 2)))
                (Q.mul (Q.mul n.size 2) st.cy)))) = some nid →
            ∃ nn jj, heapGet env.heap nid = some nn ∧ classAt st nn jj ∧ 1 ≤ jj := by
          intro nid hnid
          rcases option_orElse_cases hnid with hl | hl
          · exact lookup_shift hE.1.1 he hj1 (hbu0 j rfl) hbase0 ⟨W1, rfl⟩ hkS nid hl
          · exact lookup_shift hE.1.1 he (by omega) hPbu hPeven ⟨W2, rfl⟩ hkSP nid hl
        have hlookE : ∀ nid,
            ((storeGet env.store (toInt32 (Q.add (nodeKey st n.x n.y)
                (Q.mul n.size st.cx)))).orElse
              fun _ => storeGet env.store (toInt32 (Q.add
                (nodeKey st (parentCoord n.x (Q.mul n.size 2))
                  (parentCoord n.y (Q.mul n.size 2)))
                (Q.mul (Q.mul n.size 2) st.cx)))) = some nid →
            ∃ nn jj, heapGet env.heap nid = some nn ∧ classAt st nn jj ∧ 1 ≤ jj := by
          intro nid hnid
          rcases option_orElse_cases hnid with hl | hl
          · exact lookup_shift hE.1.1 he hj1 (hbu0 j rfl) hbase0 ⟨1, rfl⟩ hkE nid hl
          · exact lookup_shift hE.1.1 he (by omega) hPbu hPeven ⟨1, rfl⟩ hkEP nid hl
        have hlookW : ∀ nid,
            ((storeGet env.store (toInt32 (Q.sub (nodeKey st n.x n.y)
                (Q.mul n.size st.cx)))).orElse
              fun _ => storeGet env.store (toInt32 (Q.sub
                (nodeKey st (parentCoord n.x (Q.mul n.size 2))
                  (parentCoord n.y (Q.mul n.size 2)))
                (Q.mul (Q.mul n.size 2) st.cx)))) = some nid →
            ∃ nn jj, heapGet env.heap nid = some nn ∧ classAt st nn jj ∧ 1 ≤ jj := by
          intro nid hnid
          rcases option_orElse_cases hnid with hl | hl
          · exact lookup_shift hE.1.1 he hj1 (hbu0 j rfl) hbase0 ⟨-1, rfl⟩ hkW nid hl
          · exact lookup_shift hE.1.1 he (by omega) hPbu hPeven ⟨-1, rfl⟩ hkWP nid hl
        -- drive the four traverseNeighbor calls
        rcases h1 : traverseNeighbor f st fuel n.value
            ((storeGet env.store (toInt32 (Q.sub (nodeKey st n.x n.y)
                (Q.mul n.size st.cy)))).orElse
              fun _ => storeGet env.store (toInt32 (Q.sub
                (nodeKey st (parentCoord n.x (Q.mul n.size 2))
                  (parentCoord n.y (Q.mul n.size 2)))
                (Q.mul (Q.mul n.size 2) st.cy))))
            ⟨env.heap, env.store, rest, env.newCalls⟩ with - | ⟨e2, d1⟩
        · rw [h1] at h
          exact absurd h (by simp)
        rw [h1] at h
        dsimp only at h
        obtain ⟨hE2, hg2⟩ := traverseNeighbor_ok hst he hE'
          (fun nid hnid => hlookN nid hnid) h1
        rcases h2 : traverseNeighbor f st fuel n.value
            ((storeGet env.store (toInt32 (Q.add (nodeKey st n.x n.y)
                (Q.mul n.size st.cx)))).orElse
              fun _ => storeGet env.store (toInt32 (Q.add
                (nodeKey st (parentCoord n.x (Q.mul n.size 2))
                  (parentCoord n.y (Q.mul n.size 2)))
                (Q.mul (Q.mul n.size 2) st.cx)))) e2 with - | ⟨e3, d2⟩
        · rw [h2] at h
          exact absurd h (by simp)
        rw [h2] at h
        dsimp only at h
        obtain ⟨hE3, hg3⟩ := traverseNeighbor_ok hst he hE2 (by
          intro nid hnid
          obtain ⟨nn, jj, hnn, hclnn, hjj⟩ := hlookE nid hnid
          obtain ⟨nn2, hnn2, q1, q2, q3⟩ := hg2 nid nn hnn
          exact ⟨nn2, jj, hnn2, classAt_geom q1 q2 q3 hclnn, hjj⟩) h2
        rcases h3 : traverseNeighbor f st fuel n.value
            ((storeGet env.store (toInt32 (Q.add (nodeKey st n.x n.y)
                (Q.mul n.size st.cy)))).orElse
              fun _ => storeGet env.store (toInt32 (Q.add
                (nodeKey st (parentCoord n.x (Q.mul n.size 2))
                  (parentCoord n.y (Q.mul n.size 2)))
                (Q.mul (Q.mul n.size 2) st.cy)))) e3 with - | ⟨e4, d3⟩
        · rw [h3] at h
          exact absurd h (by simp)
        rw [h3] at h
        dsimp only at h
        obtain ⟨hE4, hg4⟩ := traverseNeighbor_ok hst he hE3 (by
          intro nid hnid
          obtain ⟨nn, jj, hnn, hclnn, hjj⟩ := hlookS nid hnid
          obtain ⟨nn2, hnn2, q1, q2, q3⟩ := (geomLe_trans hg2 hg3) nid nn hnn
          exact ⟨nn2, jj, hnn2, classAt_geom q1 q2 q3 hclnn, hjj⟩) h3
        rcases h4 : traverseNeighbor f st fuel n.value
            ((storeGet env.store (toInt32 (Q.sub (nodeKey st n.x n.y)
                (Q.mul n.size st.cx)))).orElse
              fun _ => storeGet env.store (toInt32 (Q.sub
                (nodeKey st (parentCoord n.x (Q.mul n.size 2))
                  (parentCoord n.y (Q.mul n.size 2)))
                (Q.mul (Q.mul n.size 2) st.cx)))) e4 with - | ⟨e5, d4⟩
        · rw [h4] at h
          exact absurd h (by simp)
        rw [h4] at h
        dsimp only at h
        obtain ⟨hE5, hg5⟩ := traverseNeighbor_ok hst he hE4 (by
          intro nid hnid
          obtain ⟨nn, jj, hnn, hclnn, hjj⟩ := hlookW nid hnid
          obtain ⟨nn2, hnn2, q1, q2, q3⟩ :=
            (geomLe_trans hg2 (geomLe_trans hg3 hg4)) nid nn hnn
          exact ⟨nn2, jj, hnn2, classAt_geom q1 q2 q3 hclnn, hjj⟩) h4
        have hgall : GeomLe env.heap e5.heap :=
          geomLe_trans hg2 (geomLe_trans hg3 (geomLe_trans hg4 hg5))
        obtain ⟨n5, hn5, p1, p2, p3⟩ := hgall id n hn
        cases hd : (d1 || d2 || d3 || d4)
        · rw [hd] at h
          simp only [Bool.false_eq_true, if_false] at h
          exact ih e5 env' hE5 h
        · rw [hd] at h
          simp only [if_true] at h
          rcases hsub : subdivideLeaf f st fuel id e5 with - | e6
          · rw [hsub] at h
            exact absurd h (by simp)
          · rw [hsub] at h
            dsimp only at h
            obtain ⟨hE6, -⟩ := subdivideLeaf_ok hst he fuel id e5 e6 hE5
              ⟨n5, j, hn5, classAt_geom p1 p2 p3 hcl', hj1⟩ hsub
            exact ih e6 env' hE6 h

theorem qpow_two_lt {a b : ℕ} (h : (2 : ℚ) ^ a < 2 ^ b) : a < b := by
  by_contra hab
  have : (2 : ℚ) ^ b ≤ 2 ^ a := pow_le_pow_right₀ one_le_two (by omega)
  exact absurd h (not_lt.2 this)

theorem geomLe_set_rev {h : Heap V} {i : ℕ} {m n : Node V}
    (hm : heapGet h i = some m) (hx : n.x = m.x) (hy : n.y = m.y)
    (hs : n.size = m.size) : GeomLe (heapSet h i n) h := by
  intro i' n' hn'
  by_cases hii : i = i'
  · subst hii
    rw [heapGet_set_self n hm] at hn'
    injection hn' with hn'
    subst hn'
    exact ⟨m, hm, hx.symm, hy.symm, hs.symm⟩
  · rw [heapGet_set_ne n hii] at hn'
    exact ⟨n', hn', rfl, rfl, rfl⟩

theorem copyFilterNode_ok {source target : State} {e : ℕ}
    (htgt : GoodState target e)
    (hps : source.pixelSize = target.pixelSize)
    {env : Env V} {id : ℕ} (hE : EnvOK target e env)
    (hcert : ∀ n0, heapGet env.heap id = some n0 →
      ∃ j, classAt source n0 j) :
    EnvOK target e (copyFilterNode source target env id) ∧
      GeomLe env.heap (copyFilterNode source target env id).heap ∧
      GeomLe (copyFilterNode source target env id).heap env.heap := by
  unfold copyFilterNode
  rcases hng : heapGet env.heap id with - | node
  · exact ⟨hE, geomLe_refl _, geomLe_refl _⟩
  obtain ⟨j, hcl⟩ := hcert node hng
  obtain ⟨hsize, hsle, ⟨a, haodd, hxa⟩, ⟨b, hbodd, hyb⟩⟩ := hcl
  rw [hps] at hsize
  dsimp only
  by_cases hbig : node.size ≥ target.sampleSpacing
  · rw [if_pos hbig]
    exact ⟨hE, geomLe_refl _, geomLe_refl _⟩
  rw [if_neg hbig]
  have hj : j < e := by
    refine qpow_two_lt ?_
    have h1 : node.size < target.sampleSpacing := lt_of_not_ge hbig
    rw [hsize, htgt.sse] at h1
    exact lt_of_mul_lt_mul_right h1 htgt.ppos.le
  have he1 : 1 ≤ e := by omega
  have hxa' : node.x = (a : ℚ) * (2 ^ j * target.pixelSize / 2) := by
    rw [hxa, hsize]
  have hyb' : node.y = (b : ℚ) * (2 ^ j * target.pixelSize / 2) := by
    rw [hyb, hsize]
  obtain ⟨KR, hKR, hu⟩ := keyRaw_form htgt (by omega : j ≤ e) haodd hbodd hxa' hyb'
  obtain ⟨u, huodd, hue⟩ := hu he1
  have hkey : nodeKey target node.x node.y = ((toInt32Z KR : ℤ) : ℚ) := by
    rw [nodeKey_raw, hKR, toInt32_intCast]
  have hcong : toInt32Z KR ≡ 2 ^ j * u [ZMOD (2 ^ 32 : ℤ)] := by
    rw [← hue]
    exact toInt32Z_modeq KR
  -- generic handling of one coercion step
  have hcoerce : ∀ (ev : Env V) (bb : Bool), EnvOK target e ev →
      GeomLe env.heap ev.heap → GeomLe ev.heap env.heap →
      EnvOK target e (if bb then
        { ev with heap := heapSet ev.heap id { node with leaf := true } }
        else ev) ∧
      GeomLe env.heap (if bb then
        { ev with heap := heapSet ev.heap id { node with leaf := true } }
        else ev).heap ∧
      GeomLe (if bb then
        { ev with heap := heapSet ev.heap id { node with leaf := true } }
        else ev).heap env.heap := by
    intro ev bb hEv hgv hgv'
    cases bb
    · simp only [Bool.false_eq_true, if_false]
      exact ⟨hEv, hgv, hgv'⟩
    · simp only [if_true]
      obtain ⟨m, hm, hm1, hm2, hm3⟩ := hgv id node hng
      have hset : GeomLe ev.heap
          (heapSet ev.heap id { node with leaf := true }) :=
        geomLe_set hm (by dsimp only; rw [hm1]) (by dsimp only; rw [hm2])
          (by dsimp only; rw [hm3])
      have hset' : GeomLe (heapSet ev.heap id { node with leaf := true })
          ev.heap :=
        geomLe_set_rev hm (by dsimp only; rw [hm1]) (by dsimp only; rw [hm2])
          (by dsimp only; rw [hm3])
      exact ⟨envOK_heap hEv hset, geomLe_trans hgv hset,
        geomLe_trans hset' hgv'⟩
  -- the final registration step
  have hfinal : ∀ (ev : Env V) (qb : Bool), EnvOK target e ev →
      GeomLe env.heap ev.heap → GeomLe ev.heap env.heap →
      EnvOK target e
        { ev with
          store := storeSet ev.store (nodeKey target node.x node.y) id,
          queue := if qb then id :: ev.queue else ev.queue } ∧
      GeomLe env.heap
        ({ ev with
          store := storeSet ev.store (nodeKey target node.x node.y) id,
          queue := if qb then id :: ev.queue else ev.queue } : Env V).heap ∧
      GeomLe ({ ev with
          store := storeSet ev.store (nodeKey target node.x node.y) id,
          queue := if qb then id :: ev.queue else ev.queue } : Env V).heap
        env.heap := by
    intro ev qb hEv hgv hgv'
    obtain ⟨m, hm, hm1, hm2, hm3⟩ := hgv id node hng
    have hclm : classAt target m j :=
      ⟨by rw [hm3]; exact hsize, by rw [hm3]; exact (lt_of_not_ge hbig).le,
        ⟨a, haodd, by rw [hm1, hm3]; exact hxa⟩,
        ⟨b, hbodd, by rw [hm2, hm3]; exact hyb⟩⟩
    obtain ⟨hS', hO'⟩ := insert_fine_ok htgt hEv.1 hEv.2.1 hm hclm hj hkey
      ⟨u, huodd, hcong⟩
    refine ⟨⟨hS', hO', ?_⟩, hgv, hgv'⟩
    intro i hi
    cases qb
    · simp only [Bool.false_eq_true, if_false] at hi
      exact hEv.2.2 i hi
    · simp only [if_true] at hi
      rcases List.mem_cons.1 hi with hii | hii
      · subst hii
        exact ⟨m, j, hclm, hm⟩
      · exact hEv.2.2 i hii
  rcases hf1 : filterLow node.x target.domain.x source.domain.x
      target.sampleSpacing node.size with - | ⟨q1, c1⟩
  · exact ⟨hE, geomLe_refl _, geomLe_refl _⟩
  obtain ⟨hE1, hg1, hg1'⟩ := hcoerce env c1 hE (geomLe_refl _) (geomLe_refl _)
  rcases hf2 : filterLow node.y target.domain.y source.domain.y
      target.sampleSpacing node.size with - | ⟨q2, c2⟩
  · exact ⟨hE1, hg1, hg1'⟩
  obtain ⟨hE2, hg2, hg2'⟩ := hcoerce _ c2 hE1 hg1 hg1'
  rcases hf3 : filterHigh node.x (Q.add target.domain.x target.domain.width)
      (Q.add source.domain.x source.domain.width)
      target.sampleSpacing node.size with - | ⟨q3, c3⟩
  · exact ⟨hE2, hg2, hg2'⟩
  obtain ⟨hE3, hg3, hg3'⟩ := hcoerce _ c3 hE2 hg2 hg2'
  rcases hf4 : filterHigh node.y (Q.add target.domain.y target.domain.height)
      (Q.add source.domain.y source.domain.height)
      target.sampleSpacing node.size with - | ⟨q4, c4⟩
  · exact ⟨hE3, hg3, hg3'⟩
  obtain ⟨hE4, hg4, hg4'⟩ := hcoerce _ c4 hE3 hg3 hg3'
  exact hfinal _ (q1 || q2 || q3 || q4) hE4 hg4 hg4'

theorem copyFold_ok {source target : State} {e : ℕ}
    (htgt : GoodState target e)
    (hps : source.pixelSize = target.pixelSize) (l : List (ℚ × ℕ)) :
    ∀ env : Env V, EnvOK target e env →
      (∀ ent ∈ l, ∀ n0, heapGet env.heap ent.2 = some n0 →
        ∃ j, classAt source n0 j) →
      EnvOK target e
        (l.foldl (fun ev ent => copyFilterNode source target ev ent.2) env) ∧
      GeomLe env.heap
        (l.foldl (fun ev ent => copyFilterNode source target ev ent.2) env).heap := by
  induction l with
  | nil =>
    intro env hE hc
    exact ⟨hE, geomLe_refl _⟩
  | cons ent l ih =>
    intro env hE hc
    rw [List.foldl_cons]
    obtain ⟨hE1, hg1, hg1'⟩ := copyFilterNode_ok htgt hps hE
      (fun n0 hn0 => hc ent (List.mem_cons_self ent l) n0 hn0)
    obtain ⟨hE2, hg2⟩ := ih _ hE1 (by
      intro ent' hent' n0 hn0
      obtain ⟨m, hm, q1, q2, q3⟩ := hg1' ent'.2 n0 hn0
      obtain ⟨j, hj⟩ := hc ent' (List.mem_cons_of_mem ent hent') m hm
      exact ⟨j, classAt_geom q1.symm q2.symm q3.symm hj⟩)
    exact ⟨hE2, geomLe_trans hg1 hg2⟩

theorem copyNodesFiltered_ok {source target : State} {e : ℕ}
    (htgt : GoodState target e)
    (hps : source.pixelSize = target.pixelSize)
    {env : Env V} (hE : EnvOK target e env)
    (hc : ∀ ent ∈ source.nodes, ∀ n0, heapGet env.heap ent.2 = some n0 →
      ∃ j, classAt source n0 j) :
    EnvOK target e (copyNodesFiltered source target env) := by
  unfold copyNodesFiltered
  exact (copyFold_ok htgt hps source.nodes env hE hc).1

theorem goodState_e_eq {st1 st2 : State} {e1 e2 : ℕ}
    (h1 : GoodState st1 e1) (h2 : GoodState st2 e2)
    (hss : st1.sampleSpacing = st2.sampleSpacing)
    (hp : st1.pixelSize = st2.pixelSize) : e1 = e2 := by
  have h : (2 : ℚ) ^ e1 * st1.pixelSize = 2 ^ e2 * st1.pixelSize := by
    rw [← h1.sse, hss, h2.sse, hp]
  exact qpow_two_inj (mul_right_cancel₀ h1.ppos.ne' h)

theorem entryCert_state {st st' : State} {e : ℕ} {heap : Heap V} {ent : ℚ × ℕ}
    (hp : st'.pixelSize = st.pixelSize)
    (hss : st'.sampleSpacing = st.sampleSpacing)
    (hc : entryCert st' e heap ent) : entryCert st e heap ent := by
  obtain ⟨n, j, K, hn, hcl, hk, hu, hcan⟩ := hc
  exact ⟨n, j, K, hn, classAt_transfer hp hss hcl, hk, hu, hcan⟩

theorem coarseEnt_state {st st' : State} {heap : Heap V} {ent : ℚ × ℕ}
    (hss : st'.sampleSpacing = st.sampleSpacing)
    (hc : coarseEnt st' heap ent) : coarseEnt st heap ent := by
  obtain ⟨n, hn, hs⟩ := hc
  exact ⟨n, hn, by rw [← hss]; exact hs⟩

theorem orderedStore_state {st st' : State} {heap : Heap V} {s : Store}
    (hss : st'.sampleSpacing = st.sampleSpacing)
    (ho : OrderedStore st' heap s) : OrderedStore st heap s := by
  refine List.Pairwise.imp ?_ ho
  intro x y hxy hcy
  exact coarseEnt_state hss (hxy (coarseEnt_state hss.symm hcy))

theorem haveSameBoundaries_eq {st1 st2 : State}
    (h : haveSameBoundaries st1 st2 = true) :
    st1.pixelSize = st2.pixelSize ∧
      st1.sampleSpacing = st2.sampleSpacing := by
  unfold haveSameBoundaries at h
  have h2 := of_decide_eq_true h
  exact ⟨h2.2.2.2.2.1, h2.2.2.2.2.2⟩

theorem mkState_pixelSize (d : Rect) (s p : ℚ) : (mkState d s p).pixelSize = p :=
  rfl

/-- A successful `compute` preserves the plot-level invariant: in particular
the resulting store still lists every root-level node before any finer
node. -/
theorem compute_plotOK {f : ℚ → ℚ → V} {fuel : ℕ} {P P' : Plot V} {d : Rect}
    {s p : ℚ} (hP : PlotOK P) (h : compute f fuel P d s p = .ok P') :
    PlotOK P' := by
  obtain ⟨hPq, eP, hPgood, hPstore, hPord⟩ := hP
  unfold compute at h
  cases hcs : createState d s p with
  | error err => simp [hcs] at h
  | ok st =>
    simp only [hcs] at h
    obtain ⟨e2, ho, hP'⟩ := computeFinish_ok_inv h
    obtain ⟨e', hgood, hnil⟩ := createState_goodState hcs
    have hstP : st.pixelSize = p := by
      rw [createState_ok_inv hcs, mkState_pixelSize]
    -- the environment after the grid / copy phase satisfies the invariant
    have hstep : EnvOK st e'
        (if st.sampleSpacing = P.state.sampleSpacing ∧ p = P.state.pixelSize ∧
            0 < overlappingArea st.domain P.state.domain then
          ((if haveSameBoundaries st P.state then
              { (⟨P.heap, [], P.queue, 0⟩ : Env V) with store := P.state.nodes }
            else
              copyNodesFiltered P.state st
                (computeGrid f st P.state (⟨P.heap, [], P.queue, 0⟩ : Env V))),
            if p = P.state.pixelSize then
              overlappingArea st.domain P.state.domain else 0)
        else (computeGrid f st EMPTY_STATE (⟨P.heap, [], P.queue, 0⟩ : Env V),
          0)).1 := by
      by_cases hre : st.sampleSpacing = P.state.sampleSpacing ∧
          p = P.state.pixelSize ∧ 0 < overlappingArea st.domain P.state.domain
      · rw [if_pos hre]
        have hee : e' = eP := goodState_e_eq hgood hPgood hre.1
          (by rw [hstP, hre.2.1])
        subst hee
        cases hsb : haveSameBoundaries st P.state
        · simp only [Bool.false_eq_true, if_false]
          have hgrid : GridOK st e' P.state
              (computeGrid f st P.state (⟨P.heap, [], P.queue, 0⟩ : Env V)) := by
            refine computeGrid_ok hgood ?_ ?_
            · intro hne2
              exact ⟨hPgood, by rw [hstP, hre.2.1], hre.1.symm⟩
            · refine ⟨⟨by simp, by simp⟩, by simp, ?_, ?_⟩
              · intro i hi
                rw [hPq] at hi
                exact absurd hi (by simp)
              · exact fun ent hent => hPstore.1 ent hent
          refine copyNodesFiltered_ok hgood (by rw [hstP, hre.2.1]) 
            (gridOK_envOK hgood hgrid) ?_
          intro ent hent n0 hn0
          obtain ⟨n, j, K, hn, hcl, -⟩ := hgrid.2.2.2 ent hent
          rw [hn] at hn0
          injection hn0 with hn0
          subst hn0
          exact ⟨j, hcl⟩
        · simp only [if_true]
          have hps : P.state.pixelSize = st.pixelSize :=
            (haveSameBoundaries_eq hsb).1.symm
          have hss : P.state.sampleSpacing = st.sampleSpacing :=
            (haveSameBoundaries_eq hsb).2.symm
          refine ⟨⟨?_, hPstore.2⟩, ?_, ?_⟩
          · intro ent hent
            exact entryCert_state hps hss (hPstore.1 ent hent)
          · exact orderedStore_state hss hPord
          · intro i hi
            rw [hPq] at hi
            exact absurd hi (by simp)
      · rw [if_neg hre]
        have hgrid : GridOK st e' EMPTY_STATE
            (computeGrid f st EMPTY_STATE (⟨P.heap, [], P.queue, 0⟩ : Env V)) := by
          refine computeGrid_ok hgood ?_ ?_
          · intro hne
            exact absurd rfl hne
          · refine ⟨⟨by simp, by simp⟩, by simp, ?_, ?_⟩
            · intro i hi
              rw [hPq] at hi
              exact absurd hi (by simp)
            · intro ent hent
              exact absurd hent (by simp [EMPTY_STATE])
        exact gridOK_envOK hgood hgrid
    -- the traversal phase
    have hE2 : EnvOK st e' e2 ∧ e2.queue = [] := by
      split at ho
      · have hfine : 1 ≤ e' := by
          refine (goodState_fine_iff hgood).1 ?_
          rw [hstP]
          assumption
        exact ⟨traverse_envOK hgood hfine fuel _ e2 hstep ho,
          traverse_ok_queue ho⟩
      · injection ho with ho
        subst ho
        exact ⟨⟨hstep.1, hstep.2.1, by intro i hi; exact absurd hi (by simp)⟩,
          rfl⟩
    rw [hP']
    refine ⟨hE2.2, e', goodState_nodes hgood e2.store, ⟨?_, hE2.1.1.2⟩, ?_⟩
    · intro ent hent
      exact entryCert_state rfl rfl (hE2.1.1.1 ent hent)
    · exact orderedStore_state rfl hE2.1.2.1

theorem collectSquares_geom {st : State} {store : Store} :
    ∀ (fuel : ℕ) (heap : Heap V) (id : ℕ)
      (r : Heap V × List (SquareRec V) × Option V),
      collectSquares st store fuel heap id = some r → GeomLe heap r.1 := by
  intro fuel
  induction fuel with
  | zero =>
    intro heap id r h
    exact absurd h (by simp [collectSquares])
  | succ fuel ih =>
    intro heap id r h
    rw [collectSquares] at h
    rcases hn : heapGet heap id with - | node
    · rw [hn] at h
      exact absurd h (by simp)
    rw [hn] at h
    dsimp only at h
    by_cases hlf : node.leaf = true
    · rw [if_pos hlf] at h
      injection h with h
      subst h
      exact geomLe_refl _
    rw [if_neg hlf] at h
    rcases hg1 : storeGet store (toInt32 (Q.add
        (Q.add (Q.add st.c0 (Q.mul st.cy node.y)) (Q.mul st.cx node.x))
        (Q.mul (Q.div node.size 4) (Q.add st.cx st.cy)))) with - | id1 <;>
      rw [hg1] at h
    · exact absurd h (by simp)
    rcases hg2 : storeGet store (toInt32 (Q.add
        (Q.add (Q.add st.c0 (Q.mul st.cy node.y)) (Q.mul st.cx node.x))
        (Q.mul (Q.div node.size 4) (Q.sub st.cx st.cy)))) with - | id2 <;>
      rw [hg2] at h
    · exact absurd h (by simp)
    rcases hg3 : storeGet store (toInt32 (Q.sub
        (Q.add (Q.add st.c0 (Q.mul st.cy node.y)) (Q.mul st.cx node.x))
        (Q.mul (Q.div node.size 4) (Q.add st.cx st.cy)))) with - | id3 <;>
      rw [hg3] at h
    · exact absurd h (by simp)
    rcases hg4 : storeGet store (toInt32 (Q.sub
        (Q.add (Q.add st.c0 (Q.mul st.cy node.y)) (Q.mul st.cx node.x))
        (Q.mul (Q.div node.size 4) (Q.sub st.cx st.cy)))) with - | id4 <;>
      rw [hg4] at h
    · exact absurd h (by simp)
    dsimp only at h
    rcases hr1 : collectSquares st store fuel heap id1 with - | ⟨heap1, out1, v1⟩ <;>
      rw [hr1] at h
    · exact absurd h (by simp)
    dsimp only at h
    rcases hr2 : collectSquares st store fuel heap1 id2 with - | ⟨heap2, out2, v2⟩ <;>
      rw [hr2] at h
    · exact absurd h (by simp)
    dsimp only at h
    rcases hr3 : collectSquares st store fuel heap2 id3 with - | ⟨heap3, out3, v3⟩ <;>
      rw [hr3] at h
    · exact absurd h (by simp)
    dsimp only at h
    rcases hr4 : collectSquares st store fuel heap3 id4 with - | ⟨heap4, out4, v4⟩ <;>
      rw [hr4] at h
    · exact absurd h (by simp)
    dsimp only at h
    have hch : GeomLe heap heap4 :=
      geomLe_trans (ih heap id1 _ hr1) (geomLe_trans (ih heap1 id2 _ hr2)
        (geomLe_trans (ih heap2 id3 _ hr3) (ih heap3 id4 _ hr4)))
    by_cases hcnd : v1 = none ∨ ¬v1 = v2 ∨ ¬v1 = v3 ∨ ¬v1 = v4
    · rw [if_pos hcnd] at h
      injection h with h
      subst h
      exact hch
    · rw [if_neg hcnd] at h
      rcases v1 with - | v
      · exact absurd (Or.inl rfl) hcnd
      dsimp only at h
      injection h with h
      subst h
      obtain ⟨m, hm, q1, q2, q3⟩ := hch id node hn
      refine geomLe_trans hch (geomLe_set hm ?_ ?_ ?_)
      · dsimp only
        rw [q1]
      · dsimp only
        rw [q2]
      · dsimp only
        rw [q3]

theorem squaresCLoop_geom {st : State} {store : Store} {fuel : ℕ} :
    ∀ (l : List (ℚ × ℕ)) (heap : Heap V) (r : Heap V × List (SquareRec V)),
      squaresCLoop st store fuel l heap = some r → GeomLe heap r.1 := by
  intro l
  induction l with
  | nil =>
    intro heap r h
    rw [squaresCLoop] at h
    injection h with h
    subst h
    exact geomLe_refl _
  | cons ent rest ih =>
    intro heap r h
    rw [squaresCLoop] at h
    rcases hn : heapGet heap ent.2 with - | node <;> rw [hn] at h
    · exact absurd h (by simp)
    dsimp only at h
    by_cases hsz : node.size < st.sampleSpacing
    · rw [if_pos hsz] at h
      injection h with h
      subst h
      exact geomLe_refl _
    rw [if_neg hsz] at h
    rcases hc : collectSquares st store fuel heap ent.2 with - | ⟨heap1, out, v⟩ <;>
      rw [hc] at h
    · exact absurd h (by simp)
    dsimp only at h
    rcases hl : squaresCLoop st store fuel rest heap1 with - | ⟨heap2, outRest⟩ <;>
      rw [hl] at h
    · exact absurd h (by simp)
    dsimp only at h
    injection h with h
    subst h
    exact geomLe_trans (collectSquares_geom fuel heap ent.2 _ hc)
      (ih heap1 (heap2, outRest) hl)

theorem squaresCompressed_plotOK {fuel : ℕ} {P P' : Plot V}
    {out : List (SquareRec V)} (hP : PlotOK P)
    (h : squaresCompressed fuel P = some (out, P')) : PlotOK P' := by
  unfold squaresCompressed at h
  rcases hl : squaresCLoop P.state P.state.nodes fuel P.state.nodes P.heap
      with - | ⟨heap2, out2⟩ <;> rw [hl] at h
  · exact absurd h (by simp)
  dsimp only at h
  injection h with h1
  have h2 : P' = { P with heap := heap2 } := (congrArg Prod.snd h1).symm
  subst h2
  obtain ⟨hq, e, hgood, hS, hO⟩ := hP
  have hg : GeomLe P.heap heap2 := squaresCLoop_geom _ _ _ hl
  exact ⟨hq, e, hgood, storeOK_geom hg hS, orderedStore_geom hg hS.1 hO⟩

theorem plotOK_fresh : PlotOK (Plot.fresh : Plot V) := by
  refine ⟨rfl, 0, goodState_empty, ⟨?_, ?_⟩, ?_⟩
  · intro ent hent
    exact absurd hent (by simp [Plot.fresh, EMPTY_STATE])
  · simp [Plot.fresh, EMPTY_STATE]
  · simp [Plot.fresh, EMPTY_STATE, OrderedStore]

theorem reachable_plotOK {P : Plot V} (h : Reachable P) : PlotOK P := by
  induction h with
  | fresh => exact plotOK_fresh
  | step f fuel d s p hR hok ih => exact compute_plotOK ih hok
  | compress fuel out hR hok ih => exact squaresCompressed_plotOK ih hok

/-- C10: after every `compute()` (and compressed `squares()` call, which
only mutates cached values) starting from `new Plot(f)`, the iteration
order of the state's node store lists every root-level node (of size equal
to `sampleSpacing`) before every node of smaller size: whenever a later
entry references a root-size node, every earlier entry does too, which is
what lets the compressed extractor stop at the first node with
`size < sampleSpacing`. -/
theorem C10_store_coarse_before_fine {P : Plot V} (hP : Reachable P) :
    P.state.nodes.Pairwise fun a b => ∀ m nn : Node V,
      heapGet P.heap a.2 = some m → heapGet P.heap b.2 = some nn →
      nn.size = P.state.sampleSpacing → m.size = P.state.sampleSpacing := by
  obtain ⟨-, e, -, -, hO⟩ := reachable_plotOK hP
  refine List.Pairwise.imp ?_ hO
  intro a b hab m nn hm hnn hsz
  obtain ⟨m', hm', hs'⟩ := hab ⟨nn, hnn, hsz⟩
  rw [hm] at hm'
  injection hm' with hm'
  subst hm'
  exact hs'

/-- Witness: the C10 theorem applied to the concrete plot computed for
`f(x, y) = x` on the domain `{0, 0, 4, 2}` with sample spacing 2 and pixel
size 1 (one root row, with a subdivided boundary). -/
theorem C10_store_coarse_before_fine_witness :
    c10P.state.nodes.Pairwise (fun a b => ∀ m nn : Node ℚ,
      heapGet c10P.heap a.2 = some m → heapGet c10P.heap b.2 = some nn →
      nn.size = c10P.state.sampleSpacing →
      m.size = c10P.state.sampleSpacing) :=
  C10_store_coarse_before_fine
    (Reachable.step c10F 99 ⟨0, 0, 4, 2⟩ 2 1 Reachable.fresh (by decide))

end ContourPlot
